import Mathlib

/-!
# 389DS-exporter: scrape-and-translate pipeline

A shallow embedding of `getStats` (ldap.go) and of `NewExporter`, `Describe` and
`Collect` (main.go), together with the library behaviour they rely on:

* `strconv.ParseFloat` (Go standard library) is modelled on strings of characters:
  the special literals, the literal grammar of `readFloat` and `underscoreOK`, and
  the value as the exact value of the literal rounded to the nearest binary64
  (ties to even), overflow giving an infinity together with `ErrRange`;
* the LDAP connection and `url.ParseRequestURI` are an environment `Env` that
  fixes the result each call would produce; `getStats` records the calls it makes;
* a runtime panic (index out of range) and `log.Fatal` are explicit outcomes.
-/

set_option autoImplicit false

namespace DSExporter

/-! ## binary64 values -/

/-- A float64 value: a finite value `(-1)^neg * mant * 2^exp`, an infinity, or NaN.
Finite values produced by `roundF64` are canonical: `mant < 2^53`, `-1074 ≤ exp ≤ 971`,
`2^52 ≤ mant` unless `exp = -1074`, and zero is `finite neg 0 0`. -/
inductive F64
  | finite (neg : Bool) (mant : Nat) (exp : Int)
  | inf (neg : Bool)
  | nan
  deriving DecidableEq, Repr

/-- The float64 constant `0` (positive zero). -/
def F64.zero : F64 := .finite false 0 0

/-- Whether a float64 is neither an infinity nor NaN. -/
def F64.isFinite : F64 → Bool
  | .finite _ _ _ => true
  | _ => false

/-- The real number a float64 denotes, when it denotes one. -/
def F64.toRat : F64 → Option ℚ
  | .finite neg mant exp => some ((if neg then -1 else 1) * (mant : ℚ) * (2 : ℚ) ^ exp)
  | _ => none

/-- Number of binary digits of `n`, by repeated halving (`fuel` bounds the halvings). -/
def bitLenAux : Nat → Nat → Nat
  | 0, _ => 0
  | fuel + 1, n => if n = 0 then 0 else bitLenAux fuel (n / 2) + 1

/-- Number of binary digits of `n`. -/
def bitLen (n : Nat) : Nat := bitLenAux n n

/-- The fraction `num / den` divided by `2^e`, as a pair numerator, denominator. -/
def scaleBy (num den : Nat) (e : Int) : Nat × Nat :=
  if 0 ≤ e then (num, den * 2 ^ e.toNat) else (num * 2 ^ (-e).toNat, den)

/-- The float64 with sign `neg`, significand `m < 2^53` and exponent `e`, after
rounding: an infinity, with the overflow flag set, when the exponent is above the
largest finite one. -/
def packF64 (neg : Bool) (m : Nat) (e : Int) : F64 × Bool :=
  if 971 < e then (.inf neg, true)
  else if m = 0 then (.finite neg 0 0, false)
  else (.finite neg m e, false)

/-- Round the non-negative fraction `num / den` (with sign `neg`) to the nearest
float64, ties to even.  The flag is true on overflow, where the value is an infinity. -/
def roundF64 (neg : Bool) (num den : Nat) : F64 × Bool :=
  if num = 0 then (.finite neg 0 0, false)
  else
    let e0 : Int := (bitLen num : Int) - (bitLen den : Int) - 52
    let s0 := scaleBy num den e0
    let e1 : Int := if 2 ^ 52 ≤ s0.1 / s0.2 then e0 else e0 - 1
    let e : Int := if e1 < -1074 then -1074 else e1
    let s := scaleBy num den e
    let m := s.1 / s.2
    let r := s.1 % s.2
    let m1 := if s.2 < 2 * r ∨ (2 * r = s.2 ∧ m % 2 = 1) then m + 1 else m
    let m2 := if m1 = 2 ^ 53 then 2 ^ 52 else m1
    let e2 : Int := if m1 = 2 ^ 53 then e + 1 else e
    packF64 neg m2 e2

/-- The conversion `float64(i)` of a Go `int`. -/
def F64.ofInt (i : Int) : F64 := (roundF64 (decide (i < 0)) i.natAbs 1).1

/-! ## strconv.ParseFloat -/

namespace strconv

/-- The two error kinds of `strconv.NumError`. -/
inductive NumError
  | ErrSyntax
  | ErrRange
  deriving DecidableEq, Repr

/-- Go `lower(c)`: `c | ('x' - 'X')`, as a character code. -/
def lower (c : Char) : Nat := c.toNat ||| 32

/-- Whether `'0' <= c && c <= '9'`. -/
def isDigit (c : Char) : Bool := decide ('0'.toNat ≤ c.toNat ∧ c.toNat ≤ '9'.toNat)

/-- Whether `'a' <= lower(c) && lower(c) <= 'f'`. -/
def isHexLetter (c : Char) : Bool := decide ('a'.toNat ≤ lower c ∧ lower c ≤ 'f'.toNat)

/-- The character code with an upper-case ASCII letter replaced by its lower-case letter:
`if 'A' <= c && c <= 'Z' { c += 'a' - 'A' }`. -/
def foldCase (c : Char) : Nat :=
  if 'A'.toNat ≤ c.toNat ∧ c.toNat ≤ 'Z'.toNat then c.toNat + ('a'.toNat - 'A'.toNat)
  else c.toNat

/-- Go `commonPrefixLenIgnoreCase(s, prefix)`; the second argument is lower-case. -/
def commonPrefixLenIgnoreCase : List Char → List Char → Nat
  | c :: s, p :: ps =>
    if foldCase c ≠ p.toNat then 0 else commonPrefixLenIgnoreCase s ps + 1
  | _, _ => 0

/-- The `case 'i', 'I'` body of Go `special`, entered directly or by falling through
from the sign case: `s` is the input after the sign, `nsign` the length of the sign. -/
def infBody (neg : Bool) (nsign : Nat) (s : List Char) : Option (F64 × Nat) :=
  let n0 := commonPrefixLenIgnoreCase s "infinity".toList
  let n := if 3 < n0 ∧ n0 < 8 then 3 else n0
  if n = 3 ∨ n = 8 then some (.inf neg, nsign + n) else none

/-- Go `special(s)`: the value and the number of characters consumed when `s` starts
with an optionally signed infinity or with NaN. -/
def special (s : List Char) : Option (F64 × Nat) :=
  match s with
  | [] => none
  | c :: rest =>
    if c = '+' then infBody false 1 rest
    else if c = '-' then infBody true 1 rest
    else if c = 'i' ∨ c = 'I' then infBody false 0 s
    else if c = 'n' ∨ c = 'N' then
      if commonPrefixLenIgnoreCase s "nan".toList = 3 then some (.nan, 3) else none
    else none

/-- The variables of the mantissa loop of Go `readFloat`.  The mantissa keeps every
digit (Go keeps 19 and a truncation flag, and recovers the exact value on its slow path). -/
structure Scan where
  mantissa : Nat
  sawdot : Bool
  sawdigits : Bool
  nd : Nat
  dp : Int
  underscores : Bool
  deriving DecidableEq, Repr

/-- The mantissa loop of Go `readFloat`: returns the final variables and the unread input. -/
def scanMantissa (base : Nat) : List Char → Scan → Scan × List Char
  | [], st => (st, [])
  | c :: cs, st =>
    if c = '_' then scanMantissa base cs { st with underscores := true }
    else if c = '.' then
      if st.sawdot then (st, c :: cs)
      else scanMantissa base cs { st with sawdot := true, dp := st.nd }
    else if isDigit c then
      if c = '0' ∧ st.nd = 0 then
        scanMantissa base cs { st with sawdigits := true, dp := st.dp - 1 }
      else
        scanMantissa base cs { st with sawdigits := true, nd := st.nd + 1,
                                       mantissa := st.mantissa * base + (c.toNat - '0'.toNat) }
    else if base = 16 ∧ isHexLetter c then
      scanMantissa base cs { st with sawdigits := true, nd := st.nd + 1,
                                     mantissa := st.mantissa * 16 + (lower c - 'a'.toNat + 10) }
    else (st, c :: cs)

/-- The exponent-digit loop of Go `readFloat` (the exponent stops growing at 10000). -/
def scanExponent : List Char → Nat → Bool → Nat × Bool × List Char
  | [], e, us => (e, us, [])
  | c :: cs, e, us =>
    if c = '_' then scanExponent cs e true
    else if isDigit c then
      scanExponent cs (if e < 10000 then e * 10 + (c.toNat - '0'.toNat) else e) us
    else (e, us, c :: cs)

/-- The loop of Go `underscoreOK`; `saw` is the class of the last character seen. -/
def underscoreLoop (hex : Bool) : List Char → Char → Bool
  | [], saw => saw ≠ '_'
  | c :: cs, saw =>
    if isDigit c ∨ (hex ∧ isHexLetter c) then underscoreLoop hex cs '0'
    else if c = '_' then
      if saw ≠ '0' then false else underscoreLoop hex cs '_'
    else if saw = '_' then false
    else underscoreLoop hex cs '!'

/-- Go `underscoreOK(s)`: underscores only between digits or after a base prefix. -/
def underscoreOK (s : List Char) : Bool :=
  let s1 := match s with
    | c :: rest => if c = '-' ∨ c = '+' then rest else s
    | [] => s
  match s1 with
  | z :: b :: rest =>
    if z = '0' ∧ (lower b = 'b'.toNat ∨ lower b = 'o'.toNat ∨ lower b = 'x'.toNat) then
      underscoreLoop (lower b = 'x'.toNat) rest '0'
    else underscoreLoop false s1 '^'
  | _ => underscoreLoop false s1 '^'

/-- What Go `readFloat` returns when `ok`: the literal denotes
`mantissa * 10^exp`, or `mantissa * 2^exp` when `hex`; `rest` is the unread input. -/
structure Literal where
  mantissa : Nat
  exp : Int
  neg : Bool
  hex : Bool
  rest : List Char
  deriving DecidableEq, Repr

/-- Go `readFloat(s)`; `none` is `ok = false`. -/
def readFloat (s : List Char) : Option Literal :=
  match s with
  | [] => none
  | c0 :: tl =>
    let neg := c0 = '-'
    let s1 := if c0 = '+' ∨ c0 = '-' then tl else s
    let hex : Bool := match s1 with
      | z :: x :: _ :: _ => z = '0' ∧ lower x = 'x'.toNat
      | _ => false
    let base := if hex then 16 else 10
    let s2 := if hex then s1.drop 2 else s1
    let (st, s3) := scanMantissa base s2 ⟨0, false, false, 0, 0, false⟩
    if ¬ st.sawdigits then none
    else
      let dp0 : Int := if st.sawdot then st.dp else st.nd
      let dp1 : Int := if hex then dp0 * 4 else dp0
      let ndMant : Int := if hex then st.nd * 4 else st.nd
      let expChar := if hex then 'p'.toNat else 'e'.toNat
      let finish (dp : Int) (us : Bool) (rest : List Char) : Option Literal :=
        let exp : Int := if st.mantissa ≠ 0 then dp - ndMant else 0
        if us ∧ ¬ underscoreOK (s.take (s.length - rest.length)) then none
        else some ⟨st.mantissa, exp, neg, hex, rest⟩
      match s3 with
      | c :: s4 =>
        if lower c = expChar then
          match s4 with
          | [] => none
          | d :: s5 =>
            let esign : Int := if d = '-' then -1 else 1
            let s6 := if d = '+' ∨ d = '-' then s5 else s4
            match s6 with
            | [] => none
            | f :: _ =>
              if ¬ isDigit f then none
              else
                let (e, us, s7) := scanExponent s6 0 st.underscores
                finish (dp1 + e * esign) us s7
        else if hex then none
        else finish dp1 st.underscores s3
      | [] => if hex then none else finish dp1 st.underscores s3

/-- The power `b^e` as a fraction. -/
def powFrac (b : Nat) (e : Int) : Nat × Nat :=
  if 0 ≤ e then (b ^ e.toNat, 1) else (1, b ^ (-e).toNat)

/-- Go `strconv.ParseFloat(s, 64)`: the value and the error (`none` is `nil`).
A special literal or a numeric literal must span the whole input; every syntax
error comes with the value 0, a range error with an infinity. -/
def ParseFloat (s : String) : F64 × Option NumError :=
  match special s.toList with
  | some (v, n) => if n ≠ s.length then (F64.zero, some .ErrSyntax) else (v, none)
  | none =>
    match readFloat s.toList with
    | none => (F64.zero, some .ErrSyntax)
    | some lit =>
      if lit.rest ≠ [] then (F64.zero, some .ErrSyntax)
      else
        let p := powFrac (if lit.hex then 2 else 10) lit.exp
        let r := roundF64 lit.neg (lit.mantissa * p.1) p.2
        (r.1, if r.2 then some .ErrRange else none)

end strconv

/-- The character codes of a string, upper-case ASCII letters folded to lower case. -/
def spelling (s : String) : List Nat := s.toList.map strconv.foldCase

/-- The spellings of the special literals of `strconv.ParseFloat`: `inf` and `infinity`,
each with an optional sign, and `nan`. -/
def specialSpellings : List (List Nat) :=
  ["inf", "+inf", "-inf", "infinity", "+infinity", "-infinity", "nan"].map
    fun w => w.toList.map Char.toNat

/-! ## Numeric literals as a grammar -/

/-- A decimal digit. -/
def decDigit (c : Char) : Bool := decide ('0'.toNat ≤ c.toNat ∧ c.toNat ≤ '9'.toNat)

/-- A hexadecimal digit, in either case. -/
def hexDigit (c : Char) : Bool :=
  decDigit c || decide ('a'.toNat ≤ c.toNat ∧ c.toNat ≤ 'f'.toNat) ||
    decide ('A'.toNat ≤ c.toNat ∧ c.toNat ≤ 'F'.toNat)

/-- The text after an optional sign. -/
def afterSign : List Char → List Char
  | [] => []
  | c :: cs => if c = '+' ∨ c = '-' then cs else c :: cs

/-- The text after a leading run of digits and underscores. -/
def afterDigits (digit : Char → Bool) (s : List Char) : List Char :=
  s.dropWhile fun c => digit c || c == '_'

/-- Whether the leading run of digits and underscores holds a digit. -/
def leadsWithDigit (digit : Char → Bool) (s : List Char) : Bool :=
  (s.takeWhile fun c => digit c || c == '_').any digit

/-- The text after a mantissa: a run of digits and underscores, then possibly a point
and a second run. -/
def afterMantissa (digit : Char → Bool) (s : List Char) : List Char :=
  match afterDigits digit s with
  | [] => []
  | c :: r => if c = '.' then afterDigits digit r else c :: r

/-- Whether the mantissa at the head of the text holds a digit, before or after its
point. -/
def mantissaHasDigit (digit : Char → Bool) (s : List Char) : Bool :=
  leadsWithDigit digit s ||
    match afterDigits digit s with
    | [] => false
    | c :: r => c == '.' && leadsWithDigit digit r

/-- An exponent that ends the text: the marker, an optional sign, a decimal digit, then
decimal digits and underscores up to the end. -/
def isExponent (marker : Char → Bool) : List Char → Bool
  | [] => false
  | c :: r =>
    marker c &&
      match afterSign r with
      | [] => false
      | d :: ds => decDigit d && (afterDigits decDigit ds).isEmpty

/-- Every underscore of the text stands between two digits; `prev` tells whether a
digit, or the base prefix, stands right before the text. -/
def separated (digit : Char → Bool) : Bool → List Char → Bool
  | _, [] => true
  | prev, c :: cs =>
    if c = '_' then
      prev && (match cs with
        | [] => false
        | d :: _ => digit d) && separated digit false cs
    else separated digit (digit c) cs

/-- A decimal or scientific-notation number: an optional sign; decimal digits with at
most one point and at least one digit; optionally `e` or `E`, an optional sign and at
least one decimal digit.  Single underscores may separate digits. -/
def isDecimalNumber (s : String) : Bool :=
  mantissaHasDigit decDigit (afterSign s.toList) &&
    ((afterMantissa decDigit (afterSign s.toList)).isEmpty ||
      isExponent (fun c => c == 'e' || c == 'E')
        (afterMantissa decDigit (afterSign s.toList))) &&
    separated decDigit false (afterSign s.toList)

/-- A hexadecimal floating-point literal: an optional sign; `0x` or `0X`; hexadecimal
digits with at most one point and at least one digit; `p` or `P`, an optional sign and
at least one decimal digit.  Single underscores may separate digits, or the prefix from
the first digit. -/
def isHexLiteral (s : String) : Bool :=
  match afterSign s.toList with
  | z :: x :: body =>
    z == '0' && (x == 'x' || x == 'X') && mantissaHasDigit hexDigit body &&
      isExponent (fun c => c == 'p' || c == 'P') (afterMantissa hexDigit body) &&
      separated hexDigit true body
  | _ => false

/-- The digit test of the mantissa loop of `readFloat` in a given base. -/
def strconv.loopDigit (base : Nat) (c : Char) : Bool :=
  strconv.isDigit c || (decide (base = 16) && strconv.isHexLetter c)

/-! ## Data model (main.go, go-ldap) -/

/-- The struct `DSData` of main.go: the `up` flag and the 28 counters. -/
structure DSData where
  up : Int
  anonymousbinds : F64
  unauthbinds : F64
  simpleauthbinds : F64
  strongauthbinds : F64
  bindsecurityerrors : F64
  inops : F64
  readops : F64
  compareops : F64
  addentryops : F64
  removeentryops : F64
  modifyentryops : F64
  modifyrdnops : F64
  searchops : F64
  onelevelsearchops : F64
  wholesubtreesearchops : F64
  referrals : F64
  securityerrors : F64
  errors : F64
  connections : F64
  connectionseq : F64
  connectionsinmaxthreads : F64
  connectionsmaxthreadscount : F64
  bytesrecv : F64
  bytessent : F64
  entriesreturned : F64
  referralsreturned : F64
  cacheentries : F64
  cachehits : F64
  deriving DecidableEq, Repr

/-- The Go zero value `DSData{}`. -/
def DSData.empty : DSData :=
  { up := 0,
    anonymousbinds := F64.zero,
    unauthbinds := F64.zero,
    simpleauthbinds := F64.zero,
    strongauthbinds := F64.zero,
    bindsecurityerrors := F64.zero,
    inops := F64.zero,
    readops := F64.zero,
    compareops := F64.zero,
    addentryops := F64.zero,
    removeentryops := F64.zero,
    modifyentryops := F64.zero,
    modifyrdnops := F64.zero,
    searchops := F64.zero,
    onelevelsearchops := F64.zero,
    wholesubtreesearchops := F64.zero,
    referrals := F64.zero,
    securityerrors := F64.zero,
    errors := F64.zero,
    connections := F64.zero,
    connectionseq := F64.zero,
    connectionsinmaxthreads := F64.zero,
    connectionsmaxthreadscount := F64.zero,
    bytesrecv := F64.zero,
    bytessent := F64.zero,
    entriesreturned := F64.zero,
    referralsreturned := F64.zero,
    cacheentries := F64.zero,
    cachehits := F64.zero }

/-- The 28 tracked fields: the fields of `DSData` other than `up`, in declaration order. -/
inductive Field
  | anonymousbinds
  | unauthbinds
  | simpleauthbinds
  | strongauthbinds
  | bindsecurityerrors
  | inops
  | readops
  | compareops
  | addentryops
  | removeentryops
  | modifyentryops
  | modifyrdnops
  | searchops
  | onelevelsearchops
  | wholesubtreesearchops
  | referrals
  | securityerrors
  | errors
  | connections
  | connectionseq
  | connectionsinmaxthreads
  | connectionsmaxthreadscount
  | bytesrecv
  | bytessent
  | entriesreturned
  | referralsreturned
  | cacheentries
  | cachehits
  deriving DecidableEq, Repr

/-- The fields in the order in which `DSData` declares them. -/
def Field.all : List Field :=
  [.anonymousbinds, .unauthbinds, .simpleauthbinds, .strongauthbinds,
   .bindsecurityerrors, .inops, .readops, .compareops,
   .addentryops, .removeentryops, .modifyentryops, .modifyrdnops,
   .searchops, .onelevelsearchops, .wholesubtreesearchops, .referrals,
   .securityerrors, .errors, .connections, .connectionseq,
   .connectionsinmaxthreads, .connectionsmaxthreadscount, .bytesrecv, .bytessent,
   .entriesreturned, .referralsreturned, .cacheentries, .cachehits]

/-- The identifier of a field, which is also the attribute name `getStats` matches. -/
def Field.name : Field → String
  | .anonymousbinds => "anonymousbinds"
  | .unauthbinds => "unauthbinds"
  | .simpleauthbinds => "simpleauthbinds"
  | .strongauthbinds => "strongauthbinds"
  | .bindsecurityerrors => "bindsecurityerrors"
  | .inops => "inops"
  | .readops => "readops"
  | .compareops => "compareops"
  | .addentryops => "addentryops"
  | .removeentryops => "removeentryops"
  | .modifyentryops => "modifyentryops"
  | .modifyrdnops => "modifyrdnops"
  | .searchops => "searchops"
  | .onelevelsearchops => "onelevelsearchops"
  | .wholesubtreesearchops => "wholesubtreesearchops"
  | .referrals => "referrals"
  | .securityerrors => "securityerrors"
  | .errors => "errors"
  | .connections => "connections"
  | .connectionseq => "connectionseq"
  | .connectionsinmaxthreads => "connectionsinmaxthreads"
  | .connectionsmaxthreadscount => "connectionsmaxthreadscount"
  | .bytesrecv => "bytesrecv"
  | .bytessent => "bytessent"
  | .entriesreturned => "entriesreturned"
  | .referralsreturned => "referralsreturned"
  | .cacheentries => "cacheentries"
  | .cachehits => "cachehits"

/-- The 28 tracked attribute names. -/
def trackedNames : List String := Field.all.map Field.name

/-- Selection of the struct field `d.f`. -/
def DSData.get (d : DSData) : Field → F64
  | .anonymousbinds => d.anonymousbinds
  | .unauthbinds => d.unauthbinds
  | .simpleauthbinds => d.simpleauthbinds
  | .strongauthbinds => d.strongauthbinds
  | .bindsecurityerrors => d.bindsecurityerrors
  | .inops => d.inops
  | .readops => d.readops
  | .compareops => d.compareops
  | .addentryops => d.addentryops
  | .removeentryops => d.removeentryops
  | .modifyentryops => d.modifyentryops
  | .modifyrdnops => d.modifyrdnops
  | .searchops => d.searchops
  | .onelevelsearchops => d.onelevelsearchops
  | .wholesubtreesearchops => d.wholesubtreesearchops
  | .referrals => d.referrals
  | .securityerrors => d.securityerrors
  | .errors => d.errors
  | .connections => d.connections
  | .connectionseq => d.connectionseq
  | .connectionsinmaxthreads => d.connectionsinmaxthreads
  | .connectionsmaxthreadscount => d.connectionsmaxthreadscount
  | .bytesrecv => d.bytesrecv
  | .bytessent => d.bytessent
  | .entriesreturned => d.entriesreturned
  | .referralsreturned => d.referralsreturned
  | .cacheentries => d.cacheentries
  | .cachehits => d.cachehits

/-- An attribute of a search result entry (go-ldap `EntryAttribute`). -/
structure EntryAttribute where
  Name : String
  Values : List String
  deriving DecidableEq, Repr

/-- An entry of a search result (go-ldap `Entry`). -/
structure Entry where
  DN : String
  Attributes : List EntryAttribute
  deriving DecidableEq, Repr

/-- The result of a search (go-ldap `SearchResult`). -/
structure SearchResult where
  Entries : List Entry
  deriving DecidableEq, Repr

/-! ## getStats: attribute extraction (ldap.go, lines 52-351) -/

/-- The 28 local string variables declared by `getStats` (ldap.go, lines 52-81). -/
structure Locals where
  anonymousbinds : String
  unauthbinds : String
  simpleauthbinds : String
  strongauthbinds : String
  bindsecurityerrors : String
  inops : String
  readops : String
  compareops : String
  addentryops : String
  removeentryops : String
  modifyentryops : String
  modifyrdnops : String
  searchops : String
  onelevelsearchops : String
  wholesubtreesearchops : String
  referrals : String
  securityerrors : String
  errors : String
  connections : String
  connectionseq : String
  connectionsinmaxthreads : String
  connectionsmaxthreadscount : String
  bytesrecv : String
  bytessent : String
  entriesreturned : String
  referralsreturned : String
  cacheentries : String
  cachehits : String
  deriving DecidableEq, Repr

/-- The locals as declared: every one the empty string. -/
def Locals.init : Locals :=
  { anonymousbinds := "",
    unauthbinds := "",
    simpleauthbinds := "",
    strongauthbinds := "",
    bindsecurityerrors := "",
    inops := "",
    readops := "",
    compareops := "",
    addentryops := "",
    removeentryops := "",
    modifyentryops := "",
    modifyrdnops := "",
    searchops := "",
    onelevelsearchops := "",
    wholesubtreesearchops := "",
    referrals := "",
    securityerrors := "",
    errors := "",
    connections := "",
    connectionseq := "",
    connectionsinmaxthreads := "",
    connectionsmaxthreadscount := "",
    bytesrecv := "",
    bytessent := "",
    entriesreturned := "",
    referralsreturned := "",
    cacheentries := "",
    cachehits := "" }

/-- Selection of the local variable named after a field. -/
def Locals.get (v : Locals) : Field → String
  | .anonymousbinds => v.anonymousbinds
  | .unauthbinds => v.unauthbinds
  | .simpleauthbinds => v.simpleauthbinds
  | .strongauthbinds => v.strongauthbinds
  | .bindsecurityerrors => v.bindsecurityerrors
  | .inops => v.inops
  | .readops => v.readops
  | .compareops => v.compareops
  | .addentryops => v.addentryops
  | .removeentryops => v.removeentryops
  | .modifyentryops => v.modifyentryops
  | .modifyrdnops => v.modifyrdnops
  | .searchops => v.searchops
  | .onelevelsearchops => v.onelevelsearchops
  | .wholesubtreesearchops => v.wholesubtreesearchops
  | .referrals => v.referrals
  | .securityerrors => v.securityerrors
  | .errors => v.errors
  | .connections => v.connections
  | .connectionseq => v.connectionseq
  | .connectionsinmaxthreads => v.connectionsinmaxthreads
  | .connectionsmaxthreadscount => v.connectionsmaxthreadscount
  | .bytesrecv => v.bytesrecv
  | .bytessent => v.bytessent
  | .entriesreturned => v.entriesreturned
  | .referralsreturned => v.referralsreturned
  | .cacheentries => v.cacheentries
  | .cachehits => v.cachehits

/-- One iteration of the loop over the attributes (ldap.go, lines 87-150): the
switch on the attribute name.  `none` is the index-out-of-range panic of `value[0]`. -/
def assign (v : Locals) (attr : EntryAttribute) : Option Locals :=
  let name := attr.Name
  let value := attr.Values
  if name = "anonymousbinds" then
    value[0]?.map fun x => { v with anonymousbinds := x }
  else if name = "unauthbinds" then
    value[0]?.map fun x => { v with unauthbinds := x }
  else if name = "simpleauthbinds" then
    value[0]?.map fun x => { v with simpleauthbinds := x }
  else if name = "strongauthbinds" then
    value[0]?.map fun x => { v with strongauthbinds := x }
  else if name = "bindsecurityerrors" then
    value[0]?.map fun x => { v with bindsecurityerrors := x }
  else if name = "inops" then
    value[0]?.map fun x => { v with inops := x }
  else if name = "readops" then
    value[0]?.map fun x => { v with readops := x }
  else if name = "compareops" then
    value[0]?.map fun x => { v with compareops := x }
  else if name = "addentryops" then
    value[0]?.map fun x => { v with addentryops := x }
  else if name = "removeentryops" then
    value[0]?.map fun x => { v with removeentryops := x }
  else if name = "modifyentryops" then
    value[0]?.map fun x => { v with modifyentryops := x }
  else if name = "modifyrdnops" then
    value[0]?.map fun x => { v with modifyrdnops := x }
  else if name = "searchops" then
    value[0]?.map fun x => { v with searchops := x }
  else if name = "onelevelsearchops" then
    value[0]?.map fun x => { v with onelevelsearchops := x }
  else if name = "wholesubtreesearchops" then
    value[0]?.map fun x => { v with wholesubtreesearchops := x }
  else if name = "referrals" then
    value[0]?.map fun x => { v with referrals := x }
  else if name = "securityerrors" then
    value[0]?.map fun x => { v with securityerrors := x }
  else if name = "errors" then
    value[0]?.map fun x => { v with errors := x }
  else if name = "connections" then
    value[0]?.map fun x => { v with connections := x }
  else if name = "connectionseq" then
    value[0]?.map fun x => { v with connectionseq := x }
  else if name = "connectionsinmaxthreads" then
    value[0]?.map fun x => { v with connectionsinmaxthreads := x }
  else if name = "connectionsmaxthreadscount" then
    value[0]?.map fun x => { v with connectionsmaxthreadscount := x }
  else if name = "bytesrecv" then
    value[0]?.map fun x => { v with bytesrecv := x }
  else if name = "bytessent" then
    value[0]?.map fun x => { v with bytessent := x }
  else if name = "entriesreturned" then
    value[0]?.map fun x => { v with entriesreturned := x }
  else if name = "referralsreturned" then
    value[0]?.map fun x => { v with referralsreturned := x }
  else if name = "cacheentries" then
    value[0]?.map fun x => { v with cacheentries := x }
  else if name = "cachehits" then
    value[0]?.map fun x => { v with cachehits := x }
  else some v

/-- The loop `for _, attr := range attributes` (ldap.go, lines 86-151). -/
def scanAttributes : Locals → List EntryAttribute → Option Locals
  | v, [] => some v
  | v, attr :: rest =>
    match assign v attr with
    | none => none
    | some v1 => scanAttributes v1 rest

/-- The coercion applied to each local (ldap.go, lines 153-319): `strconv.ParseFloat`,
and 0 when it reports an error. -/
def parseOrZero (s : String) : F64 :=
  match strconv.ParseFloat s with
  | (f, none) => f
  | (_, some _) => F64.zero

/-- The message logged for a local that does not parse (`invalid` and the field name). -/
def parseLog (field : String) (s : String) : List String :=
  match strconv.ParseFloat s with
  | (_, none) => []
  | (_, some _) => ["invalid " ++ field]

/-- The struct returned on success (ldap.go, lines 321-351). -/
def toDSData (v : Locals) : DSData :=
  { up := 1,
    anonymousbinds := parseOrZero v.anonymousbinds,
    unauthbinds := parseOrZero v.unauthbinds,
    simpleauthbinds := parseOrZero v.simpleauthbinds,
    strongauthbinds := parseOrZero v.strongauthbinds,
    bindsecurityerrors := parseOrZero v.bindsecurityerrors,
    inops := parseOrZero v.inops,
    readops := parseOrZero v.readops,
    compareops := parseOrZero v.compareops,
    addentryops := parseOrZero v.addentryops,
    removeentryops := parseOrZero v.removeentryops,
    modifyentryops := parseOrZero v.modifyentryops,
    modifyrdnops := parseOrZero v.modifyrdnops,
    searchops := parseOrZero v.searchops,
    onelevelsearchops := parseOrZero v.onelevelsearchops,
    wholesubtreesearchops := parseOrZero v.wholesubtreesearchops,
    referrals := parseOrZero v.referrals,
    securityerrors := parseOrZero v.securityerrors,
    errors := parseOrZero v.errors,
    connections := parseOrZero v.connections,
    connectionseq := parseOrZero v.connectionseq,
    connectionsinmaxthreads := parseOrZero v.connectionsinmaxthreads,
    connectionsmaxthreadscount := parseOrZero v.connectionsmaxthreadscount,
    bytesrecv := parseOrZero v.bytesrecv,
    bytessent := parseOrZero v.bytessent,
    entriesreturned := parseOrZero v.entriesreturned,
    referralsreturned := parseOrZero v.referralsreturned,
    cacheentries := parseOrZero v.cacheentries,
    cachehits := parseOrZero v.cachehits }

/-- The messages logged by the 28 coercions, in source order. -/
def coercionLogs (v : Locals) : List String :=
  parseLog "anonymousbinds" v.anonymousbinds ++
  parseLog "unauthbinds" v.unauthbinds ++
  parseLog "simpleauthbinds" v.simpleauthbinds ++
  parseLog "strongauthbinds" v.strongauthbinds ++
  parseLog "bindsecurityerrors" v.bindsecurityerrors ++
  parseLog "inops" v.inops ++
  parseLog "readops" v.readops ++
  parseLog "compareops" v.compareops ++
  parseLog "addentryops" v.addentryops ++
  parseLog "removeentryops" v.removeentryops ++
  parseLog "modifyentryops" v.modifyentryops ++
  parseLog "modifyrdnops" v.modifyrdnops ++
  parseLog "searchops" v.searchops ++
  parseLog "onelevelsearchops" v.onelevelsearchops ++
  parseLog "wholesubtreesearchops" v.wholesubtreesearchops ++
  parseLog "referrals" v.referrals ++
  parseLog "securityerrors" v.securityerrors ++
  parseLog "errors" v.errors ++
  parseLog "connections" v.connections ++
  parseLog "connectionseq" v.connectionseq ++
  parseLog "connectionsinmaxthreads" v.connectionsinmaxthreads ++
  parseLog "connectionsmaxthreadscount" v.connectionsmaxthreadscount ++
  parseLog "bytesrecv" v.bytesrecv ++
  parseLog "bytessent" v.bytessent ++
  parseLog "entriesreturned" v.entriesreturned ++
  parseLog "referralsreturned" v.referralsreturned ++
  parseLog "cacheentries" v.cacheentries ++
  parseLog "cachehits" v.cachehits

/-- The extraction part of `getStats` on the attributes of the first entry:
the loop, then the coercions.  `none` is a panic. -/
def extract (attributes : List EntryAttribute) : Option DSData :=
  (scanAttributes Locals.init attributes).map toDSData

/-! ## getStats: directory session (ldap.go, lines 15-50) -/

/-- A Go error value returned by a library call, identified by its message. -/
structure Err where
  text : String
  deriving DecidableEq, Repr

/-- The error built by `fmt.Errorf(what + ": %w", err)`: the text put before the
wrapped error, and the wrapped error. -/
structure WrapError where
  what : String
  err : Err
  deriving DecidableEq, Repr

/-- The message of a wrapped error. -/
def WrapError.Error (e : WrapError) : String := e.what ++ ": " ++ e.err.text

/-- The arguments of `ldap.NewSearchRequest`. -/
structure SearchRequest where
  BaseDN : String
  Scope : Nat
  DerefAliases : Nat
  SizeLimit : Nat
  TimeLimit : Nat
  TypesOnly : Bool
  Filter : String
  Attributes : List String
  Controls : List String
  deriving DecidableEq, Repr

/-- The request built at ldap.go, lines 39-45 (`ScopeWholeSubtree` is 2,
`NeverDerefAliases` is 0). -/
def searchRequest : SearchRequest :=
  { BaseDN := "cn=snmp, cn=monitor", Scope := 2, DerefAliases := 0, SizeLimit := 0,
    TimeLimit := 0, TypesOnly := false, Filter := "(objectclass=*)", Attributes := [],
    Controls := [] }

/-- The world `getStats` talks to: for each library call, the result it produces.
For the calls that return only an error, `none` is `nil`. -/
structure Env where
  /-- The host name of the parsed URL, or the parse error of `url.ParseRequestURI`. -/
  ParseRequestURI : String → Except Err String
  /-- The error of `ldap.DialURL(server)`. -/
  DialURL : String → Option Err
  /-- The error of `conn.StartTLS` for a given `ServerName`. -/
  StartTLS : String → Option Err
  /-- The error of `conn.Bind(binddn, password)`. -/
  Bind : String → String → Option Err
  /-- The result of `conn.Search(searchRequest)`. -/
  Search : SearchRequest → Except Err SearchResult

/-- A call made on the LDAP library. -/
inductive Call
  | DialURL (addr : String)
  | StartTLS (serverName : String)
  | Bind (username password : String)
  | Search (req : SearchRequest)
  | Close
  deriving DecidableEq, Repr

/-- How an invocation of `getStats` ends. -/
inductive Outcome
  /-- The process exits in `log.Fatal`. -/
  | exited
  /-- A runtime panic (index out of range). -/
  | panicked
  /-- A normal return of `(data, err)`; `none` is the `nil` error. -/
  | returned (data : DSData) (err : Option WrapError)
  deriving DecidableEq, Repr

/-- An invocation of `getStats`: the library calls in order, the messages logged, the end. -/
structure Run where
  calls : List Call
  logs : List String
  outcome : Outcome
  deriving DecidableEq, Repr

/-- The part of `getStats` from the search on (ldap.go, lines 39-351). -/
def searchStage (env : Env) : Run :=
  match env.Search searchRequest with
  | .error err =>
    ⟨[.Search searchRequest], [], .returned DSData.empty (some ⟨"failed to search", err⟩)⟩
  | .ok sr =>
    match sr.Entries with
    | [] => ⟨[.Search searchRequest], [], .panicked⟩
    | entry :: _ =>
      match scanAttributes Locals.init entry.Attributes with
      | none => ⟨[.Search searchRequest], [], .panicked⟩
      | some v => ⟨[.Search searchRequest], coercionLogs v, .returned (toDSData v) none⟩

/-- The part of `getStats` from the bind on (ldap.go, lines 33-351). -/
def bindStage (env : Env) (binddn password : String) : Run :=
  if binddn ≠ "" then
    match env.Bind binddn password with
    | some err =>
      ⟨[.Bind binddn password], [], .returned DSData.empty (some ⟨"failed to bind", err⟩)⟩
    | none =>
      let r := searchStage env
      ⟨.Bind binddn password :: r.calls, r.logs, r.outcome⟩
  else searchStage env

/-- The part of `getStats` after `defer conn.Close()` (ldap.go, lines 27-351);
`host` is `u.Hostname()`. -/
def tlsStage (env : Env) (host : String) (startTLS : Bool) (binddn password : String) : Run :=
  if startTLS then
    match env.StartTLS host with
    | some err =>
      ⟨[.StartTLS host], [], .returned DSData.empty (some ⟨"failed to start TLS", err⟩)⟩
    | none =>
      let r := bindStage env binddn password
      ⟨.StartTLS host :: r.calls, r.logs, r.outcome⟩
  else bindStage env binddn password

/-- Go `getStats(server, startTLS, binddn, password)` (ldap.go, lines 15-352).  The
deferred `conn.Close()` runs when the rest of the body ends, by return or by panic. -/
def getStats (env : Env) (server : String) (startTLS : Bool) (binddn password : String) : Run :=
  match env.ParseRequestURI server with
  | .error err => ⟨[], [err.text], .exited⟩
  | .ok host =>
    match env.DialURL server with
    | some err =>
      ⟨[.DialURL server], [], .returned DSData.empty (some ⟨"failed to connect", err⟩)⟩
    | none =>
      let r := tlsStage env host startTLS binddn password
      ⟨.DialURL server :: (r.calls ++ [.Close]), r.logs, r.outcome⟩

/-! ## Exporter (main.go) -/

/-- The metric namespace constant of main.go. -/
def metricNamespace : String := "ds_exporter"

/-- Go `prometheus.BuildFQName`: the non-empty parts joined by an underscore. -/
def BuildFQName (ns subsystem name : String) : String :=
  if name = "" then ""
  else if ns ≠ "" ∧ subsystem ≠ "" then ns ++ "_" ++ subsystem ++ "_" ++ name
  else if ns ≠ "" then ns ++ "_" ++ name
  else if subsystem ≠ "" then subsystem ++ "_" ++ name
  else name

/-- A metric descriptor (`prometheus.Desc`) without labels: name and help text. -/
structure Desc where
  fqName : String
  help : String
  deriving DecidableEq, Repr

/-- Go `prometheus.NewDesc(fqName, help, nil, nil)`. -/
def NewDesc (fqName help : String) : Desc := ⟨fqName, help⟩

/-- The value kinds of `prometheus.ValueType`. -/
inductive ValueType
  | CounterValue
  | GaugeValue
  | UntypedValue
  deriving DecidableEq, Repr

/-- A constant metric, as built by `prometheus.MustNewConstMetric`. -/
structure Metric where
  desc : Desc
  valueType : ValueType
  value : F64
  deriving DecidableEq, Repr

/-- The struct `Exporter` of main.go: one descriptor per metric. -/
structure Exporter where
  up : Desc
  anonymousbinds : Desc
  unauthbinds : Desc
  simpleauthbinds : Desc
  strongauthbinds : Desc
  bindsecurityerrors : Desc
  inops : Desc
  readops : Desc
  compareops : Desc
  addentryops : Desc
  removeentryops : Desc
  modifyentryops : Desc
  modifyrdnops : Desc
  searchops : Desc
  onelevelsearchops : Desc
  wholesubtreesearchops : Desc
  referrals : Desc
  securityerrors : Desc
  errors : Desc
  connections : Desc
  connectionseq : Desc
  connectionsinmaxthreads : Desc
  connectionsmaxthreadscount : Desc
  bytesrecv : Desc
  bytessent : Desc
  entriesreturned : Desc
  referralsreturned : Desc
  cacheentries : Desc
  cachehits : Desc
  deriving DecidableEq, Repr

/-- Go `NewExporter()` (main.go, lines 95-300). -/
def NewExporter : Exporter :=
  { up := NewDesc (BuildFQName metricNamespace "" "up")
      "Whether the last scrape was able to connect to the server",
    anonymousbinds := NewDesc (BuildFQName metricNamespace "" "anonymousbinds")
      "Number of Anonymous Binds",
    unauthbinds := NewDesc (BuildFQName metricNamespace "" "unauthbinds")
      "Number of Unauth Binds",
    simpleauthbinds := NewDesc (BuildFQName metricNamespace "" "simpleauthbinds")
      "Number of Simple Auth Binds",
    strongauthbinds := NewDesc (BuildFQName metricNamespace "" "strongauthbinds")
      "Number of Strong Auth Binds",
    bindsecurityerrors := NewDesc (BuildFQName metricNamespace "" "bindsecurityerrors")
      "Number of Bind Security Errors",
    inops := NewDesc (BuildFQName metricNamespace "" "inops")
      "Number of All Requests",
    readops := NewDesc (BuildFQName metricNamespace "" "readops")
      "Number of Read Operations",
    compareops := NewDesc (BuildFQName metricNamespace "" "compareops")
      "Number of Compare Operations",
    addentryops := NewDesc (BuildFQName metricNamespace "" "addentryops")
      "Number of Add Entry Operations",
    removeentryops := NewDesc (BuildFQName metricNamespace "" "removeentryops")
      "Number of Remove Entry Operations",
    modifyentryops := NewDesc (BuildFQName metricNamespace "" "modifyentryops")
      "Number of Modify Entry Operations",
    modifyrdnops := NewDesc (BuildFQName metricNamespace "" "modifyrdnops")
      "Number of Modify RDN Operations",
    searchops := NewDesc (BuildFQName metricNamespace "" "searchops")
      "Number of LDAP Search Requests",
    onelevelsearchops := NewDesc (BuildFQName metricNamespace "" "onelevelsearchops")
      "Number of one-level Search Requests",
    wholesubtreesearchops := NewDesc (BuildFQName metricNamespace "" "wholesubtreesearchops")
      "Number of subtree-level Search Requests",
    referrals := NewDesc (BuildFQName metricNamespace "" "referrals")
      "Number of LDAP referrals",
    securityerrors := NewDesc (BuildFQName metricNamespace "" "securityerrors")
      "Number of Security Errors",
    errors := NewDesc (BuildFQName metricNamespace "" "errors")
      "Number of Errors",
    connections := NewDesc (BuildFQName metricNamespace "" "connections")
      "Number of Connections in Open State at the sampling time",
    connectionseq := NewDesc (BuildFQName metricNamespace "" "connectionseq")
      "Total Number of Connections opened",
    connectionsinmaxthreads := NewDesc (BuildFQName metricNamespace "" "connectionsinmaxthreads")
      "Number of connections that are currently in a max thread state",
    connectionsmaxthreadscount := NewDesc (BuildFQName metricNamespace "" "connectionsmaxthreadscount")
      "Number of connectionsmaxthreadscount",
    bytesrecv := NewDesc (BuildFQName metricNamespace "" "bytesrecv")
      "Total number of bytes received",
    bytessent := NewDesc (BuildFQName metricNamespace "" "bytessent")
      "Total number of bytes sent",
    entriesreturned := NewDesc (BuildFQName metricNamespace "" "entriesreturned")
      "Number of Entries Returned",
    referralsreturned := NewDesc (BuildFQName metricNamespace "" "referralsreturned")
      "Number of Referrals Returned",
    cacheentries := NewDesc (BuildFQName metricNamespace "" "cacheentries")
      "Number of Cache Entries",
    cachehits := NewDesc (BuildFQName metricNamespace "" "cachehits")
      "Number of Cache Hits" }

/-- Selection of the descriptor `e.f` of a tracked field. -/
def Exporter.desc (e : Exporter) : Field → Desc
  | .anonymousbinds => e.anonymousbinds
  | .unauthbinds => e.unauthbinds
  | .simpleauthbinds => e.simpleauthbinds
  | .strongauthbinds => e.strongauthbinds
  | .bindsecurityerrors => e.bindsecurityerrors
  | .inops => e.inops
  | .readops => e.readops
  | .compareops => e.compareops
  | .addentryops => e.addentryops
  | .removeentryops => e.removeentryops
  | .modifyentryops => e.modifyentryops
  | .modifyrdnops => e.modifyrdnops
  | .searchops => e.searchops
  | .onelevelsearchops => e.onelevelsearchops
  | .wholesubtreesearchops => e.wholesubtreesearchops
  | .referrals => e.referrals
  | .securityerrors => e.securityerrors
  | .errors => e.errors
  | .connections => e.connections
  | .connectionseq => e.connectionseq
  | .connectionsinmaxthreads => e.connectionsinmaxthreads
  | .connectionsmaxthreadscount => e.connectionsmaxthreadscount
  | .bytesrecv => e.bytesrecv
  | .bytessent => e.bytessent
  | .entriesreturned => e.entriesreturned
  | .referralsreturned => e.referralsreturned
  | .cacheentries => e.cacheentries
  | .cachehits => e.cachehits

/-- Go `Exporter.Describe`: the descriptors sent on the channel, in order. -/
def Exporter.Describe (e : Exporter) : List Desc :=
  [e.up, e.anonymousbinds, e.unauthbinds, e.simpleauthbinds,
   e.strongauthbinds, e.bindsecurityerrors, e.inops, e.readops,
   e.compareops, e.addentryops, e.removeentryops, e.modifyentryops,
   e.modifyrdnops, e.searchops, e.onelevelsearchops, e.wholesubtreesearchops,
   e.referrals, e.securityerrors, e.errors, e.connections,
   e.connectionseq, e.connectionsinmaxthreads, e.connectionsmaxthreadscount, e.bytesrecv,
   e.bytessent, e.entriesreturned, e.referralsreturned, e.cacheentries,
   e.cachehits]

/-- The 29 sends of `Exporter.Collect` (main.go, lines 338-370) once `getStats` has returned. -/
def Exporter.emit (e : Exporter) (data : DSData) : List Metric :=
  [ ⟨e.up, .GaugeValue, F64.ofInt data.up⟩,
    ⟨e.anonymousbinds, .CounterValue, data.anonymousbinds⟩,
    ⟨e.unauthbinds, .CounterValue, data.unauthbinds⟩,
    ⟨e.simpleauthbinds, .CounterValue, data.simpleauthbinds⟩,
    ⟨e.strongauthbinds, .CounterValue, data.strongauthbinds⟩,
    ⟨e.bindsecurityerrors, .CounterValue, data.bindsecurityerrors⟩,
    ⟨e.inops, .CounterValue, data.inops⟩,
    ⟨e.readops, .CounterValue, data.readops⟩,
    ⟨e.compareops, .CounterValue, data.compareops⟩,
    ⟨e.addentryops, .CounterValue, data.addentryops⟩,
    ⟨e.removeentryops, .CounterValue, data.removeentryops⟩,
    ⟨e.modifyentryops, .CounterValue, data.modifyentryops⟩,
    ⟨e.modifyrdnops, .CounterValue, data.modifyrdnops⟩,
    ⟨e.searchops, .CounterValue, data.searchops⟩,
    ⟨e.onelevelsearchops, .CounterValue, data.onelevelsearchops⟩,
    ⟨e.wholesubtreesearchops, .CounterValue, data.wholesubtreesearchops⟩,
    ⟨e.referrals, .CounterValue, data.referrals⟩,
    ⟨e.securityerrors, .CounterValue, data.securityerrors⟩,
    ⟨e.errors, .CounterValue, data.errors⟩,
    ⟨e.connections, .CounterValue, data.connections⟩,
    ⟨e.connectionseq, .CounterValue, data.connectionseq⟩,
    ⟨e.connectionsinmaxthreads, .CounterValue, data.connectionsinmaxthreads⟩,
    ⟨e.connectionsmaxthreadscount, .CounterValue, data.connectionsmaxthreadscount⟩,
    ⟨e.bytesrecv, .CounterValue, data.bytesrecv⟩,
    ⟨e.bytessent, .CounterValue, data.bytessent⟩,
    ⟨e.entriesreturned, .CounterValue, data.entriesreturned⟩,
    ⟨e.referralsreturned, .CounterValue, data.referralsreturned⟩,
    ⟨e.cacheentries, .CounterValue, data.cacheentries⟩,
    ⟨e.cachehits, .CounterValue, data.cachehits⟩ ]

/-- The package-level configuration variables of main.go. -/
structure Globals where
  server : String
  startTLS : Bool
  bindDn : String
  bindPassword : String
  deriving DecidableEq, Repr

/-- How an invocation of `Collect` ends. -/
inductive Status
  | returned
  | panicked
  | exited
  deriving DecidableEq, Repr

/-- An invocation of `Collect`: the metrics sent on the channel in order, the messages
logged, the library calls, and the end. -/
structure CollectRun where
  sent : List Metric
  logs : List String
  calls : List Call
  status : Status
  deriving DecidableEq, Repr

/-- Go `Exporter.Collect` (main.go, lines 336-371).  Nothing is sent when `getStats`
does not return. -/
def Exporter.Collect (e : Exporter) (env : Env) (g : Globals) : CollectRun :=
  let r := getStats env g.server g.startTLS g.bindDn g.bindPassword
  match r.outcome with
  | .exited => ⟨[], r.logs, r.calls, .exited⟩
  | .panicked => ⟨[], r.logs, r.calls, .panicked⟩
  | .returned data err =>
    ⟨e.emit data, r.logs ++ (if err.isSome then ["scrape failed"] else []), r.calls, .returned⟩

/-! ## Reading the extraction field by field -/

/-- The field whose name is `s`, if `s` is one of the 28 tracked names. -/
def Field.ofName? (s : String) : Option Field :=
  if s = "anonymousbinds" then some .anonymousbinds
  else if s = "unauthbinds" then some .unauthbinds
  else if s = "simpleauthbinds" then some .simpleauthbinds
  else if s = "strongauthbinds" then some .strongauthbinds
  else if s = "bindsecurityerrors" then some .bindsecurityerrors
  else if s = "inops" then some .inops
  else if s = "readops" then some .readops
  else if s = "compareops" then some .compareops
  else if s = "addentryops" then some .addentryops
  else if s = "removeentryops" then some .removeentryops
  else if s = "modifyentryops" then some .modifyentryops
  else if s = "modifyrdnops" then some .modifyrdnops
  else if s = "searchops" then some .searchops
  else if s = "onelevelsearchops" then some .onelevelsearchops
  else if s = "wholesubtreesearchops" then some .wholesubtreesearchops
  else if s = "referrals" then some .referrals
  else if s = "securityerrors" then some .securityerrors
  else if s = "errors" then some .errors
  else if s = "connections" then some .connections
  else if s = "connectionseq" then some .connectionseq
  else if s = "connectionsinmaxthreads" then some .connectionsinmaxthreads
  else if s = "connectionsmaxthreadscount" then some .connectionsmaxthreadscount
  else if s = "bytesrecv" then some .bytesrecv
  else if s = "bytessent" then some .bytessent
  else if s = "entriesreturned" then some .entriesreturned
  else if s = "referralsreturned" then some .referralsreturned
  else if s = "cacheentries" then some .cacheentries
  else if s = "cachehits" then some .cachehits
  else none

/-- The assignment `f = x` to the local variable named after field `f`. -/
def Locals.set (v : Locals) (f : Field) (x : String) : Locals :=
  match f with
  | .anonymousbinds => { v with anonymousbinds := x }
  | .unauthbinds => { v with unauthbinds := x }
  | .simpleauthbinds => { v with simpleauthbinds := x }
  | .strongauthbinds => { v with strongauthbinds := x }
  | .bindsecurityerrors => { v with bindsecurityerrors := x }
  | .inops => { v with inops := x }
  | .readops => { v with readops := x }
  | .compareops => { v with compareops := x }
  | .addentryops => { v with addentryops := x }
  | .removeentryops => { v with removeentryops := x }
  | .modifyentryops => { v with modifyentryops := x }
  | .modifyrdnops => { v with modifyrdnops := x }
  | .searchops => { v with searchops := x }
  | .onelevelsearchops => { v with onelevelsearchops := x }
  | .wholesubtreesearchops => { v with wholesubtreesearchops := x }
  | .referrals => { v with referrals := x }
  | .securityerrors => { v with securityerrors := x }
  | .errors => { v with errors := x }
  | .connections => { v with connections := x }
  | .connectionseq => { v with connectionseq := x }
  | .connectionsinmaxthreads => { v with connectionsinmaxthreads := x }
  | .connectionsmaxthreadscount => { v with connectionsmaxthreadscount := x }
  | .bytesrecv => { v with bytesrecv := x }
  | .bytessent => { v with bytessent := x }
  | .entriesreturned => { v with entriesreturned := x }
  | .referralsreturned => { v with referralsreturned := x }
  | .cacheentries => { v with cacheentries := x }
  | .cachehits => { v with cachehits := x }

/-- The effect of one loop iteration, given the field the attribute name selects. -/
def assignAt (v : Locals) (a : EntryAttribute) : Option Field → Option Locals
  | some f => a.Values[0]?.map (v.set f)
  | none => some v

/-! ## The session steps as the specification lists them -/

/-- The steps of a directory session after the URL check. -/
inductive Step
  | connect
  | startTLS
  | bind
  | search
  deriving DecidableEq, Repr

/-- The error text that names a step. -/
def Step.what : Step → String
  | .connect => "failed to connect"
  | .startTLS => "failed to start TLS"
  | .bind => "failed to bind"
  | .search => "failed to search"

/-- The steps of a session in order: connect, StartTLS when the flag is set, bind when
the bind DN is not empty, search. -/
def plannedSteps (startTLS : Bool) (binddn : String) : List Step :=
  [.connect] ++ (if startTLS then [.startTLS] else []) ++
    (if binddn ≠ "" then [.bind] else []) ++ [.search]

/-- The error with which a step fails in a given world, `none` when it succeeds. -/
def Step.failure (env : Env) (server host binddn password : String) : Step → Option Err
  | .connect => env.DialURL server
  | .startTLS => env.StartTLS host
  | .bind => env.Bind binddn password
  | .search =>
    match env.Search searchRequest with
    | .error err => some err
    | .ok _ => none

/-- Run steps in order up to and including the first one that fails: the steps attempted,
and the failing step with its error. -/
def runSteps (failure : Step → Option Err) : List Step → List Step × Option (Step × Err)
  | [] => ([], none)
  | s :: rest =>
    match failure s with
    | some err => ([s], some (s, err))
    | none => (s :: (runSteps failure rest).1, (runSteps failure rest).2)

/-- The step a library call carries out; closing the connection is not a step. -/
def Call.step : Call → Option Step
  | .DialURL _ => some .connect
  | .StartTLS _ => some .startTLS
  | .Bind _ _ => some .bind
  | .Search _ => some .search
  | .Close => none

/-! ## Concrete worlds -/

/-- Attributes of a monitoring entry: the 28 counters, `readops` not a number, `inops`
with two values, and two attributes the exporter does not track. -/
def sampleAttributes : List EntryAttribute :=
  [ ⟨"objectClass", ["top", "extensibleObject"]⟩, ⟨"cn", ["snmp"]⟩,
    ⟨"anonymousbinds", ["5"]⟩, ⟨"unauthbinds", ["1"]⟩, ⟨"simpleauthbinds", ["2"]⟩,
    ⟨"strongauthbinds", ["3"]⟩, ⟨"bindsecurityerrors", ["4"]⟩, ⟨"inops", ["10", "20"]⟩,
    ⟨"readops", ["not-a-number"]⟩, ⟨"compareops", ["6"]⟩, ⟨"addentryops", ["7"]⟩,
    ⟨"removeentryops", ["8"]⟩, ⟨"modifyentryops", ["9"]⟩, ⟨"modifyrdnops", ["11"]⟩,
    ⟨"searchops", ["12"]⟩, ⟨"onelevelsearchops", ["13"]⟩, ⟨"wholesubtreesearchops", ["14"]⟩,
    ⟨"referrals", ["15"]⟩, ⟨"securityerrors", ["16"]⟩, ⟨"errors", ["17"]⟩,
    ⟨"connections", ["18"]⟩, ⟨"connectionseq", ["19"]⟩, ⟨"connectionsinmaxthreads", ["21"]⟩,
    ⟨"connectionsmaxthreadscount", ["22"]⟩, ⟨"bytesrecv", ["23"]⟩, ⟨"bytessent", ["24"]⟩,
    ⟨"entriesreturned", ["25"]⟩, ⟨"referralsreturned", ["26"]⟩, ⟨"cacheentries", ["27"]⟩,
    ⟨"cachehits", ["28"]⟩ ]

/-- The locals after the loop over `sampleAttributes`. -/
def sampleLocals : Locals :=
  { anonymousbinds := "5",
    unauthbinds := "1",
    simpleauthbinds := "2",
    strongauthbinds := "3",
    bindsecurityerrors := "4",
    inops := "10",
    readops := "not-a-number",
    compareops := "6",
    addentryops := "7",
    removeentryops := "8",
    modifyentryops := "9",
    modifyrdnops := "11",
    searchops := "12",
    onelevelsearchops := "13",
    wholesubtreesearchops := "14",
    referrals := "15",
    securityerrors := "16",
    errors := "17",
    connections := "18",
    connectionseq := "19",
    connectionsinmaxthreads := "21",
    connectionsmaxthreadscount := "22",
    bytesrecv := "23",
    bytessent := "24",
    entriesreturned := "25",
    referralsreturned := "26",
    cacheentries := "27",
    cachehits := "28" }

/-- A world in which every call succeeds and the search returns one entry. -/
def envUp : Env :=
  { ParseRequestURI := fun _ => .ok "localhost",
    DialURL := fun _ => none,
    StartTLS := fun _ => none,
    Bind := fun _ _ => none,
    Search := fun _ => .ok ⟨[⟨"cn=snmp,cn=monitor", sampleAttributes⟩]⟩ }

/-- A world in which the server refuses the connection. -/
def envRefused : Env :=
  { envUp with DialURL := fun _ => some ⟨"connection refused"⟩ }

/-- A world in which the search succeeds and returns no entry. -/
def envNoEntry : Env :=
  { envUp with Search := fun _ => .ok ⟨[]⟩ }

/-- A world in which the bind is rejected. -/
def envBadPassword : Env :=
  { envUp with Bind := fun _ _ => some ⟨"Invalid Credentials"⟩ }

/-- The configuration of main.go when no flag and no environment variable is set. -/
def defaultGlobals : Globals := ⟨"ldap://localhost", true, "", ""⟩

/-- A configuration with a bind DN and StartTLS. -/
def bindGlobals : Globals := ⟨"ldap://localhost", true, "cn=Directory Manager", "secret"⟩

/-- A world in which `url.ParseRequestURI` rejects the configured server URL. -/
def envBadURL : Env :=
  { envUp with ParseRequestURI := fun _ => .error ⟨"invalid URI for request"⟩ }

/-- A configuration whose server URL has no scheme. -/
def noSchemeGlobals : Globals := ⟨"localhost", true, "", ""⟩

/-- A world in which the search returns an entry whose `readops` attribute has no value. -/
def envNoValue : Env :=
  { envUp with
    Search := fun _ => .ok ⟨[⟨"cn=snmp,cn=monitor", [⟨"cn", ["snmp"]⟩, ⟨"readops", []⟩]⟩]⟩ }

/-- The exporter after a call of `Collect`: the method reads the descriptors of `e` and
assigns to none of them (main.go, lines 336-371), so the exporter is passed on as it is. -/
def Exporter.afterCollect (e : Exporter) (_env : Env) (_g : Globals) : Exporter := e

/-- The exporter after a call of `Describe`, which only reads it (main.go, lines 303-333). -/
def Exporter.afterDescribe (e : Exporter) : Exporter := e

/-- A run of `getStats` follows a list of steps: the calls that carry out a step are the
steps run in order up to the first failure; a failure is returned as the error named
after the failing step, with the zero `DSData`; without a failure the run ends in the
extraction, by a return without error or by a panic. -/
def SessionRefines (failure : Step → Option Err) (steps : List Step) (r : Run) : Prop :=
  r.calls.filterMap Call.step = (runSteps failure steps).1 ∧
  (∀ s err, (runSteps failure steps).2 = some (s, err) →
    r.outcome = .returned DSData.empty (some ⟨s.what, err⟩)) ∧
  ((runSteps failure steps).2 = none →
    r.outcome = .panicked ∨ ∃ d, r.outcome = .returned d none)

/-! ## Lemmas on the extraction -/

theorem Field.ofName?_name (f : Field) : Field.ofName? f.name = some f := by
  cases f <;> decide

theorem Field.name_of_ofName? {s : String} {f : Field} (h : Field.ofName? s = some f) :
    f.name = s := by
  unfold Field.ofName? at h
  iterate 28 (
    rw [ite_eq_iff] at h
    rcases h with ⟨hc, h⟩ | ⟨_, h⟩
    · cases h; exact hc.symm)
  cases h

theorem Field.name_injective {f g : Field} (h : f.name = g.name) : f = g := by
  have hf := Field.ofName?_name f
  rw [h, Field.ofName?_name g] at hf
  exact (Option.some.inj hf).symm

theorem Field.mem_all (f : Field) : f ∈ Field.all := by
  cases f <;> decide

theorem Field.name_mem_tracked (f : Field) : f.name ∈ trackedNames :=
  List.mem_map.mpr ⟨f, Field.mem_all f, rfl⟩

theorem Field.ofName?_eq_none {s : String} : Field.ofName? s = none ↔ s ∉ trackedNames := by
  constructor
  · intro h hmem
    obtain ⟨f, _, rfl⟩ := List.mem_map.mp hmem
    rw [Field.ofName?_name] at h
    cases h
  · intro h
    cases hs : Field.ofName? s with
    | none => rfl
    | some f => exact absurd (Field.name_of_ofName? hs ▸ Field.name_mem_tracked f) h

theorem Locals.get_set_self (v : Locals) (f : Field) (x : String) : (v.set f x).get f = x := by
  cases f <;> rfl

theorem Locals.get_set_ne (v : Locals) {f g : Field} (x : String) (h : g ≠ f) :
    (v.set f x).get g = v.get g := by
  cases f <;> cases g <;> first | rfl | exact absurd rfl h

theorem Locals.get_init (f : Field) : Locals.init.get f = "" := by
  cases f <;> rfl

theorem assignAt_ite (v : Locals) (a : EntryAttribute) (c : Prop) [Decidable c]
    (x y : Option Field) :
    assignAt v a (if c then x else y) = if c then assignAt v a x else assignAt v a y := by
  by_cases h : c
  · rw [if_pos h, if_pos h]
  · rw [if_neg h, if_neg h]

/-- The switch of the loop body selects the local by the attribute name. -/
theorem assign_eq (v : Locals) (a : EntryAttribute) :
    assign v a = assignAt v a (Field.ofName? a.Name) := by
  unfold assign Field.ofName?
  iterate 28 rw [assignAt_ite]
  rfl

theorem assign_untracked (v : Locals) (a : EntryAttribute) (h : a.Name ∉ trackedNames) :
    assign v a = some v := by
  rw [assign_eq, Field.ofName?_eq_none.mpr h]
  rfl

theorem assign_tracked (v : Locals) (a : EntryAttribute) (f : Field) (h : a.Name = f.name) :
    assign v a = a.Values[0]?.map (v.set f) := by
  rw [assign_eq, h, Field.ofName?_name]
  rfl

theorem assign_get_other {v v1 : Locals} {a : EntryAttribute} (h : assign v a = some v1)
    (f : Field) (hf : a.Name ≠ f.name) : v1.get f = v.get f := by
  rw [assign_eq] at h
  cases hn : Field.ofName? a.Name with
  | none =>
    rw [hn] at h
    cases h
    rfl
  | some g =>
    rw [hn] at h
    have hg : g.name = a.Name := Field.name_of_ofName? hn
    simp only [assignAt, Option.map_eq_some'] at h
    obtain ⟨x, _, rfl⟩ := h
    apply Locals.get_set_ne
    intro hfg
    exact hf (by rw [← hg, hfg])

theorem assign_get_same {v v1 : Locals} {a : EntryAttribute} (h : assign v a = some v1)
    (f : Field) (hf : a.Name = f.name) : a.Values[0]? = some (v1.get f) := by
  rw [assign_tracked v a f hf] at h
  simp only [Option.map_eq_some'] at h
  obtain ⟨x, hx, rfl⟩ := h
  rw [Locals.get_set_self]
  exact hx

theorem assign_isSome (v : Locals) (a : EntryAttribute)
    (h : a.Name ∈ trackedNames → a.Values ≠ []) : ∃ v1, assign v a = some v1 := by
  rw [assign_eq]
  cases hn : Field.ofName? a.Name with
  | none => exact ⟨v, rfl⟩
  | some g =>
    have hne : a.Values ≠ [] := h (Field.name_of_ofName? hn ▸ Field.name_mem_tracked g)
    cases hv : a.Values with
    | nil => exact absurd hv hne
    | cons x xs => exact ⟨v.set g x, by simp [assignAt, hv]⟩

theorem scanAttributes_append (v : Locals) (xs ys : List EntryAttribute) :
    scanAttributes v (xs ++ ys) = (scanAttributes v xs).bind fun v1 => scanAttributes v1 ys := by
  induction xs generalizing v with
  | nil => rfl
  | cons a xs ih =>
    simp only [List.cons_append, scanAttributes]
    cases assign v a with
    | none => rfl
    | some v1 => exact ih v1

theorem scanAttributes_get_absent {attrs : List EntryAttribute} {v v1 : Locals}
    (h : scanAttributes v attrs = some v1) (f : Field)
    (hf : ∀ a ∈ attrs, a.Name ≠ f.name) : v1.get f = v.get f := by
  induction attrs generalizing v with
  | nil =>
    cases h
    rfl
  | cons a rest ih =>
    simp only [scanAttributes] at h
    cases ha : assign v a with
    | none => rw [ha] at h; cases h
    | some v2 =>
      rw [ha] at h
      rw [ih h fun b hb => hf b (List.mem_cons_of_mem _ hb)]
      exact assign_get_other ha f (hf a (List.mem_cons_self _ _))

theorem scanAttributes_isSome (attrs : List EntryAttribute) (v : Locals)
    (h : ∀ a ∈ attrs, a.Name ∈ trackedNames → a.Values ≠ []) :
    ∃ v1, scanAttributes v attrs = some v1 := by
  induction attrs generalizing v with
  | nil => exact ⟨v, rfl⟩
  | cons a rest ih =>
    obtain ⟨v2, hv2⟩ := assign_isSome v a (h a (List.mem_cons_self _ _))
    obtain ⟨v1, hv1⟩ := ih v2 fun b hb => h b (List.mem_cons_of_mem _ hb)
    exact ⟨v1, by simp only [scanAttributes, hv2, hv1]⟩

/-- After the loop a local holds its old content or the first value of an attribute
of its name. -/
theorem scanAttributes_get_cases {attrs : List EntryAttribute} {v v1 : Locals}
    (h : scanAttributes v attrs = some v1) (f : Field) :
    v1.get f = v.get f ∨ ∃ a ∈ attrs, a.Name = f.name ∧ a.Values[0]? = some (v1.get f) := by
  induction attrs generalizing v with
  | nil =>
    cases h
    exact Or.inl rfl
  | cons a rest ih =>
    simp only [scanAttributes] at h
    cases ha : assign v a with
    | none => rw [ha] at h; cases h
    | some v2 =>
      rw [ha] at h
      rcases ih h with h1 | ⟨b, hb, hbn, hbv⟩
      · by_cases hn : a.Name = f.name
        · exact Or.inr ⟨a, List.mem_cons_self _ _, hn, h1 ▸ assign_get_same ha f hn⟩
        · exact Or.inl (h1.trans (assign_get_other ha f hn))
      · exact Or.inr ⟨b, List.mem_cons_of_mem _ hb, hbn, hbv⟩

theorem scanAttributes_skip (v : Locals) (pre post : List EntryAttribute) (u : EntryAttribute)
    (hu : u.Name ∉ trackedNames) :
    scanAttributes v (pre ++ u :: post) = scanAttributes v (pre ++ post) := by
  rw [scanAttributes_append, scanAttributes_append]
  congr 1
  funext v1
  simp only [scanAttributes, assign_untracked v1 u hu]

theorem scanAttributes_untracked (v : Locals) (attrs : List EntryAttribute)
    (h : ∀ a ∈ attrs, a.Name ∉ trackedNames) : scanAttributes v attrs = some v := by
  induction attrs with
  | nil => rfl
  | cons a rest ih =>
    simp only [scanAttributes, assign_untracked v a (h a (List.mem_cons_self _ _))]
    exact ih fun b hb => h b (List.mem_cons_of_mem _ hb)

theorem toDSData_get (v : Locals) (f : Field) : (toDSData v).get f = parseOrZero (v.get f) := by
  cases f <;> rfl

theorem parseOrZero_empty : parseOrZero "" = F64.zero := by decide

/-! ## Lemmas on getStats and Collect -/

theorem String_append_cancel_left {a b c : String} (h : a ++ b = a ++ c) : b = c := by
  have hd := congrArg String.data h
  rw [String.data_append, String.data_append] at hd
  exact String.ext (List.append_cancel_left hd)

theorem F64.ofInt_zero : F64.ofInt 0 = F64.zero := by decide

theorem F64.ofInt_one : F64.ofInt 1 = .finite false 4503599627370496 (-52) := by decide

theorem F64.toRat_ofInt_zero : (F64.ofInt 0).toRat = some 0 := by
  simp [F64.ofInt_zero, F64.zero, F64.toRat]

theorem F64.toRat_ofInt_one : (F64.ofInt 1).toRat = some 1 := by
  rw [F64.ofInt_one]
  simp only [F64.toRat]
  norm_num

theorem Exporter.emit_eq (e : Exporter) (data : DSData) :
    e.emit data =
      ⟨e.up, .GaugeValue, F64.ofInt data.up⟩ ::
        Field.all.map fun f => ⟨e.desc f, .CounterValue, data.get f⟩ := rfl

theorem DSData.get_empty (f : Field) : DSData.empty.get f = F64.zero := by
  cases f <;> rfl

/-- The four ways the search stage can go. -/
theorem searchStage_cases (env : Env) :
    (∃ err, env.Search searchRequest = .error err ∧
      searchStage env = ⟨[.Search searchRequest], [],
        .returned DSData.empty (some ⟨"failed to search", err⟩)⟩) ∨
    (∃ sr, env.Search searchRequest = .ok sr ∧ sr.Entries = [] ∧
      searchStage env = ⟨[.Search searchRequest], [], .panicked⟩) ∨
    (∃ sr entry rest, env.Search searchRequest = .ok sr ∧ sr.Entries = entry :: rest ∧
      scanAttributes Locals.init entry.Attributes = none ∧
      searchStage env = ⟨[.Search searchRequest], [], .panicked⟩) ∨
    (∃ sr entry rest v, env.Search searchRequest = .ok sr ∧ sr.Entries = entry :: rest ∧
      scanAttributes Locals.init entry.Attributes = some v ∧
      searchStage env = ⟨[.Search searchRequest], coercionLogs v, .returned (toDSData v) none⟩) := by
  unfold searchStage
  cases hq : env.Search searchRequest with
  | error err => exact Or.inl ⟨err, rfl, rfl⟩
  | ok sr =>
    obtain ⟨entries⟩ := sr
    cases entries with
    | nil => exact Or.inr (Or.inl ⟨_, rfl, rfl, rfl⟩)
    | cons entry rest =>
      cases hs : scanAttributes Locals.init entry.Attributes with
      | none =>
        refine Or.inr (Or.inr (Or.inl ⟨_, entry, rest, rfl, rfl, hs, ?_⟩))
        simp only [hs]
      | some v =>
        refine Or.inr (Or.inr (Or.inr ⟨_, entry, rest, v, rfl, rfl, hs, ?_⟩))
        simp only [hs]

/-- The bind stage: skipped, failed, or passed on to the search stage. -/
theorem bindStage_cases (env : Env) (binddn password : String) :
    (binddn = "" ∧ bindStage env binddn password = searchStage env) ∨
    (binddn ≠ "" ∧ ∃ err, env.Bind binddn password = some err ∧
      bindStage env binddn password = ⟨[.Bind binddn password], [],
        .returned DSData.empty (some ⟨"failed to bind", err⟩)⟩) ∨
    (binddn ≠ "" ∧ env.Bind binddn password = none ∧
      bindStage env binddn password = ⟨.Bind binddn password :: (searchStage env).calls,
        (searchStage env).logs, (searchStage env).outcome⟩) := by
  unfold bindStage
  by_cases hb : binddn = ""
  · exact Or.inl ⟨hb, by simp only [hb, ne_eq, not_true_eq_false, if_false]⟩
  · rw [if_pos hb]
    cases hq : env.Bind binddn password with
    | some err => exact Or.inr (Or.inl ⟨hb, err, rfl, rfl⟩)
    | none => exact Or.inr (Or.inr ⟨hb, rfl, rfl⟩)

/-- The StartTLS stage: skipped, failed, or passed on to the bind stage. -/
theorem tlsStage_cases (env : Env) (host : String) (startTLS : Bool) (binddn password : String) :
    (startTLS = false ∧
      tlsStage env host startTLS binddn password = bindStage env binddn password) ∨
    (startTLS = true ∧ ∃ err, env.StartTLS host = some err ∧
      tlsStage env host startTLS binddn password = ⟨[.StartTLS host], [],
        .returned DSData.empty (some ⟨"failed to start TLS", err⟩)⟩) ∨
    (startTLS = true ∧ env.StartTLS host = none ∧
      tlsStage env host startTLS binddn password =
        ⟨.StartTLS host :: (bindStage env binddn password).calls,
          (bindStage env binddn password).logs, (bindStage env binddn password).outcome⟩) := by
  unfold tlsStage
  cases startTLS with
  | false => exact Or.inl ⟨rfl, rfl⟩
  | true =>
    rw [if_pos rfl]
    cases hq : env.StartTLS host with
    | some err => exact Or.inr (Or.inl ⟨rfl, err, rfl, rfl⟩)
    | none => exact Or.inr (Or.inr ⟨rfl, rfl, rfl⟩)

/-- The top of `getStats`: fatal URL error, failed dial, or the stages after the dial
followed by the deferred close. -/
theorem getStats_cases (env : Env) (server : String) (startTLS : Bool)
    (binddn password : String) :
    (∃ err, env.ParseRequestURI server = .error err ∧
      getStats env server startTLS binddn password = ⟨[], [err.text], .exited⟩) ∨
    (∃ host err, env.ParseRequestURI server = .ok host ∧ env.DialURL server = some err ∧
      getStats env server startTLS binddn password = ⟨[.DialURL server], [],
        .returned DSData.empty (some ⟨"failed to connect", err⟩)⟩) ∨
    (∃ host, env.ParseRequestURI server = .ok host ∧ env.DialURL server = none ∧
      getStats env server startTLS binddn password =
        ⟨.DialURL server :: ((tlsStage env host startTLS binddn password).calls ++ [.Close]),
          (tlsStage env host startTLS binddn password).logs,
          (tlsStage env host startTLS binddn password).outcome⟩) := by
  unfold getStats
  cases hu : env.ParseRequestURI server with
  | error err => exact Or.inl ⟨err, rfl, rfl⟩
  | ok host =>
    cases hq : env.DialURL server with
    | some err => exact Or.inr (Or.inl ⟨host, err, rfl, rfl, rfl⟩)
    | none => exact Or.inr (Or.inr ⟨host, rfl, rfl, rfl⟩)

theorem searchStage_error_data {env : Env} {d : DSData} {e : WrapError}
    (h : (searchStage env).outcome = .returned d (some e)) : d = DSData.empty := by
  rcases searchStage_cases env with ⟨_, _, hr⟩ | ⟨_, _, _, hr⟩ | ⟨_, _, _, _, _, _, hr⟩ |
    ⟨_, _, _, _, _, _, _, hr⟩ <;> rw [hr] at h <;> cases h
  rfl

theorem bindStage_error_data {env : Env} {binddn password : String} {d : DSData}
    {e : WrapError} (h : (bindStage env binddn password).outcome = .returned d (some e)) :
    d = DSData.empty := by
  rcases bindStage_cases env binddn password with ⟨_, hr⟩ | ⟨_, _, _, hr⟩ | ⟨_, _, hr⟩ <;>
    rw [hr] at h
  · exact searchStage_error_data h
  · cases h; rfl
  · exact searchStage_error_data h

theorem tlsStage_error_data {env : Env} {host : String} {startTLS : Bool}
    {binddn password : String} {d : DSData} {e : WrapError}
    (h : (tlsStage env host startTLS binddn password).outcome = .returned d (some e)) :
    d = DSData.empty := by
  rcases tlsStage_cases env host startTLS binddn password with
    ⟨_, hr⟩ | ⟨_, _, _, hr⟩ | ⟨_, _, hr⟩ <;> rw [hr] at h
  · exact bindStage_error_data h
  · cases h; rfl
  · exact bindStage_error_data h

/-- An error returned by `getStats` comes with the zero value `DSData{}`. -/
theorem getStats_error_data {env : Env} {server : String} {startTLS : Bool}
    {binddn password : String} {data : DSData} {err : WrapError}
    (h : (getStats env server startTLS binddn password).outcome = .returned data (some err)) :
    data = DSData.empty := by
  rcases getStats_cases env server startTLS binddn password with
    ⟨_, _, hr⟩ | ⟨_, _, _, _, hr⟩ | ⟨_, _, _, hr⟩ <;> rw [hr] at h
  · cases h
  · cases h; rfl
  · exact tlsStage_error_data h

theorem searchStage_ok_data {env : Env} {d : DSData}
    (h : (searchStage env).outcome = .returned d none) :
    ∃ sr entry rest, env.Search searchRequest = .ok sr ∧ sr.Entries = entry :: rest ∧
      extract entry.Attributes = some d := by
  rcases searchStage_cases env with ⟨_, _, hr⟩ | ⟨_, _, _, hr⟩ | ⟨_, _, _, _, _, _, hr⟩ |
    ⟨sr, entry, rest, v, hq, hen, hs, hr⟩ <;> rw [hr] at h <;> cases h
  exact ⟨sr, entry, rest, hq, hen, by simp only [extract, hs, Option.map_some']⟩

theorem bindStage_ok_data {env : Env} {binddn password : String} {d : DSData}
    (h : (bindStage env binddn password).outcome = .returned d none) :
    (searchStage env).outcome = .returned d none := by
  rcases bindStage_cases env binddn password with ⟨_, hr⟩ | ⟨_, _, _, hr⟩ | ⟨_, _, hr⟩ <;>
    rw [hr] at h
  · exact h
  · cases h
  · exact h

theorem tlsStage_ok_data {env : Env} {host : String} {startTLS : Bool}
    {binddn password : String} {d : DSData}
    (h : (tlsStage env host startTLS binddn password).outcome = .returned d none) :
    (bindStage env binddn password).outcome = .returned d none := by
  rcases tlsStage_cases env host startTLS binddn password with
    ⟨_, hr⟩ | ⟨_, _, _, hr⟩ | ⟨_, _, hr⟩ <;> rw [hr] at h
  · exact h
  · cases h
  · exact h

/-- A return without error comes from the extraction over the first entry of a
successful search. -/
theorem getStats_ok_data {env : Env} {server : String} {startTLS : Bool}
    {binddn password : String} {data : DSData}
    (h : (getStats env server startTLS binddn password).outcome = .returned data none) :
    ∃ sr entry rest, env.Search searchRequest = .ok sr ∧ sr.Entries = entry :: rest ∧
      extract entry.Attributes = some data := by
  rcases getStats_cases env server startTLS binddn password with
    ⟨_, _, hr⟩ | ⟨_, _, _, _, hr⟩ | ⟨_, _, _, hr⟩ <;> rw [hr] at h
  · cases h
  · cases h
  · exact searchStage_ok_data (bindStage_ok_data (tlsStage_ok_data h))

/-- The search stage returns when a successful search has a first entry whose attributes
of tracked names each carry a value. -/
theorem searchStage_returns (env : Env)
    (hwf : ∀ sr, env.Search searchRequest = .ok sr → ∃ entry rest, sr.Entries = entry :: rest ∧
      ∀ a ∈ entry.Attributes, a.Name ∈ trackedNames → a.Values ≠ []) :
    ∃ d e, (searchStage env).outcome = .returned d e := by
  rcases searchStage_cases env with ⟨_, _, hr⟩ | ⟨sr, hq, hen, hr⟩ |
    ⟨sr, entry, rest, hq, hen, hs, hr⟩ | ⟨_, _, _, _, _, _, _, hr⟩
  · exact ⟨_, _, by rw [hr]⟩
  · obtain ⟨entry, rest, he, _⟩ := hwf sr hq
    rw [hen] at he
    cases he
  · obtain ⟨entry1, rest1, he, hv⟩ := hwf sr hq
    rw [hen] at he
    cases he
    obtain ⟨v, hv1⟩ := scanAttributes_isSome entry.Attributes Locals.init hv
    rw [hs] at hv1
    cases hv1
  · exact ⟨_, _, by rw [hr]⟩

/-- With a server URL that parses and a search result as above, `getStats` returns. -/
theorem getStats_returns (env : Env) (server : String) (startTLS : Bool)
    (binddn password host : String) (hurl : env.ParseRequestURI server = .ok host)
    (hwf : ∀ sr, env.Search searchRequest = .ok sr → ∃ entry rest, sr.Entries = entry :: rest ∧
      ∀ a ∈ entry.Attributes, a.Name ∈ trackedNames → a.Values ≠ []) :
    ∃ d e, (getStats env server startTLS binddn password).outcome = .returned d e := by
  have hs := searchStage_returns env hwf
  have hb : ∃ d e, (bindStage env binddn password).outcome = .returned d e := by
    rcases bindStage_cases env binddn password with ⟨_, hr⟩ | ⟨_, _, _, hr⟩ | ⟨_, _, hr⟩ <;>
      rw [hr]
    · exact hs
    · exact ⟨_, _, rfl⟩
    · exact hs
  have ht : ∀ h1, ∃ d e, (tlsStage env h1 startTLS binddn password).outcome = .returned d e := by
    intro h1
    rcases tlsStage_cases env h1 startTLS binddn password with
      ⟨_, hr⟩ | ⟨_, _, _, hr⟩ | ⟨_, _, hr⟩ <;> rw [hr]
    · exact hb
    · exact ⟨_, _, rfl⟩
    · exact hb
  rcases getStats_cases env server startTLS binddn password with
    ⟨_, hu, hr⟩ | ⟨_, _, _, _, hr⟩ | ⟨h1, _, _, hr⟩ <;> rw [hr]
  · rw [hurl] at hu
    cases hu
  · exact ⟨_, _, rfl⟩
  · exact ht h1

theorem extract_up {attrs : List EntryAttribute} {d : DSData} (h : extract attrs = some d) :
    d.up = 1 := by
  unfold extract at h
  cases hs : scanAttributes Locals.init attrs with
  | none => rw [hs] at h; cases h
  | some v => rw [hs] at h; cases h; rfl

theorem Collect_status {e : Exporter} {env : Env} {g : Globals} {data : DSData}
    {err : Option WrapError}
    (h : (getStats env g.server g.startTLS g.bindDn g.bindPassword).outcome
      = .returned data err) :
    (e.Collect env g).status = .returned := by
  unfold Exporter.Collect
  simp only [h]

theorem trackedNames_eq : trackedNames =
    ["anonymousbinds", "unauthbinds", "simpleauthbinds", "strongauthbinds",
     "bindsecurityerrors", "inops", "readops", "compareops", "addentryops", "removeentryops",
     "modifyentryops", "modifyrdnops", "searchops", "onelevelsearchops",
     "wholesubtreesearchops", "referrals", "securityerrors", "errors", "connections",
     "connectionseq", "connectionsinmaxthreads", "connectionsmaxthreadscount", "bytesrecv",
     "bytessent", "entriesreturned", "referralsreturned", "cacheentries", "cachehits"] := rfl

theorem Collect_sent {e : Exporter} {env : Env} {g : Globals} {data : DSData}
    {err : Option WrapError}
    (h : (getStats env g.server g.startTLS g.bindDn g.bindPassword).outcome
      = .returned data err) :
    (e.Collect env g).sent = e.emit data := by
  unfold Exporter.Collect
  simp only [h]

theorem NewExporter_desc_ne_up (f : Field) : NewExporter.desc f ≠ NewExporter.up := by
  cases f <;> decide

theorem NewExporter_desc_fqName (f : Field) :
    (NewExporter.desc f).fqName = "ds_exporter_" ++ f.name := by
  cases f <;> decide

/-! ## C1 - C3: what Collect sends -/

/-- C1, as stated, fails: when the server refuses the connection `getStats` returns the
error "failed to connect", and `Collect` still sends 29 samples, the 28 counters among
them, not the `up` sample alone. -/
theorem C1_collect_on_error_sends_counters :
    (getStats envRefused defaultGlobals.server defaultGlobals.startTLS defaultGlobals.bindDn
        defaultGlobals.bindPassword).outcome
      = .returned DSData.empty (some ⟨"failed to connect", ⟨"connection refused"⟩⟩) ∧
    (NewExporter.Collect envRefused defaultGlobals).sent.length = 29 ∧
    (NewExporter.Collect envRefused defaultGlobals).sent
      ≠ [⟨NewExporter.up, .GaugeValue, F64.ofInt 0⟩] ∧
    ⟨NewExporter.readops, .CounterValue, F64.zero⟩
      ∈ (NewExporter.Collect envRefused defaultGlobals).sent := by
  decide

/-- C1, amended: in every collection pass in which `getStats` returns an error, `Collect`
sends 29 samples: the `up` sample with value 0 and kind Gauge first, then one sample of
kind Counter with value 0 for each of the other 28 descriptors, in field order. -/
theorem C1_collect_on_error (e : Exporter) (env : Env) (g : Globals) (data : DSData)
    (err : WrapError)
    (h : (getStats env g.server g.startTLS g.bindDn g.bindPassword).outcome
      = .returned data (some err)) :
    (e.Collect env g).sent =
        ⟨e.up, .GaugeValue, F64.zero⟩ ::
          Field.all.map (fun f => ⟨e.desc f, .CounterValue, F64.zero⟩) ∧
      (e.Collect env g).sent.length = 29 ∧
      (e.Collect env g).status = .returned := by
  have hd : data = DSData.empty := getStats_error_data h
  subst hd
  have hs : (e.Collect env g).sent = e.emit DSData.empty := Collect_sent h
  refine ⟨hs.trans rfl, by rw [hs]; rfl, ?_⟩
  unfold Exporter.Collect
  simp only [h]

/-- C1, amended, at a concrete pass: the connection is refused. -/
theorem C1_collect_on_error_witness :
    (getStats envRefused defaultGlobals.server defaultGlobals.startTLS defaultGlobals.bindDn
        defaultGlobals.bindPassword).outcome
      = .returned DSData.empty (some ⟨"failed to connect", ⟨"connection refused"⟩⟩) ∧
    (NewExporter.Collect envRefused defaultGlobals).sent =
      ⟨NewExporter.up, .GaugeValue, F64.zero⟩ ::
        Field.all.map (fun f => ⟨NewExporter.desc f, .CounterValue, F64.zero⟩) :=
  ⟨by decide,
    (C1_collect_on_error NewExporter envRefused defaultGlobals DSData.empty
      ⟨"failed to connect", ⟨"connection refused"⟩⟩ (by decide)).1⟩

/-- A server URL that does not parse ends `getStats` in `log.Fatal`, before any call. -/
theorem getStats_exited {env : Env} {server : String} {err : Err} (startTLS : Bool)
    (binddn password : String) (hurl : env.ParseRequestURI server = .error err) :
    getStats env server startTLS binddn password = ⟨[], [err.text], .exited⟩ := by
  simp only [getStats, hurl]

/-- C2, as stated, fails: not every collection pass sends `up`.  When the configured
server URL does not parse, `getStats` ends the process in `log.Fatal` before `Collect`
sends anything; and when the search succeeds without an entry, `getStats` panics and
`Collect` sends nothing either.  In both passes no sample with the `up` descriptor is
sent. -/
theorem C2_pass_without_up_sample :
    (NewExporter.Collect envBadURL noSchemeGlobals).status = .exited ∧
    (NewExporter.Collect envBadURL noSchemeGlobals).sent = [] ∧
    ((NewExporter.Collect envBadURL noSchemeGlobals).sent.filter
      fun m => m.desc = NewExporter.up).length = 0 ∧
    (NewExporter.Collect envNoEntry defaultGlobals).status = .panicked ∧
    ((NewExporter.Collect envNoEntry defaultGlobals).sent.filter
      fun m => m.desc = NewExporter.up).length = 0 := by
  decide

/-- C2, amended: in every collection pass in which `getStats` returns, `Collect` completes
and sends the `up` sample first, with kind Gauge, and no later sample carries the `up`
descriptor; its value is `float64(1)` when `getStats` returned no error and `float64(0)`
when it returned one.  `getStats` does return whenever the server URL parses and a
successful search has a first entry whose attributes of tracked names carry a value.
When the server URL does not parse, `getStats` ends the process in `log.Fatal` and
`Collect` sends no sample. -/
theorem C2_up_sample (env : Env) (g : Globals) :
    (∀ data err, (getStats env g.server g.startTLS g.bindDn g.bindPassword).outcome
        = .returned data err →
      (NewExporter.Collect env g).status = .returned ∧
      ∃ v rest, (NewExporter.Collect env g).sent = ⟨NewExporter.up, .GaugeValue, v⟩ :: rest ∧
        (∀ m ∈ rest, m.desc ≠ NewExporter.up) ∧
        ((NewExporter.Collect env g).sent.filter fun m => m.desc = NewExporter.up).length = 1 ∧
        (err = none → v = F64.ofInt 1 ∧ v.toRat = some 1) ∧
        (err ≠ none → v = F64.ofInt 0 ∧ v.toRat = some 0) ∧
        (v = F64.ofInt 1 ↔ err = none)) ∧
    (∀ host, env.ParseRequestURI g.server = .ok host →
      (∀ sr, env.Search searchRequest = .ok sr → ∃ entry rest, sr.Entries = entry :: rest ∧
        ∀ a ∈ entry.Attributes, a.Name ∈ trackedNames → a.Values ≠ []) →
      ∃ data err, (getStats env g.server g.startTLS g.bindDn g.bindPassword).outcome
        = .returned data err) ∧
    (∀ perr, env.ParseRequestURI g.server = .error perr →
      (getStats env g.server g.startTLS g.bindDn g.bindPassword).outcome = .exited ∧
      (getStats env g.server g.startTLS g.bindDn g.bindPassword).calls = [] ∧
      (NewExporter.Collect env g).status = .exited ∧
      (NewExporter.Collect env g).sent = []) := by
  refine ⟨?_, fun host hurl hwf => getStats_returns env _ _ _ _ host hurl hwf, ?_⟩
  · intro data err h
    have hs : (NewExporter.Collect env g).sent = NewExporter.emit data := Collect_sent h
    have hrest : ∀ m ∈ Field.all.map
        (fun f => (⟨NewExporter.desc f, .CounterValue, data.get f⟩ : Metric)),
        m.desc ≠ NewExporter.up := by
      intro m hm
      obtain ⟨f, _, rfl⟩ := List.mem_map.mp hm
      exact NewExporter_desc_ne_up f
    have hup : err = none → data.up = 1 := by
      intro he
      subst he
      obtain ⟨_, entry, _, _, _, hx⟩ := getStats_ok_data h
      exact extract_up hx
    have hdown : err ≠ none → data.up = 0 := by
      intro he
      cases err with
      | none => exact absurd rfl he
      | some e1 => rw [getStats_error_data h]; rfl
    refine ⟨Collect_status h, F64.ofInt data.up, _, hs.trans (Exporter.emit_eq _ _), hrest,
      ?_, ?_, ?_, ?_⟩
    · rw [hs, Exporter.emit_eq, List.filter_cons_of_pos (by simp),
        List.filter_eq_nil_iff.mpr (fun m hm => by simpa using hrest m hm)]
      rfl
    · intro he
      rw [hup he]
      exact ⟨rfl, F64.toRat_ofInt_one⟩
    · intro he
      rw [hdown he]
      exact ⟨rfl, F64.toRat_ofInt_zero⟩
    · constructor
      · intro hv
        by_contra he
        rw [hdown he] at hv
        exact absurd hv (by decide)
      · intro he
        rw [hup he]
  · intro perr hurl
    have hg := getStats_exited g.startTLS g.bindDn g.bindPassword hurl
    refine ⟨by rw [hg], by rw [hg], ?_, ?_⟩ <;>
      (unfold Exporter.Collect
       simp only [hg])

/-- C2, amended, at concrete passes: every call succeeds and `up` is 1; the connection is
refused and `up` is 0; the bind is rejected after a successful connection and StartTLS
and `up` is 0; the server URL does not parse and nothing is sent. -/
theorem C2_up_sample_witness :
    (∃ rest, (NewExporter.Collect envUp defaultGlobals).sent
      = ⟨NewExporter.up, .GaugeValue, F64.ofInt 1⟩ :: rest) ∧
    (∃ rest, (NewExporter.Collect envRefused defaultGlobals).sent
      = ⟨NewExporter.up, .GaugeValue, F64.ofInt 0⟩ :: rest) ∧
    (∃ rest, (NewExporter.Collect envBadPassword bindGlobals).sent
      = ⟨NewExporter.up, .GaugeValue, F64.ofInt 0⟩ :: rest) ∧
    (∃ data err, (getStats envUp defaultGlobals.server defaultGlobals.startTLS
      defaultGlobals.bindDn defaultGlobals.bindPassword).outcome = .returned data err) ∧
    (NewExporter.Collect envBadURL noSchemeGlobals).sent = [] := by
  obtain ⟨_, v, rest, hs, _, _, h1, _, _⟩ :=
    (C2_up_sample envUp defaultGlobals).1 (toDSData sampleLocals) none (by decide)
  obtain ⟨_, w, rest0, hs0, _, _, _, h0, _⟩ :=
    (C2_up_sample envRefused defaultGlobals).1 DSData.empty
      (some ⟨"failed to connect", ⟨"connection refused"⟩⟩) (by decide)
  obtain ⟨_, w1, rest1, hs1, _, _, _, h01, _⟩ :=
    (C2_up_sample envBadPassword bindGlobals).1 DSData.empty
      (some ⟨"failed to bind", ⟨"Invalid Credentials"⟩⟩) (by decide)
  refine ⟨⟨rest, by rw [hs, (h1 rfl).1]⟩, ⟨rest0, by rw [hs0, (h0 (by simp)).1]⟩,
    ⟨rest1, by rw [hs1, (h01 (by simp)).1]⟩, ?_,
    ((C2_up_sample envBadURL noSchemeGlobals).2.2 ⟨"invalid URI for request"⟩ rfl).2.2.2⟩
  refine (C2_up_sample envUp defaultGlobals).2.1 "localhost" rfl ?_
  intro sr hsr
  cases hsr
  exact ⟨_, _, rfl, by decide⟩

/-- C3: in every collection pass in which `getStats` returns no error, `Collect` sends
exactly 29 samples: first `up` with kind Gauge and value `float64(1)`, then for each of
the 28 tracked fields, each once and in field order, one sample of kind Counter whose
descriptor is named `ds_exporter_` followed by the name of that field and whose value is
the value of that same field in the snapshot; and the snapshot is the one the extraction
produces from the attributes of the first entry of the search result. -/
theorem C3_collect_on_success (env : Env) (g : Globals) (data : DSData)
    (h : (getStats env g.server g.startTLS g.bindDn g.bindPassword).outcome
      = .returned data none) :
    (NewExporter.Collect env g).sent =
        ⟨NewExporter.up, .GaugeValue, F64.ofInt 1⟩ ::
          Field.all.map (fun f => ⟨NewExporter.desc f, .CounterValue, data.get f⟩) ∧
      (NewExporter.Collect env g).sent.length = 29 ∧
      (F64.ofInt 1).toRat = some 1 ∧
      Field.all.Nodup ∧ Field.all.length = 28 ∧ (∀ f : Field, f ∈ Field.all) ∧
      (∀ f : Field, (NewExporter.desc f).fqName = "ds_exporter_" ++ f.name) ∧
      (∀ f g : Field, NewExporter.desc f = NewExporter.desc g → f = g) ∧
      ∃ sr entry rest v, env.Search searchRequest = .ok sr ∧ sr.Entries = entry :: rest ∧
        scanAttributes Locals.init entry.Attributes = some v ∧
        extract entry.Attributes = some data ∧
        ∀ f : Field, data.get f = parseOrZero (v.get f) := by
  have hs : (NewExporter.Collect env g).sent = NewExporter.emit data := Collect_sent h
  obtain ⟨sr, entry, rest, hq, hen, hx⟩ := getStats_ok_data h
  have hup : data.up = 1 := extract_up hx
  refine ⟨?_, by rw [hs]; rfl, F64.toRat_ofInt_one, by decide, rfl, Field.mem_all,
    NewExporter_desc_fqName, ?_, ?_⟩
  · rw [hs, Exporter.emit_eq, hup]
  · intro f g hfg
    have h1 := NewExporter_desc_fqName f
    rw [hfg, NewExporter_desc_fqName g] at h1
    exact (Field.name_injective (String_append_cancel_left h1)).symm
  · unfold extract at hx
    cases hv : scanAttributes Locals.init entry.Attributes with
    | none => rw [hv] at hx; cases hx
    | some v =>
      rw [hv] at hx
      cases hx
      exact ⟨sr, entry, rest, v, hq, hen, hv, by simp only [extract, hv, Option.map_some'],
        toDSData_get v⟩

/-- C3 at a concrete pass: `anonymousbinds` is `5`, `readops` is `not-a-number`, the
other counters are integers; the pass sends `up = 1`, `anonymousbinds = 5`, `readops = 0`. -/
theorem C3_collect_on_success_witness :
    (getStats envUp bindGlobals.server bindGlobals.startTLS bindGlobals.bindDn
        bindGlobals.bindPassword).outcome = .returned (toDSData sampleLocals) none ∧
    (NewExporter.Collect envUp bindGlobals).sent =
      ⟨NewExporter.up, .GaugeValue, F64.ofInt 1⟩ ::
        Field.all.map (fun f => ⟨NewExporter.desc f, .CounterValue,
          (toDSData sampleLocals).get f⟩) ∧
    (toDSData sampleLocals).anonymousbinds = F64.ofInt 5 ∧
    (toDSData sampleLocals).readops = F64.zero ∧
    (toDSData sampleLocals).cachehits = F64.ofInt 28 :=
  ⟨by decide, (C3_collect_on_success envUp bindGlobals (toDSData sampleLocals) (by decide)).1,
    by decide, by decide, by decide⟩

/-! ## C4: the coercion -/

namespace strconv

theorem packF64_isFinite (neg : Bool) (m : Nat) (e : Int)
    (h : (packF64 neg m e).2 = false) : (packF64 neg m e).1.isFinite = true := by
  unfold packF64 at h ⊢
  split_ifs at h ⊢ <;> rfl

theorem roundF64_isFinite (neg : Bool) (num den : Nat)
    (h : (roundF64 neg num den).2 = false) : (roundF64 neg num den).1.isFinite = true := by
  by_cases h0 : num = 0
  · rw [roundF64, if_pos h0]
    rfl
  · rw [roundF64, if_neg h0] at h ⊢
    exact packF64_isFinite _ _ _ h

theorem commonPrefixLen_le (s p : List Char) : commonPrefixLenIgnoreCase s p ≤ s.length := by
  induction s generalizing p with
  | nil => simp [commonPrefixLenIgnoreCase]
  | cons c s ih =>
    cases p with
    | nil => simp [commonPrefixLenIgnoreCase]
    | cons q p =>
      simp only [commonPrefixLenIgnoreCase, List.length_cons]
      split_ifs
      · omega
      · have := ih p
        omega

/-- The common prefix is all of `s` exactly when `s`, case folded, is a prefix of `p`. -/
theorem commonPrefixLen_eq_length (s p : List Char) :
    commonPrefixLenIgnoreCase s p = s.length ↔
      s.map foldCase = (p.take s.length).map Char.toNat ∧ s.length ≤ p.length := by
  induction s generalizing p with
  | nil => simp [commonPrefixLenIgnoreCase]
  | cons c s ih =>
    cases p with
    | nil => simp [commonPrefixLenIgnoreCase]
    | cons q p =>
      simp only [commonPrefixLenIgnoreCase, List.length_cons, List.map_cons, List.take_succ_cons,
        List.cons.injEq, Nat.add_le_add_iff_right]
      by_cases hc : foldCase c = q.toNat
      · simp only [hc, ne_eq, not_true_eq_false, if_false, Nat.add_right_cancel_iff, true_and]
        exact ih p
      · simp only [hc, ne_eq, not_false_eq_true, if_true, false_and, iff_false]
        omega

theorem infBody_full (neg : Bool) (k : Nat) (s : List Char) :
    (∃ v n, infBody neg k s = some (v, n) ∧ n = k + s.length) ↔
      s.map foldCase = "inf".toList.map Char.toNat ∨
      s.map foldCase = "infinity".toList.map Char.toNat := by
  have hle := commonPrefixLen_le s "infinity".toList
  have hiff := commonPrefixLen_eq_length s "infinity".toList
  constructor
  · rintro ⟨v, n, hb, hn⟩
    unfold infBody at hb
    simp only [] at hb
    split_ifs at hb with h1 h2 h2
    · -- the prefix has 4 to 7 characters: reported as 3, so `s` has 3 characters
      simp only [Option.some.injEq, Prod.mk.injEq] at hb
      omega
    · simp only [Option.some.injEq, Prod.mk.injEq] at hb
      have hlen : commonPrefixLenIgnoreCase s "infinity".toList = s.length := by omega
      have hs := (hiff.mp hlen).1
      rcases h2 with h3 | h8
      · left
        have h3l : s.length = 3 := by omega
        rw [hs, h3l]
        rfl
      · right
        have h8l : s.length = 8 := by omega
        rw [hs, h8l]
        rfl
  · rintro (h | h)
    · have h3l : s.length = 3 := by
        have := congrArg List.length h
        simpa using this
      have hlen : commonPrefixLenIgnoreCase s "infinity".toList = 3 := by
        rw [← h3l]
        apply hiff.mpr
        rw [h3l]
        exact ⟨h, by decide⟩
      refine ⟨.inf neg, k + 3, ?_, by rw [h3l]⟩
      unfold infBody
      simp only [hlen]
      simp
    · have h8l : s.length = 8 := by
        have := congrArg List.length h
        simpa using this
      have hlen : commonPrefixLenIgnoreCase s "infinity".toList = 8 := by
        rw [← h8l]
        apply hiff.mpr
        rw [h8l]
        exact ⟨h, by decide⟩
      refine ⟨.inf neg, k + 8, ?_, by rw [h8l]⟩
      unfold infBody
      simp only [hlen]
      simp

theorem special_isFinite {l : List Char} {v : F64} {n : Nat} (h : special l = some (v, n)) :
    v.isFinite = false := by
  have hb : ∀ neg k s, infBody neg k s = some (v, n) → v.isFinite = false := by
    intro neg k s hs
    unfold infBody at hs
    simp only [] at hs
    split_ifs at hs <;> simp only [Option.some.injEq, Prod.mk.injEq] at hs <;>
      (obtain ⟨rfl, _⟩ := hs; rfl)
  unfold special at h
  cases l with
  | nil => cases h
  | cons c rest =>
    simp only [] at h
    split_ifs at h
    · exact hb _ _ _ h
    · exact hb _ _ _ h
    · exact hb _ _ _ h
    · simp only [Option.some.injEq, Prod.mk.injEq] at h
      obtain ⟨rfl, _⟩ := h
      rfl

theorem char_eq_iff (c d : Char) : c = d ↔ c.toNat = d.toNat :=
  ⟨fun h => congrArg Char.toNat h, fun h => Char.ext (UInt32.ext h)⟩

theorem foldCase_eq (c : Char) :
    foldCase c = if 65 ≤ c.toNat ∧ c.toNat ≤ 90 then c.toNat + 32 else c.toNat := rfl

theorem specialSpellings_eq : specialSpellings =
    [[105, 110, 102], [43, 105, 110, 102], [45, 105, 110, 102],
     [105, 110, 102, 105, 110, 105, 116, 121], [43, 105, 110, 102, 105, 110, 105, 116, 121],
     [45, 105, 110, 102, 105, 110, 105, 116, 121], [110, 97, 110]] := by decide

theorem mem_specialSpellings (a : Nat) (x : List Nat) :
    a :: x ∈ specialSpellings ↔
      (a = 105 ∧ (x = [110, 102] ∨ x = [110, 102, 105, 110, 105, 116, 121])) ∨
      (a = 43 ∧ (x = [105, 110, 102] ∨ x = [105, 110, 102, 105, 110, 105, 116, 121])) ∨
      (a = 45 ∧ (x = [105, 110, 102] ∨ x = [105, 110, 102, 105, 110, 105, 116, 121])) ∨
      (a = 110 ∧ x = [97, 110]) := by
  rw [specialSpellings_eq]
  simp only [List.mem_cons, List.cons.injEq, List.mem_nil_iff, or_false]
  tauto

/-- The special-literal rule accepts the whole input exactly for the seven spellings. -/
theorem special_full (l : List Char) :
    (∃ v n, special l = some (v, n) ∧ n = l.length) ↔ l.map foldCase ∈ specialSpellings := by
  have hinf : "inf".toList.map Char.toNat = [105, 110, 102] := by decide
  have hinfinity : "infinity".toList.map Char.toNat
      = [105, 110, 102, 105, 110, 105, 116, 121] := by decide
  cases l with
  | nil =>
    constructor
    · rintro ⟨v, n, h, _⟩
      cases h
    · intro h
      exact absurd h (by decide)
  | cons c rest =>
    have hfold := foldCase_eq c
    rw [List.map_cons, mem_specialSpellings]
    unfold special
    simp only [char_eq_iff c, List.length_cons]
    have e1 : '+'.toNat = 43 := rfl
    have e2 : '-'.toNat = 45 := rfl
    have e3 : 'i'.toNat = 105 := rfl
    have e4 : 'I'.toNat = 73 := rfl
    have e5 : 'n'.toNat = 110 := rfl
    have e6 : 'N'.toNat = 78 := rfl
    rw [e1, e2, e3, e4, e5, e6]
    by_cases h43 : c.toNat = 43
    · have hf : foldCase c = 43 := by rw [hfold]; split_ifs <;> omega
      rw [if_pos h43, hf]
      have := infBody_full false 1 rest
      rw [hinf, hinfinity, Nat.add_comm 1] at this
      rw [this]
      simp
    · rw [if_neg h43]
      by_cases h45 : c.toNat = 45
      · have hf : foldCase c = 45 := by rw [hfold]; split_ifs <;> omega
        rw [if_pos h45, hf]
        have := infBody_full true 1 rest
        rw [hinf, hinfinity, Nat.add_comm 1] at this
        rw [this]
        simp
      · rw [if_neg h45]
        by_cases hi : c.toNat = 105 ∨ c.toNat = 73
        · have hf : foldCase c = 105 := by rw [hfold]; split_ifs <;> omega
          rw [if_pos hi]
          have := infBody_full false 0 (c :: rest)
          rw [hinf, hinfinity, Nat.zero_add, List.map_cons, hf, List.length_cons] at this
          rw [this, hf]
          simp
        · rw [if_neg hi]
          by_cases hn : c.toNat = 110 ∨ c.toNat = 78
          · have hf : foldCase c = 110 := by rw [hfold]; split_ifs <;> omega
            rw [if_pos hn, hf]
            have hnan : "nan".toList.map Char.toNat = [110, 97, 110] := by decide
            have hiff := commonPrefixLen_eq_length (c :: rest) "nan".toList
            constructor
            · rintro ⟨v, n, h, hlen⟩
              split_ifs at h with h3
              simp only [Option.some.injEq, Prod.mk.injEq] at h
              have hl : (c :: rest).length = 3 := by rw [List.length_cons, ← hlen, h.2]
              have hm := (hiff.mp (by rw [h3, hl])).1
              rw [hl, List.map_cons, hf] at hm
              have hm2 : 110 :: rest.map foldCase = [110, 97, 110] := hm.trans hnan
              simp only [List.cons.injEq, true_and] at hm2
              simp [hm2]
            · intro h
              have hr : rest.map foldCase = [97, 110] := by simpa using h
              have hl : (c :: rest).length = 3 := by
                have := congrArg List.length hr
                simp only [List.length_map, List.length_cons, List.length_nil] at this
                rw [List.length_cons, this]
              have h3 : commonPrefixLenIgnoreCase (c :: rest) "nan".toList = 3 := by
                rw [← hl]
                apply hiff.mpr
                rw [hl, List.map_cons, hf, hr]
                exact ⟨by decide, by decide⟩
              refine ⟨.nan, 3, by rw [if_pos h3], ?_⟩
              rw [List.length_cons] at hl
              exact hl.symm
          · rw [if_neg hn]
            have hf : foldCase c ≠ 105 ∧ foldCase c ≠ 43 ∧ foldCase c ≠ 45 ∧ foldCase c ≠ 110 := by
              rw [hfold]
              split_ifs <;> omega
            simp [hf.1, hf.2.1, hf.2.2.1, hf.2.2.2]

/-! ### What `readFloat` accepts is a numeric literal -/

theorem lor_32 (n : Nat) : n ||| 32 = if n % 64 < 32 then n + 32 else n := by
  have hb : n % 64 < 2 ^ 6 := Nat.mod_lt _ (by norm_num)
  have h1 : n = 2 ^ 6 * (n / 64) ||| n % 64 := by
    rw [← Nat.mul_add_lt_is_or hb]
    omega
  have h2 : ∀ b, b < 64 → b ||| 32 = if b < 32 then b + 32 else b := by decide
  have h3 : n % 64 ||| 32 < 2 ^ 6 := Nat.or_lt_two_pow hb (by norm_num)
  have h4 : n ||| 32 = 2 ^ 6 * (n / 64) + (n % 64 ||| 32) := by
    rw [Nat.mul_add_lt_is_or h3]
    conv_lhs => rw [h1]
    rw [Nat.or_assoc]
  rw [h4, h2 _ (Nat.mod_lt _ (by norm_num))]
  split_ifs <;> omega

theorem lower_eq (c : Char) :
    lower c = if c.toNat % 64 < 32 then c.toNat + 32 else c.toNat := lor_32 c.toNat

theorem isDigit_eq (c : Char) : isDigit c = decDigit c := rfl

/-- The digits of the mantissa loop in base 16 are the hexadecimal digits. -/
theorem hexClass_eq (c : Char) : (isDigit c || isHexLetter c) = hexDigit c := by
  have e0 : '0'.toNat = 48 := rfl
  have e9 : '9'.toNat = 57 := rfl
  have ea : 'a'.toNat = 97 := rfl
  have ef : 'f'.toNat = 102 := rfl
  have eA : 'A'.toNat = 65 := rfl
  have eF : 'F'.toNat = 70 := rfl
  simp only [isDigit, isHexLetter, hexDigit, decDigit, lower_eq, e0, e9, ea, ef, eA, eF]
  rw [Bool.eq_iff_iff]
  simp only [Bool.or_eq_true, decide_eq_true_eq]
  split_ifs <;> omega

theorem lower_eq_x (c : Char) : lower c = 'x'.toNat ↔ c = 'x' ∨ c = 'X' := by
  have e1 : 'x'.toNat = 120 := rfl
  have e2 : 'X'.toNat = 88 := rfl
  rw [char_eq_iff c 'x', char_eq_iff c 'X', lower_eq, e1, e2]
  split_ifs <;> omega

theorem lower_eq_p (c : Char) : lower c = 'p'.toNat ↔ c = 'p' ∨ c = 'P' := by
  have e1 : 'p'.toNat = 112 := rfl
  have e2 : 'P'.toNat = 80 := rfl
  rw [char_eq_iff c 'p', char_eq_iff c 'P', lower_eq, e1, e2]
  split_ifs <;> omega

theorem lower_eq_e (c : Char) : lower c = 'e'.toNat ↔ c = 'e' ∨ c = 'E' := by
  have e1 : 'e'.toNat = 101 := rfl
  have e2 : 'E'.toNat = 69 := rfl
  rw [char_eq_iff c 'e', char_eq_iff c 'E', lower_eq, e1, e2]
  split_ifs <;> omega

theorem loopDigit_underscore (base : Nat) : loopDigit base '_' = false := by
  have h1 : isDigit '_' = false := by decide
  have h2 : isHexLetter '_' = false := by decide
  simp [loopDigit, h1, h2]

theorem loopDigit_point (base : Nat) : loopDigit base '.' = false := by
  have h1 : isDigit '.' = false := by decide
  have h2 : isHexLetter '.' = false := by decide
  simp [loopDigit, h1, h2]

/-- The mantissa loop after the point: it reads a run of digits and underscores. -/
theorem scanMantissa_after_point (base : Nat) (s : List Char) (st : Scan)
    (hdot : st.sawdot = true) :
    (scanMantissa base s st).2 = afterDigits (loopDigit base) s ∧
    (scanMantissa base s st).1.sawdigits
      = (st.sawdigits || leadsWithDigit (loopDigit base) s) ∧
    ((scanMantissa base s st).1.underscores = false →
      st.underscores = false ∧
      ∃ pre, s = pre ++ (scanMantissa base s st).2 ∧ ∀ c ∈ pre, c ≠ '_') := by
  induction s generalizing st with
  | nil =>
    simp only [scanMantissa, afterDigits, leadsWithDigit, List.dropWhile_nil, List.takeWhile_nil,
      List.any_nil, Bool.or_false, true_and]
    intro h
    exact ⟨h, [], rfl, fun c hc => absurd hc (List.not_mem_nil c)⟩
  | cons c cs ih =>
    unfold scanMantissa
    by_cases hu : c = '_'
    · subst hu
      rw [if_pos rfl]
      obtain ⟨h1, h2, h3⟩ := ih { st with underscores := true } hdot
      refine ⟨?_, ?_, ?_⟩
      · rw [h1]
        simp [afterDigits]
      · rw [h2]
        simp [leadsWithDigit, loopDigit_underscore]
      · intro h
        exact absurd (h3 h).1 (by simp)
    · rw [if_neg hu]
      by_cases hp : c = '.'
      · subst hp
        rw [if_pos rfl, if_pos hdot]
        refine ⟨?_, ?_, ?_⟩
        · simp [afterDigits, loopDigit_point]
        · simp [leadsWithDigit, loopDigit_point]
        · intro h
          exact ⟨h, [], rfl, fun c hc => absurd hc (List.not_mem_nil c)⟩
      · rw [if_neg hp]
        have key : loopDigit base c = true → ∀ st1 : Scan, st1.sawdot = true →
            st1.sawdigits = true → st1.underscores = st.underscores →
            (scanMantissa base cs st1).2 = afterDigits (loopDigit base) (c :: cs) ∧
            (scanMantissa base cs st1).1.sawdigits
              = (st.sawdigits || leadsWithDigit (loopDigit base) (c :: cs)) ∧
            ((scanMantissa base cs st1).1.underscores = false →
              st.underscores = false ∧
              ∃ pre, c :: cs = pre ++ (scanMantissa base cs st1).2 ∧ ∀ x ∈ pre, x ≠ '_') := by
          intro hcls st1 hs1 hs2 hs3
          obtain ⟨h1, h2, h3⟩ := ih st1 hs1
          refine ⟨?_, ?_, ?_⟩
          · rw [h1]
            simp [afterDigits, hcls]
          · rw [h2, hs2]
            simp [leadsWithDigit, hcls]
          · intro h
            obtain ⟨h4, pre, h5, h6⟩ := h3 h
            refine ⟨hs3 ▸ h4, c :: pre, by rw [List.cons_append, ← h5], ?_⟩
            intro x hx
            rcases List.mem_cons.mp hx with rfl | hx
            · exact hu
            · exact h6 x hx
        by_cases hd : isDigit c = true
        · rw [if_pos hd]
          have hcls : loopDigit base c = true := by simp [loopDigit, hd]
          split_ifs
          · exact key hcls _ hdot rfl rfl
          · exact key hcls _ hdot rfl rfl
        · rw [if_neg hd]
          by_cases hh : base = 16 ∧ isHexLetter c = true
          · rw [if_pos hh]
            have hcls : loopDigit base c = true := by simp [loopDigit, hh.1, hh.2]
            exact key hcls _ hdot rfl rfl
          · rw [if_neg hh]
            have hcls : loopDigit base c = false := by
              simp only [loopDigit, Bool.or_eq_false_iff, Bool.and_eq_false_iff,
                decide_eq_false_iff_not]
              refine ⟨by simpa using hd, ?_⟩
              by_cases hb : base = 16
              · exact Or.inr (by simpa using fun h => hh ⟨hb, h⟩)
              · exact Or.inl hb
            refine ⟨?_, ?_, ?_⟩
            · simp [afterDigits, hcls, hu]
            · simp [leadsWithDigit, hcls, hu]
            · intro h
              exact ⟨h, [], rfl, fun c hc => absurd hc (List.not_mem_nil c)⟩

/-- The mantissa loop from its start: it reads a mantissa, and sees a digit exactly when
the mantissa holds one. -/
theorem scanMantissa_shape (base : Nat) (s : List Char) (st : Scan)
    (hdot : st.sawdot = false) :
    (scanMantissa base s st).2 = afterMantissa (loopDigit base) s ∧
    (scanMantissa base s st).1.sawdigits
      = (st.sawdigits || mantissaHasDigit (loopDigit base) s) ∧
    ((scanMantissa base s st).1.underscores = false →
      st.underscores = false ∧
      ∃ pre, s = pre ++ (scanMantissa base s st).2 ∧ ∀ c ∈ pre, c ≠ '_') := by
  induction s generalizing st with
  | nil =>
    simp only [scanMantissa, afterMantissa, mantissaHasDigit, afterDigits, leadsWithDigit,
      List.dropWhile_nil, List.takeWhile_nil, List.any_nil, Bool.or_false, true_and]
    intro h
    exact ⟨h, [], rfl, fun c hc => absurd hc (List.not_mem_nil c)⟩
  | cons c cs ih =>
    unfold scanMantissa
    by_cases hu : c = '_'
    · subst hu
      rw [if_pos rfl]
      obtain ⟨h1, h2, h3⟩ := ih { st with underscores := true } hdot
      refine ⟨?_, ?_, ?_⟩
      · rw [h1]
        simp [afterMantissa, afterDigits]
      · rw [h2]
        simp [mantissaHasDigit, leadsWithDigit, afterDigits, loopDigit_underscore]
      · intro h
        exact absurd (h3 h).1 (by simp)
    · rw [if_neg hu]
      by_cases hp : c = '.'
      · subst hp
        rw [if_pos rfl, if_neg (by simp [hdot])]
        obtain ⟨h1, h2, h3⟩ := scanMantissa_after_point base cs
          { st with sawdot := true, dp := st.nd } rfl
        refine ⟨?_, ?_, ?_⟩
        · rw [h1]
          simp [afterMantissa, afterDigits, loopDigit_point]
        · rw [h2]
          simp [mantissaHasDigit, leadsWithDigit, afterDigits, loopDigit_point]
        · intro h
          obtain ⟨h4, pre, h5, h6⟩ := h3 h
          refine ⟨h4, '.' :: pre, by rw [List.cons_append, ← h5], ?_⟩
          intro x hx
          rcases List.mem_cons.mp hx with rfl | hx
          · decide
          · exact h6 x hx
      · rw [if_neg hp]
        have key : loopDigit base c = true → ∀ st1 : Scan, st1.sawdot = false →
            st1.sawdigits = true → st1.underscores = st.underscores →
            (scanMantissa base cs st1).2 = afterMantissa (loopDigit base) (c :: cs) ∧
            (scanMantissa base cs st1).1.sawdigits
              = (st.sawdigits || mantissaHasDigit (loopDigit base) (c :: cs)) ∧
            ((scanMantissa base cs st1).1.underscores = false →
              st.underscores = false ∧
              ∃ pre, c :: cs = pre ++ (scanMantissa base cs st1).2 ∧ ∀ x ∈ pre, x ≠ '_') := by
          intro hcls st1 hs1 hs2 hs3
          obtain ⟨h1, h2, h3⟩ := ih st1 hs1
          refine ⟨?_, ?_, ?_⟩
          · rw [h1]
            simp [afterMantissa, afterDigits, hcls]
          · rw [h2, hs2]
            simp [mantissaHasDigit, leadsWithDigit, hcls]
          · intro h
            obtain ⟨h4, pre, h5, h6⟩ := h3 h
            refine ⟨hs3 ▸ h4, c :: pre, by rw [List.cons_append, ← h5], ?_⟩
            intro x hx
            rcases List.mem_cons.mp hx with rfl | hx
            · exact hu
            · exact h6 x hx
        by_cases hd : isDigit c = true
        · rw [if_pos hd]
          have hcls : loopDigit base c = true := by simp [loopDigit, hd]
          split_ifs
          · exact key hcls _ hdot rfl rfl
          · exact key hcls _ hdot rfl rfl
        · rw [if_neg hd]
          by_cases hh : base = 16 ∧ isHexLetter c = true
          · rw [if_pos hh]
            have hcls : loopDigit base c = true := by simp [loopDigit, hh.1, hh.2]
            exact key hcls _ hdot rfl rfl
          · rw [if_neg hh]
            have hcls : loopDigit base c = false := by
              simp only [loopDigit, Bool.or_eq_false_iff, Bool.and_eq_false_iff,
                decide_eq_false_iff_not]
              refine ⟨by simpa using hd, ?_⟩
              by_cases hb : base = 16
              · exact Or.inr (by simpa using fun h => hh ⟨hb, h⟩)
              · exact Or.inl hb
            refine ⟨?_, ?_, ?_⟩
            · simp [afterMantissa, afterDigits, hcls, hu, hp]
            · simp [mantissaHasDigit, leadsWithDigit, afterDigits, hcls, hu, hp]
            · intro h
              exact ⟨h, [], rfl, fun c hc => absurd hc (List.not_mem_nil c)⟩

/-- The exponent loop reads a run of decimal digits and underscores. -/
theorem scanExponent_shape (s : List Char) (e : Nat) (us : Bool) :
    (scanExponent s e us).2.2 = afterDigits decDigit s ∧
    ((scanExponent s e us).2.1 = false →
      us = false ∧ ∃ pre, s = pre ++ (scanExponent s e us).2.2 ∧ ∀ c ∈ pre, c ≠ '_') := by
  induction s generalizing e us with
  | nil =>
    simp only [scanExponent, afterDigits, List.dropWhile_nil, true_and]
    intro h
    exact ⟨h, [], rfl, fun c hc => absurd hc (List.not_mem_nil c)⟩
  | cons c cs ih =>
    unfold scanExponent
    by_cases hu : c = '_'
    · subst hu
      rw [if_pos rfl]
      obtain ⟨h1, h2⟩ := ih e true
      refine ⟨?_, ?_⟩
      · rw [h1]
        simp [afterDigits]
      · intro h
        exact absurd (h2 h).1 (by simp)
    · rw [if_neg hu]
      by_cases hd : isDigit c = true
      · rw [if_pos hd]
        obtain ⟨h1, h2⟩ := ih (if e < 10000 then e * 10 + (c.toNat - '0'.toNat) else e) us
        have hcls : decDigit c = true := hd
        refine ⟨?_, ?_⟩
        · rw [h1]
          simp [afterDigits, hcls]
        · intro h
          obtain ⟨h4, pre, h5, h6⟩ := h2 h
          refine ⟨h4, c :: pre, by rw [List.cons_append, ← h5], ?_⟩
          intro x hx
          rcases List.mem_cons.mp hx with rfl | hx
          · exact hu
          · exact h6 x hx
      · rw [if_neg hd]
        have hcls : decDigit c = false := by simpa [isDigit_eq] using hd
        refine ⟨?_, ?_⟩
        · simp [afterDigits, hcls, hu]
        · intro h
          exact ⟨h, [], rfl, fun c hc => absurd hc (List.not_mem_nil c)⟩

/-- A text without underscores has its underscores well placed. -/
theorem separated_of_no_underscore (digit : Char → Bool) (prev : Bool) (s : List Char)
    (h : ∀ c ∈ s, c ≠ '_') : separated digit prev s = true := by
  induction s generalizing prev with
  | nil => rfl
  | cons c cs ih =>
    unfold separated
    rw [if_neg (h c (List.mem_cons_self _ _))]
    exact ih _ fun x hx => h x (List.mem_cons_of_mem _ hx)

/-- What Go `underscoreOK` accepts has every underscore between two digits. -/
theorem separated_of_underscoreLoop (hex : Bool) (s : List Char) (saw : Char)
    (h : underscoreLoop hex s saw = true) :
    (saw = '_' → ∃ d ds, s = d :: ds ∧ (isDigit d || (hex && isHexLetter d)) = true) ∧
    separated (fun c => isDigit c || (hex && isHexLetter c)) (decide (saw = '0')) s = true := by
  induction s generalizing saw with
  | nil =>
    unfold underscoreLoop at h
    refine ⟨fun hs => ?_, rfl⟩
    simp [hs] at h
  | cons c cs ih =>
    unfold underscoreLoop at h
    by_cases hd : isDigit c = true ∨ (hex = true ∧ isHexLetter c = true)
    · rw [if_pos hd] at h
      have hcls : (isDigit c || (hex && isHexLetter c)) = true := by
        simpa using hd
      have hu : c ≠ '_' := by
        rintro rfl
        have h1 : isDigit '_' = false := by decide
        have h2 : isHexLetter '_' = false := by decide
        simp [h1, h2] at hcls
      refine ⟨fun _ => ⟨c, cs, rfl, hcls⟩, ?_⟩
      unfold separated
      rw [if_neg hu]
      simp only [hcls]
      simpa using (ih '0' h).2
    · rw [if_neg hd] at h
      have hcls : (isDigit c || (hex && isHexLetter c)) = false := by
        rw [Bool.eq_false_iff]
        simpa using hd
      by_cases hu : c = '_'
      · rw [if_pos hu] at h
        by_cases hs : saw = '0'
        · rw [if_neg (by simpa using hs)] at h
          obtain ⟨h1, h2⟩ := ih '_' h
          obtain ⟨d, ds, hcs, hdd⟩ := h1 rfl
          refine ⟨fun hs2 => ?_, ?_⟩
          · rw [hs] at hs2
            exact absurd hs2 (by decide)
          · unfold separated
            rw [if_pos hu]
            subst hcs
            have h3 : separated (fun c => isDigit c || (hex && isHexLetter c)) false (d :: ds)
                = true := by simpa using h2
            simp [hs, hdd, h3]
        · rw [if_pos (by simpa using hs)] at h
          cases h
      · rw [if_neg hu] at h
        by_cases hs : saw = '_'
        · rw [if_pos hs] at h
          cases h
        · rw [if_neg hs] at h
          refine ⟨fun hs2 => absurd hs2 hs, ?_⟩
          unfold separated
          rw [if_neg hu]
          simp only [hcls]
          simpa using (ih '!' h).2

theorem afterSign_cons (c : Char) (cs : List Char) :
    afterSign (c :: cs) = if c = '+' ∨ c = '-' then cs else c :: cs := rfl

theorem exponent_facts (marker : Char → Bool) (c : Char) (s4 : List Char) (f : Char)
    (tail : List Char) (us0 : Bool) (hs6 : afterSign s4 = f :: tail)
    (hf : isDigit f = true) (hmark : marker c = true) (hcu : c ≠ '_')
    (hend : (scanExponent (f :: tail) 0 us0).2.2 = []) :
    isExponent marker (c :: s4) = true ∧
    ((scanExponent (f :: tail) 0 us0).2.1 = false →
      us0 = false ∧ ∀ x ∈ c :: s4, x ≠ '_') := by
  obtain ⟨h1, h2⟩ := scanExponent_shape (f :: tail) 0 us0
  have hfd : decDigit f = true := hf
  refine ⟨?_, ?_⟩
  · simp only [isExponent, hs6]
    have h3 : afterDigits decDigit tail = [] := by
      rw [hend] at h1
      rw [h1]
      simp [afterDigits, hfd]
    simp [hmark, hfd, h3]
  · intro hus
    obtain ⟨h4, pre, h5, h6⟩ := h2 hus
    rw [hend, List.append_nil] at h5
    refine ⟨h4, ?_⟩
    intro x hx
    rcases List.mem_cons.mp hx with rfl | hx
    · exact hcu
    · have hsub : ∀ y ∈ afterSign s4, y ≠ '_' := by
        rw [hs6, h5]
        exact h6
      cases s4 with
      | nil => exact absurd hx (List.not_mem_nil x)
      | cons d s5 =>
        rw [afterSign_cons] at hsub
        by_cases hd : d = '+' ∨ d = '-'
        · rw [if_pos hd] at hsub
          rcases List.mem_cons.mp hx with rfl | hx
          · rcases hd with rfl | rfl <;> decide
          · exact hsub x hx
        · rw [if_neg hd] at hsub
          exact hsub x hx

theorem underscoreOK_cases (l : List Char) (h : underscoreOK l = true) :
    (∃ b rest, afterSign l = '0' :: b :: rest ∧
      (lower b = 'b'.toNat ∨ lower b = 'o'.toNat ∨ lower b = 'x'.toNat) ∧
      underscoreLoop (decide (lower b = 'x'.toNat)) rest '0' = true) ∨
    ((¬ ∃ b rest, afterSign l = '0' :: b :: rest ∧
        (lower b = 'b'.toNat ∨ lower b = 'o'.toNat ∨ lower b = 'x'.toNat)) ∧
      underscoreLoop false (afterSign l) '^' = true) := by
  have key : ∀ s1 : List Char,
      (match s1 with
        | z :: b :: rest =>
          if z = '0' ∧ (lower b = 'b'.toNat ∨ lower b = 'o'.toNat ∨ lower b = 'x'.toNat) then
            underscoreLoop (lower b = 'x'.toNat) rest '0'
          else underscoreLoop false s1 '^'
        | _ => underscoreLoop false s1 '^') = true →
      (∃ b rest, s1 = '0' :: b :: rest ∧
        (lower b = 'b'.toNat ∨ lower b = 'o'.toNat ∨ lower b = 'x'.toNat) ∧
        underscoreLoop (decide (lower b = 'x'.toNat)) rest '0' = true) ∨
      ((¬ ∃ b rest, s1 = '0' :: b :: rest ∧
          (lower b = 'b'.toNat ∨ lower b = 'o'.toNat ∨ lower b = 'x'.toNat)) ∧
        underscoreLoop false s1 '^' = true) := by
    intro s1 h1
    split at h1
    · rename_i z b rest1
      split at h1
      · rename_i hp
        obtain ⟨rfl, hb⟩ := hp
        exact Or.inl ⟨b, rest1, rfl, hb, h1⟩
      · rename_i hp
        refine Or.inr ⟨?_, h1⟩
        rintro ⟨b1, rest2, heq, hb⟩
        cases heq
        exact hp ⟨rfl, hb⟩
    · rename_i hne
      refine Or.inr ⟨?_, h1⟩
      rintro ⟨b1, rest2, heq, _⟩
      exact hne _ _ _ heq
  unfold underscoreOK at h
  cases l with
  | nil => exact key [] h
  | cons c rest =>
    simp only [] at h
    rw [afterSign_cons]
    by_cases hc : c = '+' ∨ c = '-'
    · rw [if_pos hc]
      rw [if_pos (Or.symm hc)] at h
      exact key rest h
    · rw [if_neg hc]
      rw [if_neg (fun h1 => hc (Or.symm h1))] at h
      exact key (c :: rest) h

theorem separated_decimal (l s3 : List Char) (us : Bool)
    (hm : afterMantissa decDigit (afterSign l) = s3)
    (hs3 : s3 = [] ∨ ∃ c s4, s3 = c :: s4 ∧ lower c = 'e'.toNat)
    (hok : us = true → underscoreOK l = true)
    (hno : us = false → ∀ x ∈ afterSign l, x ≠ '_') :
    separated decDigit false (afterSign l) = true := by
  cases us with
  | false => exact separated_of_no_underscore _ _ _ (hno rfl)
  | true =>
    rcases underscoreOK_cases l (hok rfl) with ⟨b, rest, hl, hb, _⟩ | ⟨_, hloop⟩
    · exfalso
      have eb : 'b'.toNat = 98 := rfl
      have eo : 'o'.toNat = 111 := rfl
      have ex : 'x'.toNat = 120 := rfl
      have ee : 'e'.toNat = 101 := rfl
      rw [lower_eq, eb, eo, ex] at hb
      have hbd : decDigit b = false := by
        have e0 : '0'.toNat = 48 := rfl
        have e9 : '9'.toNat = 57 := rfl
        simp only [decDigit, e0, e9, decide_eq_false_iff_not]
        split_ifs at hb <;> omega
      have hbu : b ≠ '_' := by
        rw [Ne, char_eq_iff]
        have : '_'.toNat = 95 := rfl
        rw [this]
        split_ifs at hb <;> omega
      have hbp : b ≠ '.' := by
        rw [Ne, char_eq_iff]
        have : '.'.toNat = 46 := rfl
        rw [this]
        split_ifs at hb <;> omega
      have h0 : decDigit '0' = true := by decide
      have hs : afterMantissa decDigit (afterSign l) = b :: rest := by
        rw [hl]
        simp [afterMantissa, afterDigits, h0, hbd, hbu, hbp]
      rw [hs] at hm
      rcases hs3 with h3 | ⟨c, s4, h3, hc⟩
      · rw [h3] at hm
        cases hm
      · rw [h3] at hm
        cases hm
        rw [lower_eq, ee] at hc
        split_ifs at hb hc <;> omega
    · have h2 := (separated_of_underscoreLoop false (afterSign l) '^' hloop).2
      have hf : (fun c => isDigit c || (false && isHexLetter c)) = decDigit := by
        funext c
        simp [isDigit_eq]
      rw [hf] at h2
      exact h2

theorem separated_hex (l : List Char) (x : Char) (body : List Char) (us : Bool)
    (hl : afterSign l = '0' :: x :: body) (hx : lower x = 'x'.toNat)
    (hok : us = true → underscoreOK l = true)
    (hno : us = false → ∀ y ∈ body, y ≠ '_') :
    separated hexDigit true body = true := by
  cases us with
  | false => exact separated_of_no_underscore _ _ _ (hno rfl)
  | true =>
    rcases underscoreOK_cases l (hok rfl) with ⟨b, rest, hl1, hb, hloop⟩ | ⟨hne, _⟩
    · rw [hl] at hl1
      cases hl1
      have hd : decide (lower x = 'x'.toNat) = true := by simpa using hx
      rw [hd] at hloop
      have h2 := (separated_of_underscoreLoop true body '0' hloop).2
      have hf : (fun c => isDigit c || (true && isHexLetter c)) = hexDigit := by
        funext c
        rw [← hexClass_eq]
        simp
      rw [hf] at h2
      exact h2
    · exact absurd ⟨x, body, hl, Or.inr (Or.inr hx)⟩ hne

theorem loopDigit_ten : loopDigit 10 = decDigit := by
  funext c
  simp [loopDigit, isDigit_eq]

theorem loopDigit_hex : loopDigit 16 = hexDigit := by
  funext c
  rw [← hexClass_eq]
  simp [loopDigit]

theorem finish_some (l rest : List Char) (us : Bool) (m : Nat) (e : Int) (n hx : Bool)
    (lit : Literal)
    (h : (if us = true ∧ ¬ underscoreOK (l.take (l.length - rest.length)) = true then none
          else some (Literal.mk m e n hx rest)) = some lit)
    (hrest : lit.rest = []) :
    rest = [] ∧ (us = true → underscoreOK l = true) := by
  split at h
  · cases h
  · rename_i hc
    cases h
    simp only [] at hrest
    subst hrest
    refine ⟨rfl, fun hu => ?_⟩
    simp only [List.length_nil, Nat.sub_zero, List.take_length] at hc
    by_contra hn
    exact hc ⟨hu, hn⟩

theorem readFloat_literal (l : List Char) (lit : Literal) (h : readFloat l = some lit)
    (hrest : lit.rest = []) :
    (mantissaHasDigit decDigit (afterSign l) = true ∧
      (afterMantissa decDigit (afterSign l) = [] ∨
        isExponent (fun c => c == 'e' || c == 'E') (afterMantissa decDigit (afterSign l)) = true) ∧
      separated decDigit false (afterSign l) = true) ∨
    (∃ x body, afterSign l = '0' :: x :: body ∧ (x = 'x' ∨ x = 'X') ∧
      mantissaHasDigit hexDigit body = true ∧
      isExponent (fun c => c == 'p' || c == 'P') (afterMantissa hexDigit body) = true ∧
      separated hexDigit true body = true) := by
  cases l with
  | nil => cases h
  | cons c0 tl =>
    rw [afterSign_cons]
    unfold readFloat at h
    simp only [] at h
    generalize hs1 : (if c0 = '+' ∨ c0 = '-' then tl else c0 :: tl) = s1 at h ⊢
    split at h
    · rename_i hhex
      right
      obtain ⟨z, x, body, rfl, rfl, hx, hbody⟩ :
          ∃ z x body, s1 = z :: x :: body ∧ z = '0' ∧ lower x = 'x'.toNat ∧ body ≠ [] := by
        split at hhex
        · rename_i z x head tail
          have := of_decide_eq_true hhex
          exact ⟨z, x, head :: tail, rfl, this.1, this.2, List.cons_ne_nil _ _⟩
        · cases hhex
      refine ⟨x, body, rfl, (lower_eq_x x).1 hx, ?_⟩
      have hl : afterSign (c0 :: tl) = '0' :: x :: body := hs1
      simp only [List.drop_succ_cons, List.drop_zero] at h
      obtain ⟨hm1, hm2, hm3⟩ := scanMantissa_shape 16 body ⟨0, false, false, 0, 0, false⟩ rfl
      rw [loopDigit_hex] at hm1 hm2
      generalize scanMantissa 16 body ⟨0, false, false, 0, 0, false⟩ = r at h hm1 hm2 hm3
      obtain ⟨st, s3⟩ := r
      simp only [] at h hm1 hm2 hm3
      by_cases hsd : st.sawdigits = true
      swap
      · rw [if_pos (by simpa using hsd)] at h
        cases h
      rw [if_neg (by simpa using hsd)] at h
      have hmd : mantissaHasDigit hexDigit body = true := by
        rw [hsd] at hm2
        simpa using hm2.symm
      refine ⟨hmd, ?_⟩
      cases s3 with
      | nil => cases h
      | cons c s4 =>
        simp only [] at h
        by_cases hc : lower c = 'p'.toNat
        swap
        · rw [if_neg hc] at h
          cases h
        rw [if_pos hc] at h
        cases s4 with
        | nil => cases h
        | cons d s5 =>
          simp only [] at h
          generalize hs6 : (if d = '+' ∨ d = '-' then s5 else d :: s5) = s6 at h
          cases s6 with
          | nil => cases h
          | cons f tail =>
            simp only [] at h
            by_cases hf : isDigit f = true
            swap
            · rw [if_pos hf] at h
              cases h
            rw [if_neg (not_not.2 hf)] at h
            obtain ⟨hend, hok⟩ := finish_some _ _ _ _ _ _ _ _ h hrest
            have hmark : (fun c => c == 'p' || c == 'P') c = true := by
              simpa using (lower_eq_p c).1 hc
            have hcu : c ≠ '_' := by
              rintro rfl
              revert hc
              decide
            obtain ⟨hexp, hnu⟩ := exponent_facts (fun c => c == 'p' || c == 'P') c (d :: s5) f
              tail st.underscores hs6 hf hmark hcu hend
            rw [← hm1]
            refine ⟨hexp, ?_⟩
            refine separated_hex (c0 :: tl) x body _ hl hx hok ?_
            intro hu
            obtain ⟨hu0, hall2⟩ := hnu hu
            obtain ⟨_, pre, hpre, hall⟩ := hm3 hu0
            rw [hpre]
            intro y hy
            rcases List.mem_append.1 hy with h1 | h1
            · exact hall y h1
            · exact hall2 y h1
    · rename_i hnh
      left
      obtain ⟨hm1, hm2, hm3⟩ := scanMantissa_shape 10 s1 ⟨0, false, false, 0, 0, false⟩ rfl
      rw [loopDigit_ten] at hm1 hm2
      generalize scanMantissa 10 s1 ⟨0, false, false, 0, 0, false⟩ = r at h hm1 hm2 hm3
      obtain ⟨st, s3⟩ := r
      simp only [] at h hm1 hm2 hm3
      by_cases hsd : st.sawdigits = true
      swap
      · rw [if_pos (by simpa using hsd)] at h
        cases h
      rw [if_neg (by simpa using hsd)] at h
      have hl : afterSign (c0 :: tl) = s1 := hs1
      have hmd : mantissaHasDigit decDigit s1 = true := by
        rw [hsd] at hm2
        simpa using hm2.symm
      refine ⟨hmd, ?_⟩
      cases s3 with
      | nil =>
        simp only [] at h
        obtain ⟨_, hok⟩ := finish_some _ _ _ _ _ _ _ _ h hrest
        refine ⟨Or.inl hm1.symm, ?_⟩
        rw [← hl]
        refine separated_decimal (c0 :: tl) [] st.underscores ?_ (Or.inl rfl) hok ?_
        · rw [hl]
          exact hm1.symm
        · intro hu
          rw [hl]
          obtain ⟨_, pre, hpre, hall⟩ := hm3 hu
          rw [List.append_nil] at hpre
          rw [hpre]
          exact hall
      | cons c s4 =>
        simp only [] at h
        by_cases hc : lower c = 'e'.toNat
        swap
        · rw [if_neg hc] at h
          exact absurd (finish_some _ _ _ _ _ _ _ _ h hrest).1 (List.cons_ne_nil _ _)
        rw [if_pos hc] at h
        cases s4 with
        | nil => cases h
        | cons d s5 =>
          simp only [] at h
          generalize hs6 : (if d = '+' ∨ d = '-' then s5 else d :: s5) = s6 at h
          cases s6 with
          | nil => cases h
          | cons f tail =>
            simp only [] at h
            by_cases hf : isDigit f = true
            swap
            · rw [if_pos hf] at h
              cases h
            rw [if_neg (not_not.2 hf)] at h
            obtain ⟨hend, hok⟩ := finish_some _ _ _ _ _ _ _ _ h hrest
            have hmark : (fun c => c == 'e' || c == 'E') c = true := by
              simpa using (lower_eq_e c).1 hc
            have hcu : c ≠ '_' := by
              rintro rfl
              revert hc
              decide
            obtain ⟨hexp, hnu⟩ := exponent_facts (fun c => c == 'e' || c == 'E') c (d :: s5) f tail st.underscores hs6 hf
              hmark hcu hend
            rw [← hm1]
            refine ⟨Or.inr hexp, ?_⟩
            rw [← hl]
            refine separated_decimal (c0 :: tl) (c :: d :: s5) _ ?_ (Or.inr ⟨c, _, rfl, hc⟩) hok ?_
            · rw [hl]
              exact hm1.symm
            · intro hu
              rw [hl]
              obtain ⟨hu0, hall2⟩ := hnu hu
              obtain ⟨_, pre, hpre, hall⟩ := hm3 hu0
              rw [hpre]
              intro x hx
              rcases List.mem_append.1 hx with h1 | h1
              · exact hall x h1
              · exact hall2 x h1

/-! ### Every numeric literal is accepted -/

/-- A text whose underscores all stand between two digits passes the loop of Go
`underscoreOK`. -/
theorem underscoreLoop_of_separated (hex : Bool) (s : List Char) (saw : Char)
    (hnext : saw = '_' → ∃ d ds, s = d :: ds ∧ (isDigit d || (hex && isHexLetter d)) = true)
    (h : separated (fun c => isDigit c || (hex && isHexLetter c)) (decide (saw = '0')) s
      = true) :
    underscoreLoop hex s saw = true := by
  induction s generalizing saw with
  | nil =>
    unfold underscoreLoop
    rw [decide_eq_true_eq]
    intro hs
    obtain ⟨d, ds, h1, _⟩ := hnext hs
    cases h1
  | cons c cs ih =>
    unfold underscoreLoop
    unfold separated at h
    by_cases hd : isDigit c = true ∨ (hex = true ∧ isHexLetter c = true)
    · rw [if_pos hd]
      have hcls : (isDigit c || (hex && isHexLetter c)) = true := by
        simpa using hd
      have hu : c ≠ '_' := by
        rintro rfl
        have h1 : isDigit '_' = false := by decide
        have h2 : isHexLetter '_' = false := by decide
        simp [h1, h2] at hcls
      rw [if_neg hu] at h
      simp only [hcls] at h
      exact ih '0' (fun h0 => absurd h0 (by decide)) (by simpa using h)
    · rw [if_neg hd]
      have hcls : (isDigit c || (hex && isHexLetter c)) = false := by
        rw [Bool.eq_false_iff]
        simpa using hd
      by_cases hu : c = '_'
      · rw [if_pos hu]
        rw [if_pos hu] at h
        simp only [Bool.and_eq_true, decide_eq_true_eq] at h
        obtain ⟨⟨hs, hnx⟩, hsep⟩ := h
        rw [if_neg (by simpa using hs)]
        refine ih '_' (fun _ => ?_) (by simpa using hsep)
        cases cs with
        | nil => cases hnx
        | cons d ds => exact ⟨d, ds, rfl, hnx⟩
      · rw [if_neg hu]
        rw [if_neg hu] at h
        have hs : saw ≠ '_' := by
          intro hs
          obtain ⟨d, ds, h1, h2⟩ := hnext hs
          cases h1
          rw [hcls] at h2
          cases h2
        rw [if_neg hs]
        simp only [hcls] at h
        exact ih '!' (fun h0 => absurd h0 (by decide)) (by simpa using h)

theorem underscoreOK_eq (l : List Char) :
    (∀ b rest, afterSign l = '0' :: b :: rest →
      (lower b = 'b'.toNat ∨ lower b = 'o'.toNat ∨ lower b = 'x'.toNat) →
      underscoreOK l = underscoreLoop (decide (lower b = 'x'.toNat)) rest '0') ∧
    ((¬ ∃ b rest, afterSign l = '0' :: b :: rest ∧
        (lower b = 'b'.toNat ∨ lower b = 'o'.toNat ∨ lower b = 'x'.toNat)) →
      underscoreOK l = underscoreLoop false (afterSign l) '^') := by
  have key : ∀ s1 : List Char,
      (∀ b rest, s1 = '0' :: b :: rest →
        (lower b = 'b'.toNat ∨ lower b = 'o'.toNat ∨ lower b = 'x'.toNat) →
        (match s1 with
          | z :: b :: rest =>
            if z = '0' ∧ (lower b = 'b'.toNat ∨ lower b = 'o'.toNat ∨ lower b = 'x'.toNat) then
              underscoreLoop (lower b = 'x'.toNat) rest '0'
            else underscoreLoop false s1 '^'
          | _ => underscoreLoop false s1 '^')
          = underscoreLoop (decide (lower b = 'x'.toNat)) rest '0') ∧
      ((¬ ∃ b rest, s1 = '0' :: b :: rest ∧
          (lower b = 'b'.toNat ∨ lower b = 'o'.toNat ∨ lower b = 'x'.toNat)) →
        (match s1 with
          | z :: b :: rest =>
            if z = '0' ∧ (lower b = 'b'.toNat ∨ lower b = 'o'.toNat ∨ lower b = 'x'.toNat) then
              underscoreLoop (lower b = 'x'.toNat) rest '0'
            else underscoreLoop false s1 '^'
          | _ => underscoreLoop false s1 '^')
          = underscoreLoop false s1 '^') := by
    intro s1
    constructor
    · rintro b rest rfl hb
      exact if_pos ⟨rfl, hb⟩
    · intro hne
      split
      · rename_i z b rest
        by_cases hp : z = '0' ∧
            (lower b = 'b'.toNat ∨ lower b = 'o'.toNat ∨ lower b = 'x'.toNat)
        · exact absurd ⟨b, rest, by rw [hp.1], hp.2⟩ hne
        · rw [if_neg hp]
      · rfl
  unfold underscoreOK
  cases l with
  | nil => exact key []
  | cons c rest =>
    simp only []
    rw [afterSign_cons]
    by_cases hc : c = '+' ∨ c = '-'
    · rw [if_pos hc, if_pos (Or.symm hc)]
      exact key rest
    · rw [if_neg hc, if_neg (fun h1 => hc (Or.symm h1))]
      exact key (c :: rest)

/-- A mantissa with a digit starts with a digit, an underscore or a point. -/
theorem mantissa_head (digit : Char → Bool) (s : List Char)
    (h : mantissaHasDigit digit s = true) :
    ∃ a r, s = a :: r ∧ (digit a = true ∨ a = '_' ∨ a = '.') := by
  cases s with
  | nil => exact absurd h (by simp [mantissaHasDigit, leadsWithDigit, afterDigits])
  | cons a r =>
    refine ⟨a, r, rfl, ?_⟩
    by_cases hd : digit a = true
    · exact Or.inl hd
    by_cases hu : a = '_'
    · exact Or.inr (Or.inl hu)
    right
    right
    have hf : (digit a || a == '_') = false := by simp [hd, hu]
    simp only [mantissaHasDigit, leadsWithDigit, afterDigits, List.takeWhile_cons, hf,
      List.dropWhile_cons, List.any_nil, Bool.false_or, Bool.and_eq_true, beq_iff_eq,
      Bool.false_eq_true, if_false] at h
    exact h.1

/-- After a base marker the decimal mantissa is just the leading zero. -/
theorem afterMantissa_base_mark (b : Char) (rest : List Char)
    (hb : lower b = 'b'.toNat ∨ lower b = 'o'.toNat ∨ lower b = 'x'.toNat) :
    afterMantissa decDigit ('0' :: b :: rest) = b :: rest := by
  have eb : 'b'.toNat = 98 := rfl
  have eo : 'o'.toNat = 111 := rfl
  have ex : 'x'.toNat = 120 := rfl
  rw [lower_eq, eb, eo, ex] at hb
  have hbd : decDigit b = false := by
    have e0 : '0'.toNat = 48 := rfl
    have e9 : '9'.toNat = 57 := rfl
    simp only [decDigit, e0, e9, decide_eq_false_iff_not]
    split_ifs at hb <;> omega
  have hbu : b ≠ '_' := by
    rw [Ne, char_eq_iff]
    have : '_'.toNat = 95 := rfl
    rw [this]
    split_ifs at hb <;> omega
  have hbp : b ≠ '.' := by
    rw [Ne, char_eq_iff]
    have : '.'.toNat = 46 := rfl
    rw [this]
    split_ifs at hb <;> omega
  have h0 : decDigit '0' = true := by decide
  simp [afterMantissa, afterDigits, h0, hbd, hbu, hbp]

/-- The special-literal rule rejects a text whose first character after the sign is none
of `i`, `I`, `n`, `N`. -/
theorem special_none (l : List Char)
    (h : ∀ a r, afterSign l = a :: r → a ≠ 'i' ∧ a ≠ 'I' ∧ a ≠ 'n' ∧ a ≠ 'N') :
    special l = none := by
  have hinf : ∀ (neg : Bool) (k : Nat) (s : List Char),
      (∀ a r, s = a :: r → a ≠ 'i' ∧ a ≠ 'I' ∧ a ≠ 'n' ∧ a ≠ 'N') →
      infBody neg k s = none := by
    intro neg k s hs
    have h0 : commonPrefixLenIgnoreCase s "infinity".toList = 0 := by
      cases s with
      | nil => rfl
      | cons a r =>
        obtain ⟨h1, h2, _⟩ := hs a r rfl
        rw [Ne, char_eq_iff] at h1 h2
        have e1 : 'i'.toNat = 105 := rfl
        have e2 : 'I'.toNat = 73 := rfl
        rw [e1] at h1
        rw [e2] at h2
        have hf : foldCase a ≠ 105 := by
          rw [foldCase_eq]
          split_ifs <;> omega
        have hl : "infinity".toList = 'i' :: "nfinity".toList := rfl
        rw [hl]
        unfold commonPrefixLenIgnoreCase
        rw [if_pos (by rw [e1]; exact hf)]
    unfold infBody
    simp only [h0]
    simp
  cases l with
  | nil => rfl
  | cons c rest =>
    unfold special
    simp only []
    rw [afterSign_cons] at h
    by_cases hp : c = '+'
    · rw [if_pos hp]
      rw [if_pos (Or.inl hp)] at h
      exact hinf _ _ _ h
    rw [if_neg hp]
    by_cases hm : c = '-'
    · rw [if_pos hm]
      rw [if_pos (Or.inr hm)] at h
      exact hinf _ _ _ h
    rw [if_neg hm]
    rw [if_neg (by rintro (h1 | h1) <;> contradiction)] at h
    obtain ⟨h1, h2, h3, h4⟩ := h c rest rfl
    rw [if_neg (by rintro (h5 | h5) <;> contradiction),
      if_neg (by rintro (h5 | h5) <;> contradiction)]

theorem finish_ok (l rest : List Char) (us : Bool) (m : Nat) (e : Int) (n hx : Bool)
    (hok : underscoreOK l = true) (hrest : rest = []) :
    (if us = true ∧ ¬ underscoreOK (l.take (l.length - rest.length)) = true then none
      else some (Literal.mk m e n hx rest)) = some (Literal.mk m e n hx rest) := by
  subst hrest
  rw [if_neg]
  simp only [List.length_nil, Nat.sub_zero, List.take_length]
  exact fun h => h.2 hok

/-- An exponent of the grammar is read to the end by the exponent loop. -/
theorem exponent_accepts (marker : Char → Bool) (c : Char) (s4 : List Char)
    (h : isExponent marker (c :: s4) = true) :
    marker c = true ∧ ∃ d s5 f tail, s4 = d :: s5 ∧ afterSign (d :: s5) = f :: tail ∧
      isDigit f = true ∧ ∀ e us, (scanExponent (f :: tail) e us).2.2 = [] := by
  simp only [isExponent, Bool.and_eq_true] at h
  obtain ⟨hm, h⟩ := h
  refine ⟨hm, ?_⟩
  cases s4 with
  | nil => cases h
  | cons d s5 =>
    cases hs6 : afterSign (d :: s5) with
    | nil =>
      rw [hs6] at h
      cases h
    | cons f tail =>
      rw [hs6] at h
      simp only [Bool.and_eq_true, List.isEmpty_iff] at h
      refine ⟨d, s5, f, tail, rfl, hs6, h.1, fun e us => ?_⟩
      rw [(scanExponent_shape (f :: tail) e us).1]
      have hf : (decDigit f || f == '_') = true := by simp [h.1]
      simp only [afterDigits, List.dropWhile_cons, hf, if_true]
      exact h.2

theorem readFloat_accepts_decimal (l : List Char)
    (h1 : mantissaHasDigit decDigit (afterSign l) = true)
    (h2 : afterMantissa decDigit (afterSign l) = [] ∨
      isExponent (fun c => c == 'e' || c == 'E') (afterMantissa decDigit (afterSign l)) = true)
    (h3 : separated decDigit false (afterSign l) = true) :
    ∃ lit, readFloat l = some lit ∧ lit.rest = [] := by
  have hmark : ∀ b rest, afterSign l = '0' :: b :: rest →
      ¬ (lower b = 'b'.toNat ∨ lower b = 'o'.toNat ∨ lower b = 'x'.toNat) := by
    intro b rest hl hb
    rw [hl, afterMantissa_base_mark b rest hb] at h2
    rcases h2 with h2 | h2
    · cases h2
    · have hm := (exponent_accepts _ b rest h2).1
      have he : lower b = 'e'.toNat := (lower_eq_e b).2 (by simpa using hm)
      rw [he] at hb
      revert hb
      decide
  have hok : underscoreOK l = true := by
    rw [(underscoreOK_eq l).2 (fun ⟨b, rest, hl, hb⟩ => hmark b rest hl hb)]
    refine underscoreLoop_of_separated false _ '^' (fun h0 => absurd h0 (by decide)) ?_
    have hf : (fun c => isDigit c || (false && isHexLetter c)) = decDigit := by
      funext c
      simp [isDigit_eq]
    rw [hf]
    exact h3
  suffices hr : ∀ r, readFloat l = r → ∃ lit, r = some lit ∧ lit.rest = [] by
    obtain ⟨lit, h4, h5⟩ := hr _ rfl
    exact ⟨lit, h4, h5⟩
  intro r h
  cases l with
  | nil => exact absurd h1 (by decide)
  | cons c0 tl =>
    rw [afterSign_cons] at h1 h2 hmark
    unfold readFloat at h
    simp only [] at h
    generalize hs1 : (if c0 = '+' ∨ c0 = '-' then tl else c0 :: tl) = s1 at h h1 h2 hmark
    split at h
    · rename_i hhex
      exfalso
      split at hhex
      · rename_i z x head tail
        have := of_decide_eq_true hhex
        exact hmark x (head :: tail) (by rw [this.1]) (Or.inr (Or.inr this.2))
      · cases hhex
    · obtain ⟨hm1, hm2, _⟩ := scanMantissa_shape 10 s1 ⟨0, false, false, 0, 0, false⟩ rfl
      rw [loopDigit_ten] at hm1 hm2
      generalize scanMantissa 10 s1 ⟨0, false, false, 0, 0, false⟩ = q at h hm1 hm2
      obtain ⟨st, s3⟩ := q
      simp only [] at h hm1 hm2
      have hsd : st.sawdigits = true := by
        rw [hm2, h1]
        rfl
      rw [if_neg (by simpa using hsd)] at h
      rw [← hm1] at h2
      cases s3 with
      | nil =>
        simp only [] at h
        rw [finish_ok _ _ _ _ _ _ _ hok rfl] at h
        exact ⟨_, h.symm, rfl⟩
      | cons c s4 =>
        rcases h2 with h2 | h2
        · cases h2
        obtain ⟨hmk, d, s5, f, tail, rfl, hs6, hf, hend⟩ := exponent_accepts _ c s4 h2
        have hc : lower c = 'e'.toNat := (lower_eq_e c).2 (by simpa using hmk)
        simp only [] at h
        rw [afterSign_cons] at hs6
        rw [if_pos hc, hs6] at h
        simp only [] at h
        rw [if_neg (not_not.2 hf), finish_ok _ _ _ _ _ _ _ hok (hend _ _)] at h
        exact ⟨_, h.symm, hend _ _⟩

theorem readFloat_accepts_hex (l : List Char) (x : Char) (body : List Char)
    (hl : afterSign l = '0' :: x :: body) (hx : x = 'x' ∨ x = 'X')
    (h1 : mantissaHasDigit hexDigit body = true)
    (h2 : isExponent (fun c => c == 'p' || c == 'P') (afterMantissa hexDigit body) = true)
    (h3 : separated hexDigit true body = true) :
    ∃ lit, readFloat l = some lit ∧ lit.rest = [] := by
  have hlx : lower x = 'x'.toNat := (lower_eq_x x).2 hx
  have hok : underscoreOK l = true := by
    rw [(underscoreOK_eq l).1 x body hl (Or.inr (Or.inr hlx))]
    have hd : decide (lower x = 'x'.toNat) = true := by simpa using hlx
    rw [hd]
    refine underscoreLoop_of_separated true _ '0' (fun h0 => absurd h0 (by decide)) ?_
    have hf : (fun c => isDigit c || (true && isHexLetter c)) = hexDigit := by
      funext c
      rw [← hexClass_eq]
      simp
    rw [hf]
    exact h3
  suffices hr : ∀ r, readFloat l = r → ∃ lit, r = some lit ∧ lit.rest = [] by
    obtain ⟨lit, h4, h5⟩ := hr _ rfl
    exact ⟨lit, h4, h5⟩
  intro r h
  cases l with
  | nil => cases hl
  | cons c0 tl =>
    rw [afterSign_cons] at hl
    unfold readFloat at h
    simp only [] at h
    rw [hl] at h
    obtain ⟨a, body1, rfl, _⟩ := mantissa_head _ _ h1
    simp only [lower_eq_x, hx, and_self, decide_True, if_true, List.drop_succ_cons,
      List.drop_zero] at h
    obtain ⟨hm1, hm2, _⟩ := scanMantissa_shape 16 (a :: body1) ⟨0, false, false, 0, 0, false⟩ rfl
    rw [loopDigit_hex] at hm1 hm2
    generalize scanMantissa 16 (a :: body1) ⟨0, false, false, 0, 0, false⟩ = q at h hm1 hm2
    obtain ⟨st, s3⟩ := q
    simp only [] at h hm1 hm2
    have hsd : st.sawdigits = true := by
      rw [hm2, h1]
      rfl
    rw [← hm1] at h2
    cases s3 with
    | nil => cases h2
    | cons c s4 =>
      obtain ⟨hmk, d, s5, f, tail, rfl, hs6, hf, hend⟩ := exponent_accepts _ c s4 h2
      have hc : lower c = 'p'.toNat := (lower_eq_p c).2 (by simpa using hmk)
      rw [afterSign_cons] at hs6
      simp only [] at h
      rw [if_neg (by simpa using hsd), if_pos hc, hs6] at h
      simp only [] at h
      rw [if_neg (not_not.2 hf), finish_ok _ _ _ _ _ _ _ hok (hend _ _)] at h
      exact ⟨_, h.symm, hend _ _⟩

/-- Every numeric literal of the grammar is read by `strconv.ParseFloat` without a syntax
error. -/
theorem ParseFloat_literal (s : String)
    (h : isDecimalNumber s = true ∨ isHexLiteral s = true) :
    (ParseFloat s).2 ≠ some .ErrSyntax := by
  have hrf : (∃ lit, readFloat s.toList = some lit ∧ lit.rest = []) ∧
      special s.toList = none := by
    rcases h with h | h
    · simp only [isDecimalNumber, Bool.and_eq_true, Bool.or_eq_true, List.isEmpty_iff] at h
      obtain ⟨⟨h1, h2⟩, h3⟩ := h
      refine ⟨readFloat_accepts_decimal _ h1 h2 h3, special_none _ ?_⟩
      intro a r ha
      obtain ⟨a1, r1, hs, hd⟩ := mantissa_head _ _ h1
      rw [ha] at hs
      cases hs
      refine ⟨?_, ?_, ?_, ?_⟩ <;>
        (rintro rfl
         revert hd
         decide)
    · unfold isHexLiteral at h
      split at h
      · rename_i z x body hl
        simp only [Bool.and_eq_true, Bool.or_eq_true, beq_iff_eq] at h
        obtain ⟨⟨⟨⟨rfl, hx⟩, h1⟩, h2⟩, h3⟩ := h
        refine ⟨readFloat_accepts_hex _ x body hl hx h1 h2 h3, special_none _ ?_⟩
        intro a r ha
        rw [hl] at ha
        cases ha
        decide
      · cases h
  obtain ⟨⟨lit, hlit, hrest⟩, hsp⟩ := hrf
  unfold ParseFloat
  rw [hsp]
  simp only [hlit, hrest, ne_eq, not_true_eq_false, if_false]
  split_ifs <;> simp

end strconv

/-- The coercion is not finite exactly when the input spells a special literal. -/
theorem parseOrZero_not_finite (s : String) :
    (parseOrZero s).isFinite = false ↔ spelling s ∈ specialSpellings := by
  rw [spelling, ← strconv.special_full]
  unfold parseOrZero strconv.ParseFloat
  cases hsp : strconv.special s.toList with
  | some p =>
    obtain ⟨v, n⟩ := p
    have hv := strconv.special_isFinite hsp
    by_cases hn : n = s.length
    · simp only [hn, ne_eq, not_true_eq_false, if_false, hv, true_iff]
      exact ⟨v, s.length, rfl, rfl⟩
    · simp only [ne_eq, hn, not_false_eq_true, if_true, F64.zero, F64.isFinite]
      constructor
      · intro h
        cases h
      · rintro ⟨v1, n1, h1, h2⟩
        simp only [Option.some.injEq, Prod.mk.injEq] at h1
        exact absurd (h1.2.trans h2) hn
  | none =>
    have hfin : (match (match strconv.readFloat s.toList with
        | none => (F64.zero, some strconv.NumError.ErrSyntax)
        | some lit =>
          if lit.rest ≠ [] then (F64.zero, some strconv.NumError.ErrSyntax)
          else
            let p := strconv.powFrac (if lit.hex then 2 else 10) lit.exp
            let r := roundF64 lit.neg (lit.mantissa * p.1) p.2
            (r.1, if r.2 then some strconv.NumError.ErrRange else none)) with
        | (f, none) => f
        | (_, some _) => F64.zero).isFinite = true := by
      cases strconv.readFloat s.toList with
      | none => rfl
      | some lit =>
        simp only []
        generalize (if lit.hex = true then 2 else 10) = b
        split_ifs with h1 h2
        · rfl
        · rfl
        · exact strconv.roundF64_isFinite _ _ _ (by simpa using h2)
    simp only [hfin]
    constructor
    · intro h
      cases h
    · rintro ⟨v1, n1, h1, _⟩
      cases h1

/-- Outside the numeric and the special literals `strconv.ParseFloat` reports a syntax
error, with the value 0. -/
theorem ParseFloat_not_literal (s : String) (hd : isDecimalNumber s = false)
    (hh : isHexLiteral s = false) (hs : spelling s ∉ specialSpellings) :
    strconv.ParseFloat s = (F64.zero, some .ErrSyntax) := by
  rw [spelling, ← strconv.special_full] at hs
  unfold strconv.ParseFloat
  cases hsp : strconv.special s.toList with
  | some p =>
    obtain ⟨v, n⟩ := p
    by_cases hn : n = s.length
    · exact absurd ⟨v, n, hsp, hn⟩ hs
    · simp only [ne_eq, hn, not_false_eq_true, if_true]
  | none =>
    cases hrf : strconv.readFloat s.toList with
    | none => rfl
    | some lit =>
      by_cases hrest : lit.rest = []
      · exfalso
        rcases strconv.readFloat_literal s.toList lit hrf hrest with
          ⟨h1, h2, h3⟩ | ⟨x, body, hl, hx, h1, h2, h3⟩
        · have : isDecimalNumber s = true := by
            unfold isDecimalNumber
            rw [h1, h3]
            rcases h2 with h2 | h2
            · rw [h2]
              rfl
            · rw [h2]
              simp
          rw [this] at hd
          cases hd
        · have : isHexLiteral s = true := by
            unfold isHexLiteral
            rw [hl]
            simp only [h1, h2, h3, Bool.and_true, beq_self_eq_true, Bool.true_and]
            simpa using hx
          rw [this] at hh
          cases hh
      · simp only [ne_eq, hrest, not_false_eq_true, if_true]

/-- A special literal is read without error. -/
theorem ParseFloat_special (s : String) (hs : spelling s ∈ specialSpellings) :
    (strconv.ParseFloat s).2 = none := by
  rw [spelling, ← strconv.special_full] at hs
  obtain ⟨v, n, hsp, hn⟩ := hs
  unfold strconv.ParseFloat
  have hn2 : n = s.length := hn
  simp only [hsp, hn2, ne_eq, not_true_eq_false, if_false]

/-- The inputs on which `strconv.ParseFloat` reports a syntax error are those outside the
numeric and the special literals. -/
theorem ParseFloat_syntax_iff (s : String) :
    (strconv.ParseFloat s).2 = some .ErrSyntax ↔
      isDecimalNumber s = false ∧ isHexLiteral s = false ∧ spelling s ∉ specialSpellings := by
  constructor
  · intro h
    refine ⟨?_, ?_, ?_⟩
    · cases hd : isDecimalNumber s with
      | false => rfl
      | true => exact absurd h (strconv.ParseFloat_literal s (Or.inl hd))
    · cases hd : isHexLiteral s with
      | false => rfl
      | true => exact absurd h (strconv.ParseFloat_literal s (Or.inr hd))
    · intro hs
      rw [ParseFloat_special s hs] at h
      cases h
  · rintro ⟨hd, hh, hs⟩
    rw [ParseFloat_not_literal s hd hh hs]

/-- C4, as stated, fails: `strconv.ParseFloat` accepts `Inf` and `NaN` without error, so
the coercion of `Inf`, which is not a decimal number, is positive infinity: it is not
finite and it is not 0.  The hexadecimal literal `0x1p4` is coerced to 16, and `1_000`,
with an underscore between its digits, to 1000. -/
theorem C4_coercion_not_always_finite :
    strconv.ParseFloat "Inf" = (.inf false, none) ∧
    parseOrZero "Inf" = .inf false ∧
    (parseOrZero "Inf").isFinite = false ∧
    parseOrZero "Inf" ≠ F64.zero ∧
    parseOrZero "NaN" = .nan ∧
    parseOrZero "-infinity" = .inf true ∧
    parseOrZero "0x1p4" = F64.ofInt 16 ∧
    parseOrZero "1_000" = F64.ofInt 1000 := by
  decide

/-- C4, amended: for any string the coercion is a finite double unless the input, its
ASCII letters in lower case, is one of `inf`, `+inf`, `-inf`, `infinity`, `+infinity`,
`-infinity`, `nan`, and then it is not finite; it is exactly 0 for every input that is
neither a decimal or scientific-notation number, nor a hexadecimal floating-point literal
(in both, single underscores may separate digits), nor one of the seven special literals,
and so for the empty string; these inputs are exactly the ones on which
`strconv.ParseFloat` reports a syntax error; and the coercion is the value of
`strconv.ParseFloat` when that reports no error and 0 when it reports one. -/
theorem C4_coercion (s : String) :
    (spelling s ∉ specialSpellings → (parseOrZero s).isFinite = true) ∧
    (spelling s ∈ specialSpellings → (parseOrZero s).isFinite = false) ∧
    (isDecimalNumber s = false → isHexLiteral s = false → spelling s ∉ specialSpellings →
      parseOrZero s = F64.zero) ∧
    (s = "" → parseOrZero s = F64.zero) ∧
    ((strconv.ParseFloat s).2 = some .ErrSyntax ↔
      isDecimalNumber s = false ∧ isHexLiteral s = false ∧ spelling s ∉ specialSpellings) ∧
    ((strconv.ParseFloat s).2 = none → parseOrZero s = (strconv.ParseFloat s).1) ∧
    ((strconv.ParseFloat s).2 ≠ none → parseOrZero s = F64.zero) := by
  refine ⟨?_, (parseOrZero_not_finite s).mpr, ?_, ?_, ParseFloat_syntax_iff s, ?_, ?_⟩
  · intro h
    cases hf : (parseOrZero s).isFinite with
    | true => rfl
    | false => exact absurd ((parseOrZero_not_finite s).mp hf) h
  · intro hd hh hs
    unfold parseOrZero
    rw [ParseFloat_not_literal s hd hh hs]
  · rintro rfl
    decide
  · intro h
    unfold parseOrZero
    cases hp : strconv.ParseFloat s with
    | mk f e =>
      rw [hp] at h
      cases e with
      | none => rfl
      | some e1 => cases h
  · intro h
    unfold parseOrZero
    cases hp : strconv.ParseFloat s with
    | mk f e =>
      rw [hp] at h
      cases e with
      | none => exact absurd rfl h
      | some e1 => rfl

/-- C4, amended, at concrete inputs: a number is finite and keeps the value of
`strconv.ParseFloat`; a special literal in mixed case is not finite; a text that is no
number, a number followed by text, a number after a blank, a hexadecimal integer without
exponent and a number with a doubled underscore are none of the literals and give 0, as
does the empty string; a number in scientific form is read without a syntax error. -/
theorem C4_coercion_witness :
    (parseOrZero "12.5").isFinite = true ∧
    (parseOrZero "+iNf").isFinite = false ∧
    parseOrZero "not-a-number" = F64.zero ∧
    parseOrZero "12abc" = F64.zero ∧
    parseOrZero " 12" = F64.zero ∧
    parseOrZero "0x10" = F64.zero ∧
    parseOrZero "1__0" = F64.zero ∧
    parseOrZero "" = F64.zero ∧
    parseOrZero "12.5" = (strconv.ParseFloat "12.5").1 ∧
    parseOrZero "1e" = F64.zero ∧
    (strconv.ParseFloat "1e").2 = some .ErrSyntax ∧
    (isDecimalNumber "-1.5e+3" = true ∧ (strconv.ParseFloat "-1.5e+3").2 ≠ some .ErrSyntax) :=
  ⟨(C4_coercion "12.5").1 (by decide), (C4_coercion "+iNf").2.1 (by decide),
    (C4_coercion "not-a-number").2.2.1 (by decide) (by decide) (by decide),
    (C4_coercion "12abc").2.2.1 (by decide) (by decide) (by decide),
    (C4_coercion " 12").2.2.1 (by decide) (by decide) (by decide),
    (C4_coercion "0x10").2.2.1 (by decide) (by decide) (by decide),
    (C4_coercion "1__0").2.2.1 (by decide) (by decide) (by decide),
    (C4_coercion "").2.2.2.1 rfl,
    (C4_coercion "12.5").2.2.2.2.2.1 (by decide),
    (C4_coercion "1e").2.2.2.2.2.2 (by decide),
    (C4_coercion "1e").2.2.2.2.1.2 ⟨by decide, by decide, by decide⟩,
    ⟨by decide, fun h => absurd ((C4_coercion "-1.5e+3").2.2.2.2.1.1 h).1 (by decide)⟩⟩

/-! ## C5 - C8: the extraction -/

theorem extract_eq_some {attrs : List EntryAttribute} {d : DSData} (h : extract attrs = some d) :
    ∃ v, scanAttributes Locals.init attrs = some v ∧ d = toDSData v := by
  unfold extract at h
  cases hv : scanAttributes Locals.init attrs with
  | none => rw [hv] at h; cases h
  | some v => rw [hv] at h; cases h; exact ⟨v, rfl, rfl⟩

theorem scanAttributes_values_irrelevant (v : Locals) (pre post : List EntryAttribute)
    (name v0 : String) (more : List String) :
    scanAttributes v (pre ++ ⟨name, v0 :: more⟩ :: post)
      = scanAttributes v (pre ++ ⟨name, [v0]⟩ :: post) := by
  rw [scanAttributes_append, scanAttributes_append]
  congr 1
  funext v1
  simp only [scanAttributes, assign_eq]
  cases Field.ofName? name <;> simp [assignAt]

/-- C5: when an attribute carries the name of a tracked field and the values `v0`
followed by any further values, and no later attribute carries that name, the extracted
field is the coercion of `v0`; dropping the further values leaves the whole snapshot
unchanged.  The other attributes with tracked names are assumed to carry a value, so
that the extraction returns. -/
theorem C5_first_value (f : Field) (pre post : List EntryAttribute) (v0 : String)
    (more : List String)
    (hlast : ∀ a ∈ post, a.Name ≠ f.name)
    (hvals : ∀ a ∈ pre ++ post, a.Name ∈ trackedNames → a.Values ≠ []) :
    ∃ d, extract (pre ++ ⟨f.name, v0 :: more⟩ :: post) = some d ∧
      d.get f = parseOrZero v0 ∧
      extract (pre ++ ⟨f.name, [v0]⟩ :: post) = some d := by
  have hall : ∀ a ∈ pre ++ ⟨f.name, v0 :: more⟩ :: post,
      a.Name ∈ trackedNames → a.Values ≠ [] := by
    intro a ha
    rcases List.mem_append.mp ha with h1 | h1
    · exact hvals a (List.mem_append_left _ h1)
    · rcases List.mem_cons.mp h1 with h2 | h2
      · subst h2
        intro _
        exact List.cons_ne_nil _ _
      · exact hvals a (List.mem_append_right _ h2)
  obtain ⟨v, hv⟩ := scanAttributes_isSome _ Locals.init hall
  have hsplit := hv
  rw [scanAttributes_append] at hsplit
  cases hpre : scanAttributes Locals.init pre with
  | none => rw [hpre] at hsplit; cases hsplit
  | some v1 =>
    rw [hpre] at hsplit
    simp only [Option.some_bind, scanAttributes] at hsplit
    cases hmid : assign v1 ⟨f.name, v0 :: more⟩ with
    | none => rw [hmid] at hsplit; cases hsplit
    | some v2 =>
      rw [hmid] at hsplit
      have h2 : v2.get f = v0 := by
        have := assign_get_same hmid f rfl
        simpa using this.symm
      have h3 : v.get f = v2.get f := scanAttributes_get_absent hsplit f hlast
      refine ⟨toDSData v, by simp only [extract, hv, Option.map_some'], ?_, ?_⟩
      · rw [toDSData_get, h3, h2]
      · unfold extract
        rw [← scanAttributes_values_irrelevant Locals.init pre post f.name v0 more, hv]
        rfl

/-- C5 at the specification's example: the values `10`, `20` give the field 10, which is
neither 20 nor 30. -/
theorem C5_first_value_witness :
    ∃ d, extract [⟨"cn", ["snmp"]⟩, ⟨"inops", ["10", "20"]⟩, ⟨"readops", ["7"]⟩] = some d ∧
      d.inops = parseOrZero "10" ∧ d.inops = F64.ofInt 10 ∧
      d.inops ≠ F64.ofInt 20 ∧ d.inops ≠ F64.ofInt 30 := by
  obtain ⟨d, hd, hf, _⟩ := C5_first_value .inops [⟨"cn", ["snmp"]⟩] [⟨"readops", ["7"]⟩]
    "10" ["20"] (by decide) (by decide)
  have hv : d.inops = parseOrZero "10" := hf
  refine ⟨d, hd, hv, ?_, ?_, ?_⟩ <;> rw [hv] <;> decide

/-- C6: attributes whose name is not one of the 28 tracked names do not change the
extracted snapshot: the extraction sees only the attributes with tracked names, an
unrecognised attribute may be inserted anywhere, and a set of unrecognised attributes
alone gives the snapshot of the empty set. -/
theorem C6_unknown_ignored (attrs : List EntryAttribute) :
    extract attrs = extract (attrs.filter fun a => a.Name ∈ trackedNames) ∧
    ((∀ a ∈ attrs, a.Name ∉ trackedNames) → extract attrs = extract []) ∧
    (∀ (u : EntryAttribute) (post : List EntryAttribute), u.Name ∉ trackedNames →
      extract (attrs ++ u :: post) = extract (attrs ++ post)) ∧
    extract [] = some (toDSData Locals.init) := by
  refine ⟨?_, ?_, ?_, rfl⟩
  · unfold extract
    congr 1
    generalize Locals.init = v
    induction attrs generalizing v with
    | nil => rfl
    | cons a rest ih =>
      by_cases ha : a.Name ∈ trackedNames
      · rw [List.filter_cons_of_pos (by simpa using ha)]
        simp only [scanAttributes]
        cases assign v a with
        | none => rfl
        | some v1 => exact ih v1
      · rw [List.filter_cons_of_neg (by simpa using ha)]
        simp only [scanAttributes, assign_untracked v a ha]
        exact ih v
  · intro h
    unfold extract
    rw [scanAttributes_untracked _ _ h]
    rfl
  · intro u post hu
    unfold extract
    rw [scanAttributes_skip _ _ _ _ hu]

/-- C6 at a concrete input: two unrecognised attributes, one of them without a value
and one whose name differs from a tracked name only in case. -/
theorem C6_unknown_ignored_witness :
    extract [⟨"objectClass", []⟩, ⟨"ReadOps", ["5"]⟩] = extract [] ∧
    extract ([⟨"readops", ["5"]⟩] ++ ⟨"nsslapd-extra", ["9"]⟩ :: [⟨"inops", ["1"]⟩])
      = extract ([⟨"readops", ["5"]⟩] ++ [⟨"inops", ["1"]⟩]) :=
  ⟨(C6_unknown_ignored [⟨"objectClass", []⟩, ⟨"ReadOps", ["5"]⟩]).2.1 (by decide),
    (C6_unknown_ignored [⟨"readops", ["5"]⟩]).2.2.1 ⟨"nsslapd-extra", ["9"]⟩
      [⟨"inops", ["1"]⟩] (by decide)⟩

/-- C7: when every attribute of the first entry carries at least one value, the
extraction returns a snapshot, with `up = 1` and every one of the 28 fields either 0 or
the coercion of the first value of an attribute of its name; no `value[0]` is out of
range, and the search stage of `getStats` returns that snapshot with a nil error. -/
theorem C7_extraction_total (attrs : List EntryAttribute)
    (h : ∀ a ∈ attrs, a.Values ≠ []) :
    ∃ d, extract attrs = some d ∧ d.up = 1 ∧
      (∀ f : Field, d.get f = F64.zero ∨
        ∃ a ∈ attrs, a.Name = f.name ∧ ∃ x more, a.Values = x :: more ∧
          d.get f = parseOrZero x) ∧
      (∀ (env : Env) (dn : String) (others : List Entry),
        env.Search searchRequest = .ok ⟨⟨dn, attrs⟩ :: others⟩ →
          (searchStage env).outcome = .returned d none) := by
  obtain ⟨v, hv⟩ := scanAttributes_isSome attrs Locals.init fun a ha _ => h a ha
  refine ⟨toDSData v, by simp only [extract, hv, Option.map_some'], rfl, ?_, ?_⟩
  · intro f
    rw [toDSData_get]
    rcases scanAttributes_get_cases hv f with h0 | ⟨a, ha, hn, hx⟩
    · left
      rw [h0, Locals.get_init, parseOrZero_empty]
    · right
      refine ⟨a, ha, hn, ?_⟩
      cases hvals : a.Values with
      | nil => exact absurd hvals (h a ha)
      | cons x more =>
        rw [hvals] at hx
        simp only [List.getElem?_cons_zero, Option.some.injEq] at hx
        exact ⟨x, more, rfl, by rw [hx]⟩
  · intro env dn others hq
    unfold searchStage
    simp only [hq, hv]

/-- C7 at concrete inputs: the empty attribute set, and the sample entry. -/
theorem C7_extraction_total_witness :
    (∃ d, extract [] = some d ∧ d.up = 1) ∧
    (∃ d, extract sampleAttributes = some d ∧ d.up = 1) := by
  obtain ⟨d0, h0, hu0, _⟩ := C7_extraction_total [] (by decide)
  obtain ⟨d1, h1, hu1, _⟩ := C7_extraction_total sampleAttributes (by decide)
  exact ⟨⟨d0, h0, hu0⟩, ⟨d1, h1, hu1⟩⟩

/-- C8: when no attribute carries the name of a tracked field, the local of that field
is still the empty string after the loop and the extracted field is exactly 0, the
coercion of the empty string; and the extraction does return when every attribute with a
tracked name carries a value. -/
theorem C8_absent_is_zero (attrs : List EntryAttribute) (f : Field)
    (habs : f.name ∉ attrs.map EntryAttribute.Name) :
    (∀ v, scanAttributes Locals.init attrs = some v → v.get f = "") ∧
    (∀ d, extract attrs = some d → d.get f = F64.zero) ∧
    parseOrZero "" = F64.zero ∧
    ((∀ a ∈ attrs, a.Name ∈ trackedNames → a.Values ≠ []) →
      ∃ d, extract attrs = some d ∧ d.get f = F64.zero) := by
  have hne : ∀ a ∈ attrs, a.Name ≠ f.name := by
    intro a ha hn
    exact habs (List.mem_map.mpr ⟨a, ha, hn⟩)
  have hloc : ∀ v, scanAttributes Locals.init attrs = some v → v.get f = "" := by
    intro v hv
    rw [scanAttributes_get_absent hv f hne, Locals.get_init]
  have hfield : ∀ d, extract attrs = some d → d.get f = F64.zero := by
    intro d hd
    obtain ⟨v, hv, rfl⟩ := extract_eq_some hd
    rw [toDSData_get, hloc v hv, parseOrZero_empty]
  refine ⟨hloc, hfield, parseOrZero_empty, ?_⟩
  intro hvals
  obtain ⟨v, hv⟩ := scanAttributes_isSome attrs Locals.init hvals
  have hd : extract attrs = some (toDSData v) := by simp only [extract, hv, Option.map_some']
  exact ⟨toDSData v, hd, hfield _ hd⟩

/-- C8 at a concrete input: `cachehits` does not occur among the attributes. -/
theorem C8_absent_is_zero_witness :
    ∃ d, extract [⟨"cn", ["snmp"]⟩, ⟨"readops", ["5"]⟩] = some d ∧ d.cachehits = F64.zero :=
  (C8_absent_is_zero [⟨"cn", ["snmp"]⟩, ⟨"readops", ["5"]⟩] .cachehits (by decide)).2.2.2
    (by decide)

/-! ## C9, C10: the directory session -/

theorem SessionRefines.fail {failure : Step → Option Err} {s : Step} {err : Err}
    (steps : List Step) (c : Call) (hc : c.step = some s) (hf : failure s = some err) :
    SessionRefines failure (s :: steps)
      ⟨[c], [], .returned DSData.empty (some ⟨s.what, err⟩)⟩ := by
  refine ⟨by simp [runSteps, hf, hc], ?_, ?_⟩
  · intro t e ht
    simp only [runSteps, hf, Option.some.injEq, Prod.mk.injEq] at ht
    obtain ⟨rfl, rfl⟩ := ht
    rfl
  · intro hn
    simp [runSteps, hf] at hn

theorem SessionRefines.pass {failure : Step → Option Err} {s : Step} {steps : List Step}
    {r : Run} (c : Call) (hc : c.step = some s) (hf : failure s = none)
    (h : SessionRefines failure steps r) :
    SessionRefines failure (s :: steps) ⟨c :: r.calls, r.logs, r.outcome⟩ := by
  obtain ⟨h1, h2, h3⟩ := h
  refine ⟨by simp [runSteps, hf, hc, h1], ?_, ?_⟩
  · intro t e ht
    simp only [runSteps, hf] at ht
    exact h2 t e ht
  · intro hn
    simp only [runSteps, hf] at hn
    exact h3 hn

theorem searchStage_refines (env : Env) (server host binddn password : String) :
    SessionRefines (Step.failure env server host binddn password) [.search]
      (searchStage env) := by
  rcases searchStage_cases env with ⟨err, hq, hr⟩ | ⟨sr, hq, _, hr⟩ |
    ⟨sr, _, _, hq, _, _, hr⟩ | ⟨sr, _, _, v, hq, _, _, hr⟩ <;> rw [hr]
  · exact SessionRefines.fail [] _ rfl (by simp only [Step.failure, hq])
  · exact ⟨by simp [runSteps, Step.failure, hq, Call.step],
      by simp [runSteps, Step.failure, hq], fun _ => Or.inl rfl⟩
  · exact ⟨by simp [runSteps, Step.failure, hq, Call.step],
      by simp [runSteps, Step.failure, hq], fun _ => Or.inl rfl⟩
  · exact ⟨by simp [runSteps, Step.failure, hq, Call.step],
      by simp [runSteps, Step.failure, hq], fun _ => Or.inr ⟨_, rfl⟩⟩

theorem bindStage_refines (env : Env) (server host binddn password : String) :
    SessionRefines (Step.failure env server host binddn password)
      ((if binddn ≠ "" then [.bind] else []) ++ [.search])
      (bindStage env binddn password) := by
  rcases bindStage_cases env binddn password with ⟨hb, hr⟩ | ⟨hb, err, hq, hr⟩ | ⟨hb, hq, hr⟩ <;>
    rw [hr]
  · simp only [hb, ne_eq, not_true_eq_false, if_false, List.nil_append]
    have := searchStage_refines env server host "" password
    simpa only [hb] using searchStage_refines env server host binddn password
  · rw [if_pos hb]
    exact SessionRefines.fail _ _ rfl hq
  · rw [if_pos hb]
    exact SessionRefines.pass _ rfl hq (searchStage_refines env server host binddn password)

theorem tlsStage_refines (env : Env) (server host : String) (startTLS : Bool)
    (binddn password : String) :
    SessionRefines (Step.failure env server host binddn password)
      ((if startTLS then [.startTLS] else []) ++
        ((if binddn ≠ "" then [.bind] else []) ++ [.search]))
      (tlsStage env host startTLS binddn password) := by
  rcases tlsStage_cases env host startTLS binddn password with
    ⟨ht, hr⟩ | ⟨ht, err, hq, hr⟩ | ⟨ht, hq, hr⟩ <;> rw [hr] <;> subst ht
  · exact bindStage_refines env server host binddn password
  · exact SessionRefines.fail _ _ rfl hq
  · exact SessionRefines.pass _ rfl hq (bindStage_refines env server host binddn password)

theorem getStats_refines (env : Env) (server : String) (startTLS : Bool)
    (binddn password host : String) (hurl : env.ParseRequestURI server = .ok host) :
    SessionRefines (Step.failure env server host binddn password)
      (plannedSteps startTLS binddn) (getStats env server startTLS binddn password) := by
  have hplan : plannedSteps startTLS binddn = .connect ::
      ((if startTLS then [.startTLS] else []) ++
        ((if binddn ≠ "" then [.bind] else []) ++ [.search])) := by
    simp [plannedSteps]
  rw [hplan]
  rcases getStats_cases env server startTLS binddn password with
    ⟨err, hu, _⟩ | ⟨host1, err, hu, hq, hr⟩ | ⟨host1, hu, hq, hr⟩
  · rw [hurl] at hu
    cases hu
  · rw [hr]
    exact SessionRefines.fail _ _ rfl hq
  · rw [hurl] at hu
    cases hu
    rw [hr]
    obtain ⟨h1, h2, h3⟩ := SessionRefines.pass (.DialURL server) rfl hq
      (tlsStage_refines env server host startTLS binddn password)
    refine ⟨?_, h2, h3⟩
    rw [← h1]
    simp [List.filterMap_append, Call.step]

theorem searchStage_calls (env : Env) : (searchStage env).calls = [.Search searchRequest] := by
  rcases searchStage_cases env with ⟨_, _, hr⟩ | ⟨_, _, _, hr⟩ | ⟨_, _, _, _, _, _, hr⟩ |
    ⟨_, _, _, _, _, _, _, hr⟩ <;> rw [hr]

theorem bindStage_calls_noClose (env : Env) (binddn password : String) :
    Call.Close ∉ (bindStage env binddn password).calls := by
  rcases bindStage_cases env binddn password with ⟨_, hr⟩ | ⟨_, _, _, hr⟩ | ⟨_, _, hr⟩ <;>
    rw [hr] <;> simp [searchStage_calls]

theorem tlsStage_calls_noClose (env : Env) (host : String) (startTLS : Bool)
    (binddn password : String) :
    Call.Close ∉ (tlsStage env host startTLS binddn password).calls := by
  have hb := bindStage_calls_noClose env binddn password
  rcases tlsStage_cases env host startTLS binddn password with
    ⟨_, hr⟩ | ⟨_, _, _, hr⟩ | ⟨_, _, hr⟩ <;> rw [hr] <;> simp [hb]

theorem bindStage_calls_mem (env : Env) (binddn password : String) :
    ∀ c ∈ (bindStage env binddn password).calls,
      c = .Bind binddn password ∨ c = .Search searchRequest := by
  rcases bindStage_cases env binddn password with ⟨_, hr⟩ | ⟨_, _, _, hr⟩ | ⟨_, _, hr⟩ <;>
    rw [hr] <;> simp [searchStage_calls]

theorem tlsStage_calls_mem (env : Env) (host : String) (startTLS : Bool)
    (binddn password : String) :
    ∀ c ∈ (tlsStage env host startTLS binddn password).calls,
      c = .StartTLS host ∨ c = .Bind binddn password ∨ c = .Search searchRequest := by
  have hb := bindStage_calls_mem env binddn password
  rcases tlsStage_cases env host startTLS binddn password with
    ⟨_, hr⟩ | ⟨_, _, _, hr⟩ | ⟨_, _, hr⟩ <;> rw [hr]
  · intro c hc
    exact Or.inr (hb c hc)
  · simp
  · intro c hc
    rcases List.mem_cons.mp hc with h1 | h1
    · exact Or.inl h1
    · exact Or.inr (hb c h1)

theorem String_take_append (a b : String) (n : Nat) (h : n ≤ a.length) :
    (a ++ b).data.take n = a.data.take n := by
  rw [String.data_append]
  exact List.take_append_of_le_length h

/-- The messages of errors named after different steps differ, whatever they wrap. -/
theorem Step.error_text_injective {s t : Step} {e1 e2 : Err}
    (h : (WrapError.mk s.what e1).Error = (WrapError.mk t.what e2).Error) : s = t := by
  have h12 : s.what.data.take 12 = t.what.data.take 12 := by
    have hs : 12 ≤ s.what.length := by cases s <;> decide
    have ht : 12 ≤ t.what.length := by cases t <;> decide
    have := congrArg (fun x : String => x.data.take 12) h
    simp only [WrapError.Error, String.append_assoc] at this
    rwa [String_take_append _ _ _ hs, String_take_append _ _ _ ht] at this
  cases s <;> cases t <;> first | rfl | exact absurd h12 (by decide)

theorem Step.what_injective {s t : Step} (h : s.what = t.what) : s = t := by
  cases s <;> cases t <;> first | rfl | exact absurd h (by decide)

/-- C9, as stated, fails in its last clause.  When the configured server URL does not
parse, `getStats` ends the process in `log.Fatal`: no step is attempted and nothing is
returned.  When every attempted step succeeds and the search returns no entry, `getStats`
panics instead of returning no error. -/
theorem C9_no_failure_without_return :
    (getStats envBadURL "localhost" true "" "").calls = [] ∧
    (getStats envBadURL "localhost" true "" "").outcome = .exited ∧
    (getStats envNoEntry "ldap://localhost" true "" "").calls.filterMap Call.step
      = [.connect, .startTLS, .search] ∧
    (runSteps (Step.failure envNoEntry "ldap://localhost" "localhost" "" "")
      (plannedSteps true "")).2 = none ∧
    (getStats envNoEntry "ldap://localhost" true "" "").outcome = .panicked ∧
    (∀ d, (getStats envNoEntry "ldap://localhost" true "" "").outcome ≠ .returned d none) := by
  refine ⟨by decide, by decide, by decide, by decide, by decide, ?_⟩
  intro d h
  have hp : (getStats envNoEntry "ldap://localhost" true "" "").outcome = .panicked := by
    decide
  rw [hp] at h
  cases h

/-- C9, amended: once the server URL has parsed, the calls of `getStats` that carry out a
session step are the steps connect, StartTLS (planned exactly when the flag is set), bind
(planned exactly when the bind DN is not empty, whatever the password), search, run in
this order up to and including the first one that fails; a failing step makes `getStats`
return the zero `DSData` with the error named after that step, and the four names differ;
whenever `getStats` returns, the error is nil exactly when no attempted step failed; and
it does return whenever a successful search has a first entry whose attributes of tracked
names carry a value.  When the server URL does not parse, `getStats` ends the process in
`log.Fatal` without attempting a step. -/
theorem C9_session_steps (env : Env) (server : String) (startTLS : Bool)
    (binddn password : String) :
    (∀ host, env.ParseRequestURI server = .ok host →
      (getStats env server startTLS binddn password).calls.filterMap Call.step
        = (runSteps (Step.failure env server host binddn password)
            (plannedSteps startTLS binddn)).1 ∧
      (∀ s err, (runSteps (Step.failure env server host binddn password)
          (plannedSteps startTLS binddn)).2 = some (s, err) →
        (getStats env server startTLS binddn password).outcome
          = .returned DSData.empty (some ⟨s.what, err⟩)) ∧
      (∀ d e, (getStats env server startTLS binddn password).outcome = .returned d e →
        (e = none ↔ (runSteps (Step.failure env server host binddn password)
          (plannedSteps startTLS binddn)).2 = none)) ∧
      ((runSteps (Step.failure env server host binddn password)
          (plannedSteps startTLS binddn)).2 = none →
        (getStats env server startTLS binddn password).outcome = .panicked ∨
        ∃ d, (getStats env server startTLS binddn password).outcome = .returned d none) ∧
      ((∀ sr, env.Search searchRequest = .ok sr → ∃ entry rest, sr.Entries = entry :: rest ∧
          ∀ a ∈ entry.Attributes, a.Name ∈ trackedNames → a.Values ≠ []) →
        ∃ d e, (getStats env server startTLS binddn password).outcome = .returned d e) ∧
      (∀ s t : Step, s.what = t.what → s = t) ∧
      (∀ (s t : Step) (e1 e2 : Err),
        (WrapError.mk s.what e1).Error = (WrapError.mk t.what e2).Error → s = t) ∧
      (Step.connect.what = "failed to connect" ∧ Step.startTLS.what = "failed to start TLS" ∧
        Step.bind.what = "failed to bind" ∧ Step.search.what = "failed to search") ∧
      (∀ c ∈ (getStats env server startTLS binddn password).calls,
        c = .DialURL server ∨ c = .StartTLS host ∨ c = .Bind binddn password ∨
          c = .Search searchRequest ∨ c = .Close)) ∧
    (∀ perr, env.ParseRequestURI server = .error perr →
      (getStats env server startTLS binddn password).calls = [] ∧
      (getStats env server startTLS binddn password).outcome = .exited) := by
  refine ⟨fun host hurl => ?_, fun perr hurl => ?_⟩
  · obtain ⟨h1, h2, h3⟩ := getStats_refines env server startTLS binddn password host hurl
    refine ⟨h1, h2, ?_, h3, getStats_returns env _ _ _ _ host hurl, fun s t => Step.what_injective,
      fun s t e1 e2 => Step.error_text_injective, ⟨rfl, rfl, rfl, rfl⟩, ?_⟩
    · intro d e hd
      cases hp : (runSteps (Step.failure env server host binddn password)
          (plannedSteps startTLS binddn)).2 with
      | none =>
        rcases h3 hp with hx | ⟨d1, hx⟩
        · rw [hx] at hd
          cases hd
        · rw [hx] at hd
          cases hd
          simp
      | some p =>
        obtain ⟨s, err⟩ := p
        rw [h2 s err hp] at hd
        cases hd
        simp
    · intro c hc
      rcases getStats_cases env server startTLS binddn password with
        ⟨err, hu, _⟩ | ⟨host1, err, hu, hq, hr⟩ | ⟨host1, hu, hq, hr⟩
      · rw [hurl] at hu
        cases hu
      · rw [hr] at hc
        exact Or.inl (List.mem_singleton.mp hc)
      · rw [hurl] at hu
        cases hu
        rw [hr] at hc
        rcases List.mem_cons.mp hc with h0 | h0
        · exact Or.inl h0
        · rcases List.mem_append.mp h0 with h4 | h4
          · rcases tlsStage_calls_mem env host startTLS binddn password c h4 with h5 | h5 | h5
            · exact Or.inr (Or.inl h5)
            · exact Or.inr (Or.inr (Or.inl h5))
            · exact Or.inr (Or.inr (Or.inr (Or.inl h5)))
          · exact Or.inr (Or.inr (Or.inr (Or.inr (List.mem_singleton.mp h4))))
  · rw [getStats_exited startTLS binddn password hurl]
    exact ⟨rfl, rfl⟩

/-- C9, amended, at concrete sessions: StartTLS and bind are planned, the bind is rejected
and the search is not attempted; and a server URL without a scheme ends the process. -/
theorem C9_session_steps_witness :
    (getStats envBadPassword bindGlobals.server bindGlobals.startTLS bindGlobals.bindDn
        bindGlobals.bindPassword).calls.filterMap Call.step = [.connect, .startTLS, .bind] ∧
    (getStats envBadPassword bindGlobals.server bindGlobals.startTLS bindGlobals.bindDn
        bindGlobals.bindPassword).outcome
      = .returned DSData.empty (some ⟨"failed to bind", ⟨"Invalid Credentials"⟩⟩) ∧
    (getStats envBadURL "localhost" true "" "").outcome = .exited := by
  obtain ⟨h1, h2, _⟩ := (C9_session_steps envBadPassword bindGlobals.server
    bindGlobals.startTLS bindGlobals.bindDn bindGlobals.bindPassword).1 "localhost" rfl
  exact ⟨h1.trans (by decide), h2 .bind ⟨"Invalid Credentials"⟩ (by decide),
    ((C9_session_steps envBadURL "localhost" true "" "").2
      ⟨"invalid URI for request"⟩ rfl).2⟩

/-- C10: when the connection was opened (the URL parsed and the dial succeeded), the run
of `getStats` contains exactly one `Close`, as its last call, after the dial, however the
run ends; when the dial fails, or the URL does not parse, no `Close` is made. -/
theorem C10_close_once (env : Env) (server : String) (startTLS : Bool)
    (binddn password : String) :
    (∀ host, env.ParseRequestURI server = .ok host → env.DialURL server = none →
      (getStats env server startTLS binddn password).calls.count .Close = 1 ∧
      (getStats env server startTLS binddn password).calls.getLast? = some .Close ∧
      (getStats env server startTLS binddn password).calls.head? = some (.DialURL server)) ∧
    (∀ err, env.DialURL server = some err →
      Call.Close ∉ (getStats env server startTLS binddn password).calls) ∧
    (∀ err, env.ParseRequestURI server = .error err →
      (getStats env server startTLS binddn password).calls = []) := by
  refine ⟨?_, ?_, ?_⟩
  · intro host hurl hdial
    rcases getStats_cases env server startTLS binddn password with
      ⟨err, hu, _⟩ | ⟨host1, err, hu, hq, hr⟩ | ⟨host1, hu, hq, hr⟩
    · rw [hurl] at hu
      cases hu
    · rw [hdial] at hq
      cases hq
    · rw [hr]
      have hno := tlsStage_calls_noClose env host1 startTLS binddn password
      refine ⟨?_, ?_, rfl⟩
      · simp only [List.count_cons, List.count_append, List.count_nil,
          List.count_eq_zero.mpr hno]
        simp
      · simp only [← List.cons_append, List.getLast?_append, List.getLast?_singleton]
        rfl
  · intro err hdial
    rcases getStats_cases env server startTLS binddn password with
      ⟨err1, hu, hr⟩ | ⟨host1, err1, hu, hq, hr⟩ | ⟨host1, hu, hq, hr⟩
    · rw [hr]
      simp
    · rw [hr]
      simp
    · rw [hdial] at hq
      cases hq
  · intro err hurl
    rcases getStats_cases env server startTLS binddn password with
      ⟨err1, hu, hr⟩ | ⟨host1, err1, hu, hq, hr⟩ | ⟨host1, hu, hq, hr⟩
    · rw [hr]
    · rw [hurl] at hu
      cases hu
    · rw [hurl] at hu
      cases hu

/-- C10 at concrete sessions: a pass that succeeds, a pass in which the bind is rejected,
a pass whose search returns no entry, and a pass in which the connection is refused. -/
theorem C10_close_once_witness :
    (getStats envUp "ldap://localhost" true "" "").calls.count .Close = 1 ∧
    (getStats envBadPassword "ldap://localhost" true "cn=x" "pw").calls.count .Close = 1 ∧
    (getStats envNoEntry "ldap://localhost" true "" "").calls.count .Close = 1 ∧
    Call.Close ∉ (getStats envRefused "ldap://localhost" true "" "").calls :=
  ⟨((C10_close_once envUp "ldap://localhost" true "" "").1 "localhost" rfl rfl).1,
    ((C10_close_once envBadPassword "ldap://localhost" true "cn=x" "pw").1
      "localhost" rfl rfl).1,
    ((C10_close_once envNoEntry "ldap://localhost" true "" "").1 "localhost" rfl rfl).1,
    (C10_close_once envRefused "ldap://localhost" true "" "").2.1
      ⟨"connection refused"⟩ rfl⟩

/-! ## C11: passes that do not return -/

/-- The loop panics exactly when some attribute with a tracked name has no value. -/
theorem scanAttributes_eq_none_iff (attrs : List EntryAttribute) (v : Locals) :
    scanAttributes v attrs = none ↔ ∃ a ∈ attrs, a.Name ∈ trackedNames ∧ a.Values = [] := by
  constructor
  · intro h
    by_contra hno
    obtain ⟨v1, hv1⟩ := scanAttributes_isSome attrs v fun a ha hn hv => hno ⟨a, ha, hn, hv⟩
    rw [h] at hv1
    cases hv1
  · rintro ⟨a, ha, hn, hv⟩
    obtain ⟨pre, post, rfl⟩ := List.append_of_mem ha
    rw [scanAttributes_append]
    cases scanAttributes v pre with
    | none => rfl
    | some v1 =>
      obtain ⟨f, _, hf⟩ := List.mem_map.mp hn
      simp only [Option.some_bind, scanAttributes, assign_tracked v1 a f hf.symm, hv,
        List.getElem?_nil, Option.map_none']

/-- C11 fails on the code at two concrete passes in which every session step succeeds:
when the search returns no entry, `sr.Entries[0]` is out of range, and when the first
entry has a tracked attribute without a value, `value[0]` is out of range; in both
`getStats` panics after the search, the deferred close still runs, and `Collect` sends
no sample at all, not even `up`. -/
theorem C11_collect_panics :
    (getStats envNoEntry defaultGlobals.server defaultGlobals.startTLS defaultGlobals.bindDn
        defaultGlobals.bindPassword).outcome = .panicked ∧
    (getStats envNoEntry defaultGlobals.server defaultGlobals.startTLS defaultGlobals.bindDn
        defaultGlobals.bindPassword).calls
      = [.DialURL "ldap://localhost", .StartTLS "localhost", .Search searchRequest, .Close] ∧
    (NewExporter.Collect envNoEntry defaultGlobals).status = .panicked ∧
    (NewExporter.Collect envNoEntry defaultGlobals).sent = [] ∧
    (getStats envNoValue defaultGlobals.server defaultGlobals.startTLS defaultGlobals.bindDn
        defaultGlobals.bindPassword).outcome = .panicked ∧
    (NewExporter.Collect envNoValue defaultGlobals).status = .panicked ∧
    (NewExporter.Collect envNoValue defaultGlobals).sent = [] := by
  decide

/-! ## C12: the descriptors -/

theorem Exporter.Describe_eq (e : Exporter) :
    e.Describe = e.up :: Field.all.map e.desc := rfl

theorem Exporter.afterCollect_foldl (e : Exporter) (passes : List (Env × Globals)) :
    passes.foldl (fun e1 p => e1.afterCollect p.1 p.2) e = e := by
  induction passes with
  | nil => rfl
  | cons p rest ih => exact ih

/-- C12: `Describe` on the exporter built by `NewExporter` enumerates exactly 29
descriptors, pairwise distinct also by name: first the descriptor of `up`, named
`ds_exporter_up`, then one descriptor for each of the 28 fields of `DSData` other than
`up`, in declaration order, each named `ds_exporter_` followed by the name of its field,
and the 28 field names are the tracked names of the glossary.  `Describe` and `Collect`
leave the exporter as it is, so a second enumeration gives the same names and help texts
as the first, whatever collection passes run in between. -/
theorem C12_describe :
    NewExporter.Describe.length = 29 ∧
    NewExporter.Describe.Nodup ∧
    (NewExporter.Describe.map Desc.fqName).Nodup ∧
    NewExporter.Describe = NewExporter.up :: Field.all.map NewExporter.desc ∧
    NewExporter.up.fqName = "ds_exporter_up" ∧
    (∀ f : Field, (NewExporter.desc f).fqName = "ds_exporter_" ++ f.name) ∧
    Field.all.length = 28 ∧ Field.all.Nodup ∧ (∀ f : Field, f ∈ Field.all) ∧
    Field.all.map Field.name =
      ["anonymousbinds", "unauthbinds", "simpleauthbinds", "strongauthbinds",
       "bindsecurityerrors", "inops", "readops", "compareops", "addentryops",
       "removeentryops", "modifyentryops", "modifyrdnops", "searchops", "onelevelsearchops",
       "wholesubtreesearchops", "referrals", "securityerrors", "errors", "connections",
       "connectionseq", "connectionsinmaxthreads", "connectionsmaxthreadscount",
       "bytesrecv", "bytessent", "entriesreturned", "referralsreturned", "cacheentries",
       "cachehits"] ∧
    (∀ (d : DSData) (f : Field), (NewExporter.emit d).map Metric.desc = NewExporter.Describe ∧
      ⟨NewExporter.desc f, .CounterValue, d.get f⟩ ∈ NewExporter.emit d) ∧
    (∀ passes : List (Env × Globals),
      ((passes.foldl (fun e p => e.afterCollect p.1 p.2)
        NewExporter.afterDescribe).Describe.map fun d => (d.fqName, d.help))
        = NewExporter.Describe.map fun d => (d.fqName, d.help)) := by
  refine ⟨rfl, by decide, by decide, rfl, by decide, NewExporter_desc_fqName, rfl, by decide,
    Field.mem_all, rfl, ?_, ?_⟩
  · intro d f
    refine ⟨rfl, ?_⟩
    rw [Exporter.emit_eq]
    exact List.mem_cons_of_mem _ (List.mem_map.mpr ⟨f, Field.mem_all f, rfl⟩)
  · intro passes
    rw [Exporter.afterDescribe, Exporter.afterCollect_foldl]

/-! ## C13: several attributes of one name -/

/-- After the loop, the local of a field holds the first value of the last attribute that
carries the name of the field. -/
theorem scanAttributes_get_last {v v1 : Locals} {pre post : List EntryAttribute}
    {a : EntryAttribute} {f : Field} (h : scanAttributes v (pre ++ a :: post) = some v1)
    (hn : a.Name = f.name) (hpost : ∀ b ∈ post, b.Name ≠ f.name) :
    a.Values[0]? = some (v1.get f) := by
  rw [scanAttributes_append] at h
  cases hpre : scanAttributes v pre with
  | none => rw [hpre] at h; cases h
  | some v2 =>
    rw [hpre] at h
    simp only [Option.some_bind, scanAttributes] at h
    cases hmid : assign v2 a with
    | none => rw [hmid] at h; cases h
    | some v3 =>
      rw [hmid] at h
      rw [scanAttributes_get_absent h f hpost]
      exact assign_get_same hmid f hn

/-- The local of a field after the loop is the one the loop computes from the attributes
of that name alone. -/
theorem scanAttributes_filter {attrs : List EntryAttribute} {v v1 : Locals}
    (h : scanAttributes v attrs = some v1) (f : Field) (w : Locals)
    (hw : w.get f = v.get f) :
    ∃ w1, scanAttributes w (attrs.filter fun a => a.Name = f.name) = some w1 ∧
      w1.get f = v1.get f := by
  induction attrs generalizing v w with
  | nil =>
    cases h
    exact ⟨w, rfl, hw⟩
  | cons a rest ih =>
    simp only [scanAttributes] at h
    cases ha : assign v a with
    | none => rw [ha] at h; cases h
    | some v2 =>
      rw [ha] at h
      by_cases hn : a.Name = f.name
      · rw [List.filter_cons_of_pos (by simpa using hn)]
        have hx := assign_get_same ha f hn
        have hwa : assign w a = some (w.set f (v2.get f)) := by
          rw [assign_tracked w a f hn, hx]
          rfl
        obtain ⟨w1, hw1, hg⟩ := ih h (w.set f (v2.get f)) (Locals.get_set_self _ _ _)
        exact ⟨w1, by simp only [scanAttributes, hwa, hw1], hg⟩
      · rw [List.filter_cons_of_neg (by simpa using hn)]
        exact ih h w (hw.trans (assign_get_other ha f hn).symm)

/-- C13: let every attribute with a tracked name carry a value, so that the extraction
returns.  Then a field is the coercion of the first value of the last attribute that
carries its name, however many attributes of that name come before it, and it is 0 when
there is none; and a second attribute list with the same attributes of that name, in the
same order, gives the same field, whatever its attributes of other names are and
wherever they stand. -/
theorem C13_last_attribute_wins (f : Field) (attrs other : List EntryAttribute)
    (hvals : ∀ a ∈ attrs, a.Name ∈ trackedNames → a.Values ≠ [])
    (hother : ∀ a ∈ other, a.Name ∈ trackedNames → a.Values ≠ [])
    (hsame : (other.filter fun a => a.Name = f.name)
      = attrs.filter fun a => a.Name = f.name) :
    ∃ d d1, extract attrs = some d ∧ extract other = some d1 ∧ d1.get f = d.get f ∧
      (∀ pre a post x more, attrs = pre ++ a :: post → a.Name = f.name →
        a.Values = x :: more → (∀ b ∈ post, b.Name ≠ f.name) → d.get f = parseOrZero x) ∧
      ((∀ a ∈ attrs, a.Name ≠ f.name) → d.get f = F64.zero) := by
  obtain ⟨v, hv⟩ := scanAttributes_isSome attrs Locals.init hvals
  obtain ⟨v1, hv1⟩ := scanAttributes_isSome other Locals.init hother
  obtain ⟨w, hw, hg⟩ := scanAttributes_filter hv f Locals.init rfl
  obtain ⟨w1, hw1, hg1⟩ := scanAttributes_filter hv1 f Locals.init rfl
  rw [hsame, hw] at hw1
  cases hw1
  refine ⟨toDSData v, toDSData v1, by simp only [extract, hv, Option.map_some'],
    by simp only [extract, hv1, Option.map_some'], ?_, ?_, ?_⟩
  · rw [toDSData_get, toDSData_get, ← hg, ← hg1]
  · intro pre a post x more hsplit hn hx hpost
    subst hsplit
    have hlast := scanAttributes_get_last hv hn hpost
    rw [hx] at hlast
    simp only [List.getElem?_cons_zero, Option.some.injEq] at hlast
    rw [toDSData_get, ← hlast]
  · intro habs
    rw [toDSData_get, scanAttributes_get_absent hv f habs, Locals.get_init, parseOrZero_empty]

/-- C13 at a concrete entry: three `readops` attributes with first values 1, 2 and 3
give `readops = 3`, also after the other attributes are changed and moved. -/
theorem C13_last_attribute_wins_witness :
    ∃ d d1,
      extract [⟨"readops", ["1"]⟩, ⟨"inops", ["5"]⟩, ⟨"readops", ["2", "9"]⟩, ⟨"cn", ["snmp"]⟩,
        ⟨"readops", ["3"]⟩] = some d ∧
      extract [⟨"errors", ["8"]⟩, ⟨"readops", ["1"]⟩, ⟨"readops", ["2", "9"]⟩,
        ⟨"readops", ["3"]⟩, ⟨"inops", ["77"]⟩] = some d1 ∧
      d1.readops = d.readops ∧ d.readops = F64.ofInt 3 := by
  obtain ⟨d, d1, hd, hd1, hsame, hlast, _⟩ := C13_last_attribute_wins .readops
    [⟨"readops", ["1"]⟩, ⟨"inops", ["5"]⟩, ⟨"readops", ["2", "9"]⟩, ⟨"cn", ["snmp"]⟩,
      ⟨"readops", ["3"]⟩]
    [⟨"errors", ["8"]⟩, ⟨"readops", ["1"]⟩, ⟨"readops", ["2", "9"]⟩, ⟨"readops", ["3"]⟩,
      ⟨"inops", ["77"]⟩]
    (by decide) (by decide) (by decide)
  have h3 : d.readops = parseOrZero "3" :=
    hlast [⟨"readops", ["1"]⟩, ⟨"inops", ["5"]⟩, ⟨"readops", ["2", "9"]⟩, ⟨"cn", ["snmp"]⟩]
      ⟨"readops", ["3"]⟩ [] "3" [] rfl rfl rfl (by decide)
  exact ⟨d, d1, hd, hd1, hsame, h3.trans (by decide)⟩

end DSExporter
